import Mathlib

/-!
CFluidCantera, the reacting-mixture fluid model (SU2_CFD/src/fluid/CFluidCantera.cpp).

Shallow embedding of `CFluidCantera` and proofs about it.

Modelling conventions

* `su2double` is idealised as `ℚ`: arithmetic is exact, IEEE rounding, infinities and NaN are
  not represented.  Division follows Lean (`x / 0 = 0`); statements whose value depends on a
  quotient assume the divisor is nonzero.  The exception is the running sum of
  `DictionaryChemicalComposition`, a `Double`: its two operations, `sum += x` and `1.0 - sum`,
  round to the nearest binary64 number, a tie going to the even significand, and overflow to
  an infinity.  The mass fractions passed in are finite; the sign of a zero is not
  represented.
* The chemistry backend (`sol`, a Cantera `Solution`) is an external library.  Its query
  functions are the fields of `Solution`, functions of the thermodynamic state last given to
  `setState_TPY`; that state and the sequence of calls made on the backend are part of the
  engine state (`sol_state`, `sol_calls`).
* Member arrays (`gasComposition`, `molarMasses`, `massDiffusivity`, `chemicalSourceTerm`,
  `MassDiffusivityPointers`) are declared in a header that is not part of the sources at hand;
  they are maps from the slot index to its value, and the constant `ARRAYSIZE` of that header
  is a parameter of the constructor.  Local `std::vector` buffers have the length the code
  gives them and every access is bounds checked: an out-of-bounds access is undefined
  behaviour, `none`.  Arrays behind pointer arguments (`val_scalars`, `enthalpy_diffusions`)
  are maps as well.
* The functions are those of the build with `USE_CANTERA`.
* `n_species_mixture` is `config->GetnSpecies() + 1`, an `int` that is at least 1; it is a
  natural number here and statements that use `n_species_mixture - 1` assume it is positive.
  `counter` stays below 22, so no integer overflows.
* `cout` is the list of lines written so far.
-/

namespace SU2

/-! ## Numbers and their textual form -/

/-- The scalar type of the solver, idealised as exact rationals. -/
abbrev su2double := ℚ

/-- The fraction `a / d` rounded to the nearest integer, a tie going to the even neighbour. -/
def roundHalfEven (a d : ℕ) : ℕ :=
  let f := a / d
  let r2 := 2 * (a % d)
  if r2 < d then f else if d < r2 then f + 1 else if f % 2 = 0 then f else f + 1

/-- Millionths shown by `std::to_string` (the `"%f"` conversion) for `|v|`: `|v| * 10^6`
rounded to the nearest integer, a tie going to the even neighbour. -/
def micro (v : su2double) : ℕ :=
  let x := |v| * 1000000
  roundHalfEven x.num.natAbs x.den

/-- Six fractional digits, zero padded on the left. -/
def pad6 (k : ℕ) : String :=
  let s := toString k
  String.mk (List.replicate (6 - s.length) '0') ++ s

/-- `std::to_string(double)`: sign, integer part, a dot and six fractional digits. -/
def to_string (v : su2double) : String :=
  (if v < 0 then "-" else "") ++ toString (micro v / 1000000) ++ "." ++ pad6 (micro v % 1000000)

/-- The number that the text `to_string v` denotes. -/
def to_string_value (v : su2double) : ℚ :=
  (if v < 0 then -1 else 1) * ((micro v : ℚ) / 1000000)

/-- The power `2^e` for an integer exponent. -/
def pow2 (e : ℤ) : ℚ :=
  if 0 ≤ e then ((2 ^ e.toNat : ℕ) : ℚ) else 1 / ((2 ^ (-e).toNat : ℕ) : ℚ)

/-- Number of binary digits of `n`; `fuel` bounds the number of halvings. -/
def bitLength : ℕ → ℕ → ℕ
  | 0, _ => 0
  | fuel + 1, n => if n = 0 then 0 else bitLength fuel (n / 2) + 1

/-- Exponent of the leading binary digit of the positive fraction `a / d`. -/
def ilog2 (a d : ℕ) : ℤ :=
  let e : ℤ := (bitLength a a : ℤ) - (bitLength d d : ℤ)
  if (a : ℚ) / (d : ℚ) < pow2 e then e - 1 else e

/-- Exponent of the unit in the last place of the binary64 numbers of the size of `x`: 52
below the leading binary digit (53 significant bits), and at least `-1074` (subnormal
range). -/
def ulpExp (x : ℚ) : ℤ := max (ilog2 x.num.natAbs x.den - 52) (-1074)

/-- The significand of the binary64 number nearest to `x`: `|x|` in units in the last place,
rounded to the nearest integer, a tie going to the even neighbour. -/
def significand (x : ℚ) : ℕ :=
  let y := |x| / pow2 (ulpExp x)
  roundHalfEven y.num.natAbs y.den

/-- The number with a 53-bit significand nearest to `x`, a tie going to the even significand
(the default IEEE 754 rounding); the exponent is at least that of the subnormal range and is
not bounded above. -/
def roundDouble (x : ℚ) : ℚ :=
  if x = 0 then 0
  else (if x < 0 then -1 else 1) * (significand x : ℚ) * pow2 (ulpExp x)

/-- What an arithmetic operation on finite doubles yields: a finite number or an infinity. -/
inductive Double where
  | finite (value : ℚ)
  | infinite (negative : Bool)
deriving DecidableEq

/-- The result of an operation on doubles whose exact value is `x`: the nearest binary64
number, or the infinity of the sign of `x` when rounding takes `|x|` to `2^1024` or above. -/
def Double.ofExact (x : ℚ) : Double :=
  if |roundDouble x| < pow2 1024 then Double.finite (roundDouble x)
  else Double.infinite (decide (x < 0))

/-- The sum `a + v` of doubles, `v` finite. -/
def Double.add (a : Double) (v : su2double) : Double :=
  match a with
  | Double.finite s => Double.ofExact (s + v)
  | Double.infinite negative => Double.infinite negative

/-- The difference `1.0 - a` of doubles. -/
def Double.oneMinus (a : Double) : Double :=
  match a with
  | Double.finite s => Double.ofExact (1 - s)
  | Double.infinite negative => Double.infinite (!negative)

/-- `std::to_string` of such a value; the `"%f"` conversion writes an infinity as `inf`. -/
def Double.toText (a : Double) : String :=
  match a with
  | Double.finite v => to_string v
  | Double.infinite negative => if negative then "-inf" else "inf"

/-! ## The chemistry backend -/

/-- Thermodynamic state of the backend phase: the arguments of the last `setState_TPY`. -/
structure ThermoState where
  T : su2double
  P : su2double
  Y : String
deriving DecidableEq

/-- Calls made on the backend object `sol`. -/
inductive Call where
  | setState_TPY (T P : su2double) (Y : String)
  | density
  | enthalpy_mass
  | cp_mass
  | cv_mass
  | viscosity
  | thermalConductivity
  | RT
  | nSpecies
  | nReactions
  | speciesIndex (name : String)
  | getMixDiffCoeffsMass
  | getNetProductionRates
  | getPartialMolarEnthalpies
  | getEnthalpy_RT_ref
  | getCp_R_ref
  | getMolecularWeights
deriving DecidableEq

/-- The query interface of the backend.  Array-valued queries write one value per backend
species (`nSpecies` values) into the buffer they are handed; `speciesIndex` is `none` when the
name is unknown to the backend (`npos`, which the code narrows to `int`). -/
structure Solution where
  nSpecies : ℕ
  nReactions : ℕ
  speciesIndex : String → Option ℕ
  density : ThermoState → su2double
  enthalpy_mass : ThermoState → su2double
  cp_mass : ThermoState → su2double
  cv_mass : ThermoState → su2double
  viscosity : ThermoState → su2double
  thermalConductivity : ThermoState → su2double
  RT : ThermoState → su2double
  getMixDiffCoeffsMass : ThermoState → ℕ → su2double
  getNetProductionRates : ThermoState → ℕ → su2double
  getPartialMolarEnthalpies : ThermoState → ℕ → su2double
  getEnthalpy_RT_ref : ThermoState → ℕ → su2double
  getCp_R_ref : ThermoState → ℕ → su2double
  getMolecularWeights : ℕ → su2double

/-- A local `std::vector<su2double>` of fixed length. -/
structure Vec where
  size : ℕ
  data : ℕ → su2double

/-- `vector<su2double> v(len)`: `len` zeros. -/
def Vec.zeros (len : ℕ) : Vec := ⟨len, fun _ => 0⟩

/-- The backend writes `count` values `w 0 .. w (count-1)` from the start of the buffer.
Writing past the end is undefined. -/
def Vec.fill (v : Vec) (count : ℕ) (w : ℕ → su2double) : Option Vec :=
  if count ≤ v.size then some ⟨v.size, fun i => if i < count then w i else v.data i⟩ else none

/-- Read `v[i]` where `i` is the `int` obtained from `speciesIndex`. -/
def Vec.read (v : Vec) (i : Option ℕ) : Option su2double :=
  match i with
  | none => none
  | some k => if k < v.size then some (v.data k) else none

/-! ## The engine state -/

/-- Modelled from the spec: the per-species mass-diffusivity law that
`MakeMassDiffusivityModel` builds (the factory and the model classes are not among the sources
at hand).  A law is a constant value, a value derived from a Schmidt number, or the passthrough
of the backend's coefficient. -/
inductive DiffusivityModel where
  | constantDiffusivity (value : su2double)
  | constantSchmidt (schmidt : su2double)
  | backend
deriving DecidableEq

/-- The members of `CFluidCantera` (with those inherited from `CFluidModel`) that the code
reads or writes, the state of the backend object it owns, and the console. -/
structure CFluidCantera where
  n_species_mixture : ℕ
  Pressure_Thermodynamic : su2double
  gasComposition : ℕ → String
  molarMasses : ℕ → su2double
  MassDiffusivityPointers : ℕ → Option DiffusivityModel
  Temperature : su2double
  Density : su2double
  Enthalpy : su2double
  Cp : su2double
  Cv : su2double
  Mu : su2double
  Kt : su2double
  massDiffusivity : ℕ → su2double
  chemicalSourceTerm : ℕ → su2double
  Heat_Release : su2double
  chemical_composition : String
  sol_state : ThermoState
  sol_calls : List Call
  cout : List String

/-- Record a query made on the backend. -/
def CFluidCantera.call (st : CFluidCantera) (c : Call) : CFluidCantera :=
  { st with sol_calls := st.sol_calls ++ [c] }

/-- `sol->thermo()->setState_TPY(T, P, Y)`. -/
def CFluidCantera.setState_TPY (st : CFluidCantera) (T P : su2double) (Y : String) :
    CFluidCantera :=
  { st with sol_state := ⟨T, P, Y⟩, sol_calls := st.sol_calls ++ [Call.setState_TPY T P Y] }

/-- `cout << line << endl`. -/
def CFluidCantera.print (st : CFluidCantera) (line : String) : CFluidCantera :=
  { st with cout := st.cout ++ [line] }

/-! ## DictionaryChemicalComposition -/

/-- One pass of the loop of `DictionaryChemicalComposition`: the text and the running sum
`val_scalars_sum`, a double (`val_scalars_sum += val_scalars[i_scalar]` rounds). -/
def dictStep (st : CFluidCantera) (val_scalars : ℕ → su2double) (acc : String × Double)
    (i_scalar : ℕ) : String × Double :=
  (acc.1 ++ (st.gasComposition i_scalar ++ ":" ++ to_string (val_scalars i_scalar) ++ ", "),
   acc.2.add (val_scalars i_scalar))

/-- `CFluidCantera::DictionaryChemicalComposition`: stores and returns the composition text.
The last entry renders the double `1.0 - val_scalars_sum`. -/
def DictionaryChemicalComposition (val_scalars : ℕ → su2double) (st : CFluidCantera) :
    CFluidCantera × String :=
  let acc := (List.range (st.n_species_mixture - 1)).foldl (dictStep st val_scalars)
    ("", Double.finite 0)
  let text := acc.1 ++
    (st.gasComposition (st.n_species_mixture - 1) ++ ":" ++ acc.2.oneMinus.toText)
  ({ st with chemical_composition := text }, text)

/-! ## Property computations against the current backend state -/

/-- `for (int iVar = 0; iVar < n; iVar++) body`, where the body may be undefined. -/
def forLoop (n : ℕ) (body : ℕ → CFluidCantera → Option CFluidCantera) (st : CFluidCantera) :
    Option CFluidCantera :=
  (List.range n).foldlM (fun s iVar => body iVar s) st

/-- Body of the loop of `ComputeMassDiffusivity`. -/
def massDiffusivityBody (sol : Solution) (diff : Vec) (iVar : ℕ) (s : CFluidCantera) :
    Option CFluidCantera :=
  let speciesIndex := sol.speciesIndex (s.gasComposition iVar)
  let s := s.call (Call.speciesIndex (s.gasComposition iVar))
  (diff.read speciesIndex).map fun v =>
    { s with massDiffusivity := Function.update s.massDiffusivity iVar v }

/-- `CFluidCantera::ComputeMassDiffusivity`. -/
def ComputeMassDiffusivity (sol : Solution) (st : CFluidCantera) : Option CFluidCantera :=
  let nsp := sol.nSpecies
  let st := st.call Call.nSpecies
  let st := st.call Call.getMixDiffCoeffsMass
  ((Vec.zeros nsp).fill sol.nSpecies (sol.getMixDiffCoeffsMass st.sol_state)).bind fun diff =>
    forLoop st.n_species_mixture (massDiffusivityBody sol diff) st

/-- Body of the loop of `ComputeChemicalSourceTerm`. -/
def chemicalSourceTermBody (sol : Solution) (netProductionRates : Vec) (iVar : ℕ)
    (s : CFluidCantera) : Option CFluidCantera :=
  let speciesIndex := sol.speciesIndex (s.gasComposition iVar)
  let s := s.call (Call.speciesIndex (s.gasComposition iVar))
  match speciesIndex with
  | none => none
  | some k =>
    (netProductionRates.read (some k)).map fun w =>
      { s with chemicalSourceTerm := Function.update s.chemicalSourceTerm iVar (s.molarMasses k * w) }

/-- `CFluidCantera::ComputeChemicalSourceTerm`. -/
def ComputeChemicalSourceTerm (sol : Solution) (st : CFluidCantera) : Option CFluidCantera :=
  let st := st.call Call.nReactions
  let st := st.call Call.getNetProductionRates
  ((Vec.zeros sol.nReactions).fill sol.nSpecies (sol.getNetProductionRates st.sol_state)).bind
    fun netProductionRates =>
      forLoop st.n_species_mixture (chemicalSourceTermBody sol netProductionRates) st

/-- Body of the loop of `ComputeHeatRelease`. -/
def heatReleaseBody (sol : Solution) (netProductionRates partialMolarEnthalpies : Vec) (iVar : ℕ)
    (s : CFluidCantera) : Option CFluidCantera :=
  let speciesIndex := sol.speciesIndex (s.gasComposition iVar)
  let s := s.call (Call.speciesIndex (s.gasComposition iVar))
  (partialMolarEnthalpies.read speciesIndex).bind fun h =>
    (netProductionRates.read speciesIndex).map fun w =>
      { s with Heat_Release := s.Heat_Release + h * w }

/-- `CFluidCantera::ComputeHeatRelease`. -/
def ComputeHeatRelease (sol : Solution) (st : CFluidCantera) : Option CFluidCantera :=
  let st := st.call Call.nReactions
  let st := st.call Call.nSpecies
  let st := st.call Call.getNetProductionRates
  ((Vec.zeros sol.nReactions).fill sol.nSpecies (sol.getNetProductionRates st.sol_state)).bind
    fun netProductionRates =>
      let st := st.call Call.getPartialMolarEnthalpies
      ((Vec.zeros sol.nSpecies).fill sol.nSpecies
          (sol.getPartialMolarEnthalpies st.sol_state)).bind
        fun partialMolarEnthalpies =>
          let st := { st with Heat_Release := 0 }
          forLoop st.n_species_mixture
            (heatReleaseBody sol netProductionRates partialMolarEnthalpies) st

/-! ## SetTDState_T -/

/-- The part of `SetTDState_T` before the three property computations: composition text,
temperature, backend state and the six scalars read back from it. -/
def setThermo (sol : Solution) (val_temperature : su2double) (val_scalars : ℕ → su2double)
    (st : CFluidCantera) : CFluidCantera :=
  let st := (DictionaryChemicalComposition val_scalars st).1
  let st := { st with Temperature := val_temperature }
  let st := st.setState_TPY st.Temperature st.Pressure_Thermodynamic st.chemical_composition
  let st := { st.call Call.density with Density := sol.density st.sol_state }
  let st := { st.call Call.enthalpy_mass with Enthalpy := sol.enthalpy_mass st.sol_state }
  let st := { st.call Call.cp_mass with Cp := sol.cp_mass st.sol_state }
  let st := { st.call Call.cv_mass with Cv := sol.cv_mass st.sol_state }
  let st := { st.call Call.viscosity with Mu := sol.viscosity st.sol_state }
  { st.call Call.thermalConductivity with Kt := sol.thermalConductivity st.sol_state }

/-- `CFluidCantera::SetTDState_T`. -/
def SetTDState_T (sol : Solution) (val_temperature : su2double) (val_scalars : ℕ → su2double)
    (st : CFluidCantera) : Option CFluidCantera :=
  (ComputeMassDiffusivity sol (setThermo sol val_temperature val_scalars st)).bind fun st =>
    (ComputeChemicalSourceTerm sol st).bind fun st =>
      ComputeHeatRelease sol st

/-! ## GetEnthalpyDiffusivity and GetGradEnthalpyDiffusivity -/

/-- `for (int iVar = 0; iVar < n; iVar++) body` over any loop state. -/
def forRange {σ : Type} (n : ℕ) (body : ℕ → σ → Option σ) (s : σ) : Option σ :=
  (List.range n).foldlM (fun s iVar => body iVar s) s

/-- Record several queries made on the backend, in order. -/
def CFluidCantera.calls (st : CFluidCantera) (cs : List Call) : CFluidCantera :=
  { st with sol_calls := st.sol_calls ++ cs }

/-- Body of the loop of `GetEnthalpyDiffusivity`; the loop state is the engine and the array
behind `enthalpy_diffusions`. -/
def enthalpyDiffusivityBody (sol : Solution) (uni_gas_constant_temp : su2double)
    (enthalpiesSpecies diff : Vec) (speciesN : Option ℕ) (iVar : ℕ)
    (s : CFluidCantera × (ℕ → su2double)) : Option (CFluidCantera × (ℕ → su2double)) :=
  let speciesIndex := sol.speciesIndex (s.1.gasComposition iVar)
  let st := s.1.call (Call.speciesIndex (s.1.gasComposition iVar))
  match speciesIndex, speciesN with
  | some k, some kN =>
    (enthalpiesSpecies.read (some k)).bind fun hk =>
      (diff.read (some k)).bind fun dk =>
        (enthalpiesSpecies.read (some kN)).bind fun hN =>
          (diff.read (some kN)).map fun dN =>
            (st, Function.update s.2 iVar
              (st.Density * uni_gas_constant_temp
                * ((hk * dk / st.molarMasses k) - (hN * dN / st.molarMasses kN))))
  | _, _ => none

/-- `CFluidCantera::GetEnthalpyDiffusivity`: the engine (only its record of backend calls
changes) and the array behind `enthalpy_diffusions`.  The backend is not modified between the
queries that precede the loop; they are recorded together, in the order of the code. -/
def GetEnthalpyDiffusivity (sol : Solution) (enthalpy_diffusions : ℕ → su2double)
    (st : CFluidCantera) : Option (CFluidCantera × (ℕ → su2double)) :=
  let nsp := sol.nSpecies
  let uni_gas_constant_temp := sol.RT st.sol_state
  ((Vec.zeros nsp).fill sol.nSpecies (sol.getEnthalpy_RT_ref st.sol_state)).bind
    fun enthalpiesSpecies =>
      ((Vec.zeros nsp).fill sol.nSpecies (sol.getMixDiffCoeffsMass st.sol_state)).bind
        fun diff =>
          let speciesN := sol.speciesIndex (st.gasComposition (st.n_species_mixture - 1))
          let st := st.calls [Call.nSpecies, Call.RT, Call.getEnthalpy_RT_ref,
            Call.getMixDiffCoeffsMass,
            Call.speciesIndex (st.gasComposition (st.n_species_mixture - 1))]
          forRange (st.n_species_mixture - 1)
            (enthalpyDiffusivityBody sol uni_gas_constant_temp enthalpiesSpecies diff speciesN)
            (st, enthalpy_diffusions)

/-- Body of the loop of `GetGradEnthalpyDiffusivity`. -/
def gradEnthalpyDiffusivityBody (sol : Solution) (universal_gas_constant : su2double)
    (specificHeatSpecies diff : Vec) (speciesN : Option ℕ) (iVar : ℕ)
    (s : CFluidCantera × (ℕ → su2double)) : Option (CFluidCantera × (ℕ → su2double)) :=
  let speciesIndex := sol.speciesIndex (s.1.gasComposition iVar)
  let st := s.1.call (Call.speciesIndex (s.1.gasComposition iVar))
  match speciesIndex, speciesN with
  | some k, some kN =>
    (specificHeatSpecies.read (some k)).bind fun ck =>
      (diff.read (some k)).bind fun dk =>
        (specificHeatSpecies.read (some kN)).bind fun cN =>
          (diff.read (some kN)).map fun dN =>
            (st, Function.update s.2 iVar
              (st.Density * universal_gas_constant
                * ((ck * dk / st.molarMasses k) - (cN * dN / st.molarMasses kN))))
  | _, _ => none

/-- `CFluidCantera::GetGradEnthalpyDiffusivity`. -/
def GetGradEnthalpyDiffusivity (sol : Solution) (grad_enthalpy_diffusions : ℕ → su2double)
    (st : CFluidCantera) : Option (CFluidCantera × (ℕ → su2double)) :=
  let nsp := sol.nSpecies
  let universal_gas_constant := sol.RT st.sol_state / st.Temperature
  ((Vec.zeros nsp).fill sol.nSpecies (sol.getCp_R_ref st.sol_state)).bind
    fun specificHeatSpecies =>
      ((Vec.zeros nsp).fill sol.nSpecies (sol.getMixDiffCoeffsMass st.sol_state)).bind
        fun diff =>
          let speciesN := sol.speciesIndex (st.gasComposition (st.n_species_mixture - 1))
          let st := st.calls [Call.nSpecies, Call.RT, Call.getCp_R_ref,
            Call.getMixDiffCoeffsMass,
            Call.speciesIndex (st.gasComposition (st.n_species_mixture - 1))]
          forRange (st.n_species_mixture - 1)
            (gradEnthalpyDiffusivityBody sol universal_gas_constant specificHeatSpecies diff
              speciesN)
            (st, grad_enthalpy_diffusions)

/-! ## Construction -/

/-- The part of the configuration that the constructor uses: `GetnSpecies()`,
`GetChemical_GasComposition(iVar)` and, for each species index, the model that
`MakeMassDiffusivityModel(config, iVar)` builds.  The other values it reads initialise
members that no function at hand reads again; they are left out. -/
structure CConfig where
  nSpecies : ℕ
  Chemical_GasComposition : ℕ → String
  MakeMassDiffusivityModel : ℕ → DiffusivityModel

/-- `CFluidCantera::SetMassDiffusivityModel`. -/
def SetMassDiffusivityModel (config : CConfig) (st : CFluidCantera) : CFluidCantera :=
  (List.range st.n_species_mixture).foldl
    (fun s iVar => { s with
      MassDiffusivityPointers :=
        Function.update s.MassDiffusivityPointers iVar
          (some (config.MakeMassDiffusivityModel iVar)) })
    st

/-- Message of the fatal error of the constructor. -/
def tooManySpecies : String := "Too many species, increase ARRAYSIZE"

set_option linter.dupNamespace false in
/-- The constructor `CFluidCantera::CFluidCantera` (build with `USE_CANTERA`).  `ARRAYSIZE` is
a constant of a header that is not at hand, `sol` is the backend that `newSolution` loads and `object` holds the
members as they are before the constructor body runs.  `SU2_MPI::Error` ends the program:
the result is then the message. -/
def CFluidCantera.CFluidCantera (ARRAYSIZE : ℕ) (sol : Solution)
    (value_pressure_operating : su2double) (config : CConfig) (object : CFluidCantera) :
    Except String CFluidCantera :=
  let st := { object with
    n_species_mixture := config.nSpecies + 1
    Pressure_Thermodynamic := value_pressure_operating }
  if st.n_species_mixture > ARRAYSIZE then Except.error tooManySpecies
  else
    let st := { st.call Call.getMolecularWeights with
      molarMasses := fun k => if k < sol.nSpecies then sol.getMolecularWeights k
        else st.molarMasses k }
    let st := (List.range st.n_species_mixture).foldl
      (fun s iVar => { s with
        gasComposition :=
          Function.update s.gasComposition iVar (config.Chemical_GasComposition iVar) })
      st
    Except.ok (SetMassDiffusivityModel config st)

/-! ## ComputeTempFromEnthalpy -/

/-- Convergence criterion for temperature, `toll = 1e-5`. -/
def toll : su2double := 1 / 100000

/-- Cap on the number of Newton iterations. -/
def counter_limit : ℕ := 20

/-- The local variables of `ComputeTempFromEnthalpy` that live across iterations. -/
structure NewtonVars where
  temp_iter : su2double
  delta_temp_iter : su2double
  counter : ℕ

/-- Text written when an iterate is negative. -/
def negativeTemperatureWarning : String :=
  "Warning: Negative temperature has been found during Newton-Raphson"

/-- Text written when `counter == counter_limit` after the loop. -/
def maxIterationWarning : String :=
  "Warning Newton-Raphson exceed number of max iteration in temperature computation"

/-- The statements of the loop body up to and including `temp_iter += delta_temp_iter`.
`counter` already holds its incremented value. -/
def newtonBody (sol : Solution) (val_enthalpy : su2double) (st : CFluidCantera)
    (v : NewtonVars) : CFluidCantera × NewtonVars :=
  let st := st.setState_TPY v.temp_iter st.Pressure_Thermodynamic st.chemical_composition
  let Enthalpy := sol.enthalpy_mass st.sol_state
  let st := st.call Call.enthalpy_mass
  let Cp := sol.cp_mass st.sol_state
  let st := st.call Call.cp_mass
  let delta_enthalpy_iter := val_enthalpy - Enthalpy
  let delta_temp_iter := delta_enthalpy_iter / Cp
  (st, { temp_iter := v.temp_iter + delta_temp_iter, delta_temp_iter := delta_temp_iter,
         counter := v.counter + 1 })

/-- The `while` loop of `ComputeTempFromEnthalpy`; `fuel` bounds the number of evaluations of
the loop condition, `none` when it is used up.  The condition is
`(abs(delta_temp_iter) > toll) && (counter++ < counter_limit)`: the increment takes place
whenever the first conjunct holds, also when the comparison then fails. -/
def newtonWhile (sol : Solution) (val_enthalpy : su2double) :
    ℕ → CFluidCantera → NewtonVars → Option (CFluidCantera × NewtonVars)
  | 0, _, _ => none
  | fuel + 1, st, v =>
    if |v.delta_temp_iter| > toll then
      if v.counter < counter_limit then
        let r := newtonBody sol val_enthalpy st v
        if r.2.temp_iter < 0 then
          some (r.1.print negativeTemperatureWarning, r.2)
        else newtonWhile sol val_enthalpy fuel r.1 r.2
      else some (st, { v with counter := v.counter + 1 })
    else some (st, v)

/-- `CFluidCantera::ComputeTempFromEnthalpy`: the engine state after the call and the value
stored through `val_temperature`. -/
def ComputeTempFromEnthalpy (sol : Solution) (val_enthalpy : su2double)
    (val_scalars : ℕ → su2double) (st : CFluidCantera) : Option (CFluidCantera × su2double) :=
  let st := (DictionaryChemicalComposition val_scalars st).1
  (newtonWhile sol val_enthalpy (counter_limit + 1) st
      { temp_iter := 300, delta_temp_iter := 10000000000, counter := 0 }).map fun r =>
    if r.2.counter = counter_limit then (r.1.print maxIterationWarning, r.2.temp_iter)
    else (r.1, r.2.temp_iter)

/-- Number of `setState_TPY` calls in a sequence of backend calls. -/
def countSetState : List Call → ℕ
  | [] => 0
  | Call.setState_TPY _ _ _ :: cs => countSetState cs + 1
  | _ :: cs => countSetState cs

/-! ## Vocabulary of the statements -/

/-- Exact sum of the first `m` transported mass fractions. -/
def scalarSum (val_scalars : ℕ → su2double) (m : ℕ) : su2double :=
  ∑ i in Finset.range m, val_scalars i

/-- The first `m` transported mass fractions summed in double arithmetic, in order, starting
from `0.0`: the value of `val_scalars_sum` after `m` passes. -/
def doubleSum (val_scalars : ℕ → su2double) : ℕ → Double
  | 0 => Double.finite 0
  | m + 1 => (doubleSum val_scalars m).add (val_scalars m)

/-- The double `a` is greater than the number `c`. -/
def Double.exceeds (a : Double) (c : ℚ) : Prop :=
  match a with
  | Double.finite s => c < s
  | Double.infinite negative => negative = false

/-- The value part of entry `i` of the composition: the rendering of the input for a
transported species, of the double `1.0 - val_scalars_sum` for the last one. -/
def entryValueText (st : CFluidCantera) (val_scalars : ℕ → su2double) (i : ℕ) : String :=
  if i + 1 < st.n_species_mixture then to_string (val_scalars i)
  else (doubleSum val_scalars (st.n_species_mixture - 1)).oneMinus.toText

/-- Entry `i` of the composition text, `name:value`. -/
def entryText (st : CFluidCantera) (val_scalars : ℕ → su2double) (i : ℕ) : String :=
  st.gasComposition i ++ ":" ++ entryValueText st val_scalars i

/-- The number written by a list of decimal digits. -/
def digitsValue (cs : List Char) : ℕ :=
  cs.foldl (fun acc c => 10 * acc + (c.toNat - 48)) 0

/-- The number that a decimal numeral `[-]digits.digits` denotes. -/
def fromFixed (text : String) : ℚ :=
  let cs := text.data
  let body := if cs.head? = some '-' then cs.tail else cs
  let whole := body.takeWhile (fun c => c != '.')
  let fraction := (body.dropWhile (fun c => c != '.')).tail
  (if cs.head? = some '-' then -1 else 1)
    * ((digitsValue whole : ℚ) + (digitsValue fraction : ℚ) / (10 : ℚ) ^ fraction.length)

/-- The mass fraction that entry `i` of the composition text denotes: its value part, read
as a decimal numeral. -/
def entryValue (st : CFluidCantera) (val_scalars : ℕ → su2double) (i : ℕ) : ℚ :=
  fromFixed (entryValueText st val_scalars i)

/-- An engine with three species and nothing computed yet. -/
def st3 : CFluidCantera :=
  { n_species_mixture := 3, Pressure_Thermodynamic := 101325,
    gasComposition := fun i => if i = 0 then "H2" else if i = 1 then "O2" else "N2",
    molarMasses := fun _ => 1, MassDiffusivityPointers := fun _ => none, Temperature := 0,
    Density := 0, Enthalpy := 0, Cp := 0, Cv := 0,
    Mu := 0, Kt := 0, massDiffusivity := fun _ => 0, chemicalSourceTerm := fun _ => 0,
    Heat_Release := 0, chemical_composition := "", sol_state := ⟨0, 0, ""⟩, sol_calls := [],
    cout := [] }

/-- Two transported mass fractions of `3 / 2^23` each (about `3.6e-7`). -/
def tinyScalars : ℕ → su2double := fun _ => 3 / 8388608

/-- The doubles `0.9` and `0.1`: the binary64 numbers nearest to `9/10` and `1/10`. -/
def decimalScalars : ℕ → su2double :=
  fun i => if i = 0 then roundDouble (9 / 10) else roundDouble (1 / 10)

/-- The double `1e16` in every slot. -/
def hugeScalars : ℕ → su2double := fun _ => 10000000000000000

/-- Backend enthalpy at temperature `T`, at the operating pressure and at the composition
text built from `val_scalars`. -/
def enthalpyAt (sol : Solution) (st : CFluidCantera) (val_scalars : ℕ → su2double)
    (T : su2double) : su2double :=
  sol.enthalpy_mass
    ⟨T, st.Pressure_Thermodynamic, (DictionaryChemicalComposition val_scalars st).2⟩

/-- Backend heat capacity at temperature `T`, same pressure and composition. -/
def cpAt (sol : Solution) (st : CFluidCantera) (val_scalars : ℕ → su2double)
    (T : su2double) : su2double :=
  sol.cp_mass ⟨T, st.Pressure_Thermodynamic, (DictionaryChemicalComposition val_scalars st).2⟩

/-- The Newton sequence `T_0 = 300`, `T_{k+1} = T_k + (h_target - h(T_k)) / Cp(T_k)`. -/
def newtonSeq (sol : Solution) (st : CFluidCantera) (val_enthalpy : su2double)
    (val_scalars : ℕ → su2double) : ℕ → su2double
  | 0 => 300
  | k + 1 =>
    newtonSeq sol st val_enthalpy val_scalars k
      + (val_enthalpy - enthalpyAt sol st val_scalars (newtonSeq sol st val_enthalpy val_scalars k))
        / cpAt sol st val_scalars (newtonSeq sol st val_enthalpy val_scalars k)

/-- The sequence is cut at `k`: the step to `T_k` is within tolerance, or `T_k` is negative,
or `k` is the iteration cap. -/
def stopAt (sol : Solution) (st : CFluidCantera) (val_enthalpy : su2double)
    (val_scalars : ℕ → su2double) (k : ℕ) : Prop :=
  |newtonSeq sol st val_enthalpy val_scalars k
      - newtonSeq sol st val_enthalpy val_scalars (k - 1)| ≤ toll
    ∨ newtonSeq sol st val_enthalpy val_scalars k < 0
    ∨ k = counter_limit

instance (sol : Solution) (st : CFluidCantera) (val_enthalpy : su2double)
    (val_scalars : ℕ → su2double) (k : ℕ) : Decidable (stopAt sol st val_enthalpy val_scalars k) :=
  inferInstanceAs (Decidable
    (|newtonSeq sol st val_enthalpy val_scalars k
        - newtonSeq sol st val_enthalpy val_scalars (k - 1)| ≤ toll
      ∨ newtonSeq sol st val_enthalpy val_scalars k < 0
      ∨ k = counter_limit))

/-- Least index from `k` on, among the next `fuel` ones, at which `p` holds (`k + fuel` when
there is none before). -/
def searchFirst (p : ℕ → Prop) [DecidablePred p] : ℕ → ℕ → ℕ
  | 0, k => k
  | fuel + 1, k => if p k then k else searchFirst p fuel (k + 1)

/-- The first `k ≥ 1` at which the Newton sequence is cut. -/
def cutIndex (sol : Solution) (st : CFluidCantera) (val_enthalpy : su2double)
    (val_scalars : ℕ → su2double) : ℕ :=
  searchFirst (stopAt sol st val_enthalpy val_scalars) (counter_limit - 1) 1

/-- The backend calls of the first `k` Newton iterations: for each iterate a `setState_TPY`
at that temperature, the operating pressure and the composition text, followed by the reads of
enthalpy and heat capacity. -/
def newtonCalls (sol : Solution) (st : CFluidCantera) (val_enthalpy : su2double)
    (val_scalars : ℕ → su2double) : ℕ → List Call
  | 0 => []
  | k + 1 =>
    newtonCalls sol st val_enthalpy val_scalars k
      ++ [Call.setState_TPY (newtonSeq sol st val_enthalpy val_scalars k)
            st.Pressure_Thermodynamic (DictionaryChemicalComposition val_scalars st).2,
          Call.enthalpy_mass, Call.cp_mass]

/-- Engine state and loop variables after `k` executions of the loop body, started from the
state in which `ComputeTempFromEnthalpy` enters its loop. -/
def newtonIter (sol : Solution) (val_enthalpy : su2double) (st0 : CFluidCantera) :
    ℕ → CFluidCantera × NewtonVars
  | 0 => (st0, { temp_iter := 300, delta_temp_iter := 10000000000, counter := 0 })
  | k + 1 =>
    newtonBody sol val_enthalpy (newtonIter sol val_enthalpy st0 k).1
      (newtonIter sol val_enthalpy st0 k).2

/-- The lines `ComputeTempFromEnthalpy` writes: the negative-temperature warning when the
cut iterate is negative, then the max-iteration warning when `counter` equals the cap after
the loop, which is the case exactly when the loop ends in its 20th pass, by a negative
iterate or by a step within tolerance. -/
def newtonOutput (sol : Solution) (st : CFluidCantera) (val_enthalpy : su2double)
    (val_scalars : ℕ → su2double) : List String :=
  (if newtonSeq sol st val_enthalpy val_scalars (cutIndex sol st val_enthalpy val_scalars) < 0
    then [negativeTemperatureWarning] else [])
  ++ (if cutIndex sol st val_enthalpy val_scalars = counter_limit
        ∧ (newtonSeq sol st val_enthalpy val_scalars (cutIndex sol st val_enthalpy val_scalars) < 0
          ∨ |newtonSeq sol st val_enthalpy val_scalars (cutIndex sol st val_enthalpy val_scalars)
              - newtonSeq sol st val_enthalpy val_scalars
                (cutIndex sol st val_enthalpy val_scalars - 1)| ≤ toll)
      then [maxIterationWarning] else [])

/-- Backend index of tracked species `i`, whose name is `names i` (0 when the backend does
not know the name; the code then reads at index -1). -/
def speciesIdx (sol : Solution) (names : ℕ → String) (i : ℕ) : ℕ :=
  (sol.speciesIndex (names i)).getD 0

/-- The name of tracked species `i` resolves to a backend index below `size`: a buffer of
that length can be read at it. -/
def readable (sol : Solution) (names : ℕ → String) (size i : ℕ) : Prop :=
  (sol.speciesIndex (names i)).isSome = true ∧ speciesIdx sol names i < size

instance (sol : Solution) (names : ℕ → String) (size i : ℕ) :
    Decidable (readable sol names size i) :=
  inferInstanceAs
    (Decidable ((sol.speciesIndex (names i)).isSome = true ∧ speciesIdx sol names i < size))

/-- The first `m` tracked species are readable in a buffer of length `size`. -/
def allReadable (sol : Solution) (names : ℕ → String) (size m : ℕ) : Prop :=
  ∀ i, i < m → readable sol names size i

instance (sol : Solution) (names : ℕ → String) (size m : ℕ) :
    Decidable (allReadable sol names size m) :=
  inferInstanceAs (Decidable (∀ i, i < m → readable sol names size i))

/-- The `speciesIndex` queries of a loop over the first `m` tracked species. -/
def speciesIndexCalls (names : ℕ → String) (m : ℕ) : List Call :=
  (List.range m).map fun i => Call.speciesIndex (names i)

/-- The kinetics and transport loops have defined behaviour: the backend has no more
species than reactions, so that the net production rates fit the buffer of length
`nReactions`, and every tracked species resolves to a backend species index. -/
def indexSafe (sol : Solution) (st : CFluidCantera) : Prop :=
  sol.nSpecies ≤ sol.nReactions ∧ allReadable sol st.gasComposition sol.nSpecies st.n_species_mixture

instance (sol : Solution) (st : CFluidCantera) : Decidable (indexSafe sol st) :=
  inferInstanceAs (Decidable (sol.nSpecies ≤ sol.nReactions
    ∧ allReadable sol st.gasComposition sol.nSpecies st.n_species_mixture))

/-- Backend calls of `ComputeMassDiffusivity`. -/
def massDiffusivityCalls (st : CFluidCantera) : List Call :=
  [Call.nSpecies, Call.getMixDiffCoeffsMass] ++ speciesIndexCalls st.gasComposition st.n_species_mixture

/-- Backend calls of `ComputeChemicalSourceTerm`. -/
def chemicalSourceTermCalls (st : CFluidCantera) : List Call :=
  [Call.nReactions, Call.getNetProductionRates] ++ speciesIndexCalls st.gasComposition st.n_species_mixture

/-- Backend calls of `ComputeHeatRelease`. -/
def heatReleaseCalls (st : CFluidCantera) : List Call :=
  [Call.nReactions, Call.nSpecies, Call.getNetProductionRates, Call.getPartialMolarEnthalpies]
    ++ speciesIndexCalls st.gasComposition st.n_species_mixture

/-- Sum over the tracked species of partial molar enthalpy times net molar production rate,
both taken at the backend index of the species, for the backend state `s`. -/
def heatReleaseSum (sol : Solution) (st : CFluidCantera) (s : ThermoState) : su2double :=
  ∑ i in Finset.range st.n_species_mixture,
    sol.getPartialMolarEnthalpies s (speciesIdx sol st.gasComposition i)
      * sol.getNetProductionRates s (speciesIdx sol st.gasComposition i)

/-- The engine state that `SetTDState_T (T, Y)` is to produce from `st`: composition text,
temperature, backend state `(T, operating pressure, text)`, the six scalars the backend reports
for it, then diffusivities, source terms and heat release of the `n` tracked species for that
same backend state; the backend calls are the set-state, the six reads, and those of the three
computations in the order diffusivity, source term, heat release. -/
def stateAfterSetTDState (sol : Solution) (val_temperature : su2double)
    (val_scalars : ℕ → su2double) (st : CFluidCantera) : CFluidCantera :=
  let text := (DictionaryChemicalComposition val_scalars st).2
  let s : ThermoState := ⟨val_temperature, st.Pressure_Thermodynamic, text⟩
  { st with
    chemical_composition := text
    Temperature := val_temperature
    Density := sol.density s
    Enthalpy := sol.enthalpy_mass s
    Cp := sol.cp_mass s
    Cv := sol.cv_mass s
    Mu := sol.viscosity s
    Kt := sol.thermalConductivity s
    massDiffusivity := fun i =>
      if i < st.n_species_mixture then sol.getMixDiffCoeffsMass s (speciesIdx sol st.gasComposition i)
      else st.massDiffusivity i
    chemicalSourceTerm := fun i =>
      if i < st.n_species_mixture then
        st.molarMasses (speciesIdx sol st.gasComposition i) * sol.getNetProductionRates s (speciesIdx sol st.gasComposition i)
      else st.chemicalSourceTerm i
    Heat_Release := heatReleaseSum sol st s
    sol_state := s
    sol_calls := st.sol_calls
      ++ [Call.setState_TPY val_temperature st.Pressure_Thermodynamic text, Call.density,
          Call.enthalpy_mass, Call.cp_mass, Call.cv_mass, Call.viscosity,
          Call.thermalConductivity]
      ++ massDiffusivityCalls st ++ chemicalSourceTermCalls st ++ heatReleaseCalls st }

/-! ## Concrete backends -/

/-- A backend with enthalpy `a + c * T` and heat capacity `c`, all else zero. -/
def affineSol (a c : su2double) : Solution :=
  { nSpecies := 3, nReactions := 3, speciesIndex := fun _ => none,
    density := fun _ => 0, enthalpy_mass := fun s => a + c * s.T, cp_mass := fun _ => c,
    cv_mass := fun _ => 0, viscosity := fun _ => 0, thermalConductivity := fun _ => 0,
    RT := fun _ => 0, getMixDiffCoeffsMass := fun _ _ => 0,
    getNetProductionRates := fun _ _ => 0, getPartialMolarEnthalpies := fun _ _ => 0,
    getEnthalpy_RT_ref := fun _ _ => 0, getCp_R_ref := fun _ _ => 0,
    getMolecularWeights := fun _ => 1 }

/-- A backend whose enthalpy is continuous, increasing and piecewise linear in `T`, with
slope 1 below 999 and above 1001 and slope 701 in between, zero at `T = 1000`; its heat
capacity is that slope. -/
def kinkSol : Solution :=
  { affineSol 0 1 with
    enthalpy_mass := fun s =>
      if s.T ≤ 999 then s.T - 1700 else if s.T < 1001 then 701 * (s.T - 1000) else s.T - 300
    cp_mass := fun s => if s.T ≤ 999 then 1 else if s.T < 1001 then 701 else 1 }

/-- A backend whose enthalpy is continuous, increasing and piecewise linear in `T`, zero at
`T = 300`, with slope `10^9` up to 300 and slope 1 above; its heat capacity is that slope
(the left one at 300). -/
def stiffSol : Solution :=
  { affineSol 0 1 with
    enthalpy_mass := fun s => if s.T ≤ 300 then 1000000000 * (s.T - 300) else s.T - 300
    cp_mass := fun s => if s.T ≤ 300 then 1000000000 else 1 }

/-- A backend with enthalpy `T + T^2 / 1000` and heat capacity `1 + T / 500`, its
derivative. -/
def quadSol : Solution :=
  { affineSol 0 1 with
    enthalpy_mass := fun s => s.T + s.T * s.T / 1000
    cp_mass := fun s => 1 + s.T / 500 }

/-- A backend with enthalpy `-(308 - T)^2` and heat capacity `2 * (308 - T)`, its derivative. -/
def parabolaSol : Solution :=
  { affineSol 0 1 with
    enthalpy_mass := fun s => -((308 - s.T) * (308 - s.T))
    cp_mass := fun s => 2 * (308 - s.T) }

/-- A backend with two species, `FUEL` (index 0) and `PROD` (index 1), one step
`FUEL -> PROD` running at rate of progress 3, partial molar enthalpies 50 and -50 (reaction
enthalpy -100), and `nReactions` reactions in all (any further ones at zero net rate). -/
def stepSol (nReactions : ℕ) : Solution :=
  { nSpecies := 2, nReactions := nReactions,
    speciesIndex := fun name =>
      if name = "FUEL" then some 0 else if name = "PROD" then some 1 else none,
    density := fun s => s.P / (287 * s.T), enthalpy_mass := fun s => 1000 * s.T,
    cp_mass := fun _ => 1000, cv_mass := fun _ => 713, viscosity := fun _ => 1 / 50000,
    thermalConductivity := fun _ => 1 / 40, RT := fun s => 8314 * s.T,
    getMixDiffCoeffsMass := fun _ k => if k = 0 then 1 / 10000 else 1 / 20000,
    getNetProductionRates := fun _ k => if k = 0 then -3 else if k = 1 then 3 else 0,
    getPartialMolarEnthalpies := fun _ k => if k = 0 then 50 else if k = 1 then -50 else 0,
    getEnthalpy_RT_ref := fun _ k => if k = 0 then -4 else -30,
    getCp_R_ref := fun _ k => if k = 0 then 5 else 4,
    getMolecularWeights := fun k => if k = 0 then 16 else 44 }

/-- An engine tracking `FUEL` and `PROD`, nothing computed yet. -/
def st2 : CFluidCantera :=
  { st3 with
    n_species_mixture := 2
    gasComposition := fun i => if i = 0 then "FUEL" else "PROD"
    molarMasses := fun k => if k = 0 then 16 else 44 }

/-- The same engine after some earlier evaluation left values in every field. -/
def st2used : CFluidCantera :=
  { st2 with
    Temperature := 2000, Density := 7, Enthalpy := 8, Cp := 9, Cv := 10, Mu := 11, Kt := 12
    massDiffusivity := fun _ => 13, chemicalSourceTerm := fun _ => 14, Heat_Release := 15
    chemical_composition := "FUEL:1.000000, PROD:0.000000"
    sol_state := ⟨2000, 101325, "FUEL:1.000000, PROD:0.000000"⟩ }

/-- The backend `stepSol 2` with every net production rate at zero: an inert mixture. -/
def inertSol : Solution :=
  { stepSol 2 with getNetProductionRates := fun _ _ => 0 }

/-- The engine `st2` configured with a constant-value diffusivity law, `1/1000`, for every
species. -/
def st2const : CFluidCantera :=
  { st2 with
    MassDiffusivityPointers := fun _ => some (DiffusivityModel.constantDiffusivity (1 / 1000)) }

/-- The structural formula of the differential-diffusion helper for one species:
`ρ * prefactor * (w[k] * D[k] / M[k] - w[kN] * D[kN] / M[kN])`, with `k` the backend index of
the species and `kN` that of the balance species. -/
def diffusionCoefficient (ρ prefactor : su2double) (w D M : ℕ → su2double) (k kN : ℕ) :
    su2double :=
  ρ * prefactor * (w k * D k / M k - w kN * D kN / M kN)

/-- The generic differential-diffusion function of a prefactor and per-species weights `w`:
slot `i < n - 1` of the output receives `diffusionCoefficient` for tracked species `i` against
the last tracked species, with the stored density, the backend's mixture-averaged
diffusivities and the molar masses; the other slots keep their values. -/
def differentialDiffusion (sol : Solution) (st : CFluidCantera) (prefactor : su2double)
    (w : ℕ → su2double) (out : ℕ → su2double) : ℕ → su2double :=
  fun i =>
    if i < st.n_species_mixture - 1 then
      diffusionCoefficient st.Density prefactor w (sol.getMixDiffCoeffsMass st.sol_state)
        st.molarMasses (speciesIdx sol st.gasComposition i)
        (speciesIdx sol st.gasComposition (st.n_species_mixture - 1))
    else out i

/-- Backend calls of `GetEnthalpyDiffusivity` (`weights = getEnthalpy_RT_ref`) and of
`GetGradEnthalpyDiffusivity` (`weights = getCp_R_ref`). -/
def diffusionCalls (st : CFluidCantera) (weights : Call) : List Call :=
  [Call.nSpecies, Call.RT, weights, Call.getMixDiffCoeffsMass,
    Call.speciesIndex (st.gasComposition (st.n_species_mixture - 1))]
  ++ speciesIndexCalls st.gasComposition (st.n_species_mixture - 1)

/-- A configuration with one transported species: `FUEL` with a constant-value law and the
balance species `PROD` with the backend law. -/
def config2 : CConfig :=
  { nSpecies := 1
    Chemical_GasComposition := fun i => if i = 0 then "FUEL" else "PROD"
    MakeMassDiffusivityModel := fun i =>
      if i = 0 then DiffusivityModel.constantDiffusivity (1 / 1000) else DiffusivityModel.backend }

/-! ## DictionaryChemicalComposition: proofs -/

theorem roundHalfEven_near (a d : ℕ) (hd : 0 < d) :
    |(roundHalfEven a d : ℚ) - (a : ℚ) / d| ≤ 1 / 2 := by
  have hdq : (0 : ℚ) < (d : ℚ) := by exact_mod_cast hd
  have hdiv : (a : ℚ) = (d : ℚ) * ((a / d : ℕ) : ℚ) + ((a % d : ℕ) : ℚ) := by
    exact_mod_cast (Nat.div_add_mod a d).symm
  have hq : (a : ℚ) / d - ((a / d : ℕ) : ℚ) = ((a % d : ℕ) : ℚ) / d := by
    generalize ((a / d : ℕ) : ℚ) = f at hdiv ⊢
    generalize ((a % d : ℕ) : ℚ) = r at hdiv ⊢
    rw [hdiv]
    field_simp
  have hr0 : (0 : ℚ) ≤ ((a % d : ℕ) : ℚ) / d := by positivity
  have hr1 : ((a % d : ℕ) : ℚ) / d < 1 := by
    rw [div_lt_one hdq]
    exact_mod_cast Nat.mod_lt a hd
  unfold roundHalfEven
  simp only []
  by_cases h1 : 2 * (a % d) < d
  · rw [if_pos h1]
    have h1q : 2 * ((a % d : ℕ) : ℚ) < d := by exact_mod_cast h1
    have : ((a % d : ℕ) : ℚ) / d < 1 / 2 := by
      rw [div_lt_iff₀ hdq]; linarith
    rw [abs_le]; constructor <;> linarith
  · rw [if_neg h1]
    by_cases h2 : d < 2 * (a % d)
    · rw [if_pos h2]
      have h2q : (d : ℚ) < 2 * ((a % d : ℕ) : ℚ) := by exact_mod_cast h2
      have : 1 / 2 < ((a % d : ℕ) : ℚ) / d := by
        rw [lt_div_iff₀ hdq]; linarith
      push_cast
      rw [abs_le]; constructor <;> linarith
    · rw [if_neg h2]
      have h3 : 2 * (a % d) = d := by omega
      have h3q : 2 * ((a % d : ℕ) : ℚ) = d := by exact_mod_cast h3
      have : ((a % d : ℕ) : ℚ) / d = 1 / 2 := by
        rw [div_eq_iff hdq.ne']; linarith
      split_ifs
      · rw [abs_le]; constructor <;> linarith
      · push_cast
        rw [abs_le]; constructor <;> linarith

theorem natAbs_num_div_den (x : ℚ) (hx : 0 ≤ x) : ((x.num.natAbs : ℕ) : ℚ) / (x.den : ℚ) = x := by
  have hnum : ((x.num.natAbs : ℕ) : ℚ) = (x.num : ℚ) := by
    have h0 : 0 ≤ x.num := Rat.num_nonneg.mpr hx
    have h1 : ((x.num.natAbs : ℕ) : ℤ) = x.num := Int.natAbs_of_nonneg h0
    calc ((x.num.natAbs : ℕ) : ℚ) = (((x.num.natAbs : ℕ) : ℤ) : ℚ) := (Int.cast_natCast _).symm
      _ = (x.num : ℚ) := by rw [h1]
  rw [hnum, Rat.num_div_den]

theorem roundHalfEven_rat (x : ℚ) (hx : 0 ≤ x) :
    |(roundHalfEven x.num.natAbs x.den : ℚ) - x| ≤ 1 / 2 := by
  have key := roundHalfEven_near x.num.natAbs x.den x.den_pos
  rw [natAbs_num_div_den x hx] at key
  exact key

theorem bitLength_spec : ∀ fuel n : ℕ, n ≤ fuel →
    n < 2 ^ bitLength fuel n ∧ (n ≠ 0 → 2 ^ (bitLength fuel n - 1) ≤ n)
  | 0, n, h => by
    have : n = 0 := by omega
    subst this
    simp [bitLength]
  | fuel + 1, n, h => by
    unfold bitLength
    by_cases hn : n = 0
    · simp [hn]
    · rw [if_neg hn]
      have hle : n / 2 ≤ fuel := by omega
      obtain ⟨h1, h2⟩ := bitLength_spec fuel (n / 2) hle
      constructor
      · rw [pow_succ]
        generalize 2 ^ bitLength fuel (n / 2) = p at h1
        omega
      · intro _
        simp only [Nat.add_sub_cancel]
        by_cases h0 : n / 2 = 0
        · have hb : bitLength fuel (n / 2) = 0 := by
            rw [h0]
            cases fuel <;> simp [bitLength]
          rw [hb]
          simp
          omega
        · have h3 := h2 h0
          obtain ⟨b, hb⟩ : ∃ b, bitLength fuel (n / 2) = b + 1 := by
            refine ⟨bitLength fuel (n / 2) - 1, ?_⟩
            have : bitLength fuel (n / 2) ≠ 0 := by
              intro hc
              rw [hc] at h1
              simp at h1
              exact h0 h1
            omega
          rw [hb] at h3 ⊢
          simp only [Nat.add_sub_cancel] at h3
          rw [pow_succ]
          generalize 2 ^ b = p at h3
          omega

theorem pow2_eq (e : ℤ) : pow2 e = (2 : ℚ) ^ e := by
  unfold pow2
  by_cases h : 0 ≤ e
  · rw [if_pos h]
    obtain ⟨k, rfl⟩ := Int.eq_ofNat_of_zero_le h
    simp
  · rw [if_neg h]
    obtain ⟨k, hk⟩ : ∃ k : ℕ, e = -(k : ℤ) := ⟨(-e).toNat, by omega⟩
    subst hk
    simp

theorem pow2_natCast (j : ℕ) : pow2 (j : ℤ) = ((2 ^ j : ℕ) : ℚ) := by
  rw [pow2_eq, zpow_natCast]
  push_cast
  rfl

theorem pow2_pos (e : ℤ) : 0 < pow2 e := by
  rw [pow2_eq]; positivity

theorem pow2_mono {a b : ℤ} (h : a ≤ b) : pow2 a ≤ pow2 b := by
  rw [pow2_eq, pow2_eq]
  exact zpow_le_zpow_right₀ (by norm_num) h

theorem pow2_add (a b : ℤ) : pow2 (a + b) = pow2 a * pow2 b := by
  rw [pow2_eq, pow2_eq, pow2_eq, zpow_add₀ (by norm_num)]

theorem bitLength_rat (n : ℕ) (hn : 0 < n) :
    pow2 ((bitLength n n : ℤ) - 1) ≤ (n : ℚ) ∧ (n : ℚ) < pow2 (bitLength n n) := by
  obtain ⟨h1, h2⟩ := bitLength_spec n n (le_refl n)
  have h3 := h2 (by omega)
  have hb : 1 ≤ bitLength n n := by
    by_contra hc
    have : bitLength n n = 0 := by omega
    rw [this] at h1
    simp at h1
    omega
  constructor
  · have : ((bitLength n n : ℤ) - 1) = ((bitLength n n - 1 : ℕ) : ℤ) := by omega
    rw [this, pow2_eq, zpow_natCast]
    exact_mod_cast h3
  · rw [pow2_eq, zpow_natCast]
    exact_mod_cast h1

theorem ilog2_spec (a d : ℕ) (ha : 0 < a) (hd : 0 < d) :
    pow2 (ilog2 a d) ≤ (a : ℚ) / d ∧ (a : ℚ) / d < pow2 (ilog2 a d + 1) := by
  obtain ⟨a1, a2⟩ := bitLength_rat a ha
  obtain ⟨d1, d2⟩ := bitLength_rat d hd
  have hdq : (0 : ℚ) < d := by exact_mod_cast hd
  have haq : (0 : ℚ) < a := by exact_mod_cast ha
  unfold ilog2
  simp only []
  generalize (bitLength a a : ℤ) = la at *
  generalize (bitLength d d : ℤ) = ld at *
  have hlow : pow2 (la - ld - 1) ≤ (a : ℚ) / d := by
    rw [le_div_iff₀ hdq]
    calc pow2 (la - ld - 1) * d ≤ pow2 (la - ld - 1) * pow2 ld :=
          mul_le_mul_of_nonneg_left (le_of_lt d2) (le_of_lt (pow2_pos _))
      _ = pow2 (la - 1) := by rw [← pow2_add]; congr 1; ring
      _ ≤ a := a1
  have hhigh : (a : ℚ) / d < pow2 (la - ld + 1) := by
    rw [div_lt_iff₀ hdq]
    calc (a : ℚ) < pow2 la := a2
      _ = pow2 (la - ld + 1) * pow2 (ld - 1) := by rw [← pow2_add]; congr 1; ring
      _ ≤ pow2 (la - ld + 1) * d := mul_le_mul_of_nonneg_left d1 (le_of_lt (pow2_pos _))
  by_cases h : (a : ℚ) / d < pow2 (la - ld)
  · rw [if_pos h]
    refine ⟨hlow, ?_⟩
    have : la - ld - 1 + 1 = la - ld := by ring
    rw [this]
    exact h
  · rw [if_neg h]
    exact ⟨not_lt.mp h, hhigh⟩

theorem natAbs_abs (x : ℚ) : ((x.num.natAbs : ℕ) : ℚ) / (x.den : ℚ) = |x| := by
  by_cases hx : 0 ≤ x
  · rw [natAbs_num_div_den x hx, abs_of_nonneg hx]
  · have h := natAbs_num_div_den (-x) (by linarith)
    rw [Rat.neg_num, Rat.neg_den, Int.natAbs_neg] at h
    rw [h, abs_of_neg (not_le.mp hx)]

theorem ulpExp_le (x : ℚ) (hx : pow2 (-1074) ≤ |x|) : pow2 (ulpExp x) ≤ |x| := by
  have hpos : 0 < |x| := lt_of_lt_of_le (pow2_pos _) hx
  have hx0 : x ≠ 0 := abs_pos.mp hpos
  have hnum : 0 < x.num.natAbs := Int.natAbs_pos.mpr (Rat.num_ne_zero.mpr hx0)
  obtain ⟨h1, -⟩ := ilog2_spec x.num.natAbs x.den hnum x.den_pos
  have habs := natAbs_abs x
  rw [habs] at h1
  unfold ulpExp
  rcases max_cases (ilog2 x.num.natAbs x.den - 52) (-1074) with ⟨h, -⟩ | ⟨h, -⟩
  · rw [h]
    exact le_trans (pow2_mono (by omega)) h1
  · rw [h]
    exact hx


theorem significand_near (x : ℚ) :
    |(significand x : ℚ) - |x| / pow2 (ulpExp x)| ≤ 1 / 2 :=
  roundHalfEven_rat _ (div_nonneg (abs_nonneg x) (le_of_lt (pow2_pos _)))

theorem roundDouble_nonpos (x : ℚ) (hx : x < 0) : roundDouble x ≤ 0 := by
  unfold roundDouble
  rw [if_neg (ne_of_lt hx), if_pos hx]
  have h1 : (0 : ℚ) ≤ (significand x : ℚ) := Nat.cast_nonneg _
  have h2 := pow2_pos (ulpExp x)
  nlinarith [mul_nonneg h1 (le_of_lt h2)]

theorem roundDouble_nonneg (x : ℚ) (hx : 0 ≤ x) : 0 ≤ roundDouble x := by
  unfold roundDouble
  by_cases h0 : x = 0
  · rw [if_pos h0]
  · rw [if_neg h0, if_neg (not_lt.mpr hx)]
    have h1 : (0 : ℚ) ≤ (significand x : ℚ) := Nat.cast_nonneg _
    have h2 := pow2_pos (ulpExp x)
    nlinarith [mul_nonneg h1 (le_of_lt h2)]

theorem significand_pos (x : ℚ) (hx : pow2 (-1074) ≤ |x|) : 1 ≤ significand x := by
  have h1 := ulpExp_le x hx
  have h2 := significand_near x
  have h3 : 1 ≤ |x| / pow2 (ulpExp x) := by
    rw [le_div_iff₀ (pow2_pos _)]
    linarith
  rw [abs_le] at h2
  have h4 : (0 : ℚ) < (significand x : ℚ) := by linarith [h2.1]
  have h5 : 0 < significand x := by exact_mod_cast h4
  exact h5

theorem roundDouble_neg (x : ℚ) (hx : x < 0) (hmag : pow2 (-1074) ≤ |x|) : roundDouble x < 0 := by
  unfold roundDouble
  rw [if_neg (ne_of_lt hx), if_pos hx]
  have h1 : (1 : ℚ) ≤ (significand x : ℚ) := by exact_mod_cast significand_pos x hmag
  have h2 := pow2_pos (ulpExp x)
  nlinarith [mul_pos (lt_of_lt_of_le one_pos h1) h2]

theorem roundDouble_grid (x : ℚ) : ∃ k : ℤ, roundDouble x = (k : ℚ) * pow2 (-1074) := by
  unfold roundDouble
  by_cases h0 : x = 0
  · exact ⟨0, by rw [if_pos h0]; simp⟩
  · rw [if_neg h0]
    have he : -1074 ≤ ulpExp x := le_max_right _ _
    obtain ⟨j, hj⟩ : ∃ j : ℕ, ulpExp x = (j : ℤ) + -1074 := ⟨(ulpExp x + 1074).toNat, by omega⟩
    have hp : pow2 (ulpExp x) = ((2 ^ j : ℕ) : ℚ) * pow2 (-1074) := by
      rw [hj, pow2_add, pow2_natCast]
    refine ⟨(if x < 0 then -1 else 1) * (significand x : ℤ) * ((2 ^ j : ℕ) : ℤ), ?_⟩
    rw [hp]
    split_ifs <;> push_cast <;> ring

theorem roundDouble_near (x : ℚ) :
    |roundDouble x - x| ≤ |x| * pow2 (-53) + pow2 (-1075) := by
  by_cases h0 : x = 0
  · subst h0
    have h1 := pow2_pos (-1075)
    simp [roundDouble]
    exact le_of_lt h1
  · have hpos : 0 < |x| := abs_pos.mpr h0
    have hnum : 0 < x.num.natAbs := Int.natAbs_pos.mpr (Rat.num_ne_zero.mpr h0)
    obtain ⟨h1, -⟩ := ilog2_spec x.num.natAbs x.den hnum x.den_pos
    rw [natAbs_abs] at h1
    have hulp : pow2 (ulpExp x) ≤ |x| * pow2 (-52) + pow2 (-1074) := by
      unfold ulpExp
      rcases max_cases (ilog2 x.num.natAbs x.den - 52) (-1074) with ⟨h, -⟩ | ⟨h, -⟩
      · rw [h, sub_eq_add_neg, pow2_add]
        have := mul_le_mul_of_nonneg_right h1 (le_of_lt (pow2_pos (-52)))
        linarith [pow2_pos (-1074)]
      · rw [h]
        have := mul_pos hpos (pow2_pos (-52))
        linarith
    have hs := significand_near x
    have hp := pow2_pos (ulpExp x)
    have h52 : pow2 (-52) = 2 * pow2 (-53) := by
      rw [show (-52 : ℤ) = 1 + -53 by norm_num, pow2_add]
      congr 1
    have h1074 : pow2 (-1074) = 2 * pow2 (-1075) := by
      rw [show (-1074 : ℤ) = 1 + -1075 by norm_num, pow2_add]
      congr 1
    have hkey : |roundDouble x - x| = |(significand x : ℚ) - |x| / pow2 (ulpExp x)| * pow2 (ulpExp x) := by
      unfold roundDouble
      rw [if_neg h0]
      rw [← abs_of_pos hp, ← abs_mul, abs_of_pos hp, sub_mul, div_mul_cancel₀ _ (ne_of_gt hp)]
      by_cases hx : x < 0
      · rw [if_pos hx, abs_of_neg hx]
        rw [← abs_neg]
        congr 1
        ring
      · rw [if_neg hx, abs_of_nonneg (not_lt.mp hx)]
        congr 1
        ring
    rw [hkey]
    have := mul_le_mul_of_nonneg_right hs (le_of_lt hp)
    rw [h52, h1074] at hulp
    linarith

/-- A multiple of the least positive binary64 number lies at least that far from 1 when it exceeds 1. -/
theorem grid_gap (s : ℚ) (k : ℤ) (hk : s = (k : ℚ) * pow2 (-1074)) (hs : 1 < s) :
    pow2 (-1074) ≤ |1 - s| := by
  have hη := pow2_pos (-1074)
  obtain ⟨N, h1⟩ : ∃ N : ℕ, (1 : ℚ) = (N : ℚ) * pow2 (-1074) := by
    refine ⟨2 ^ 1074, ?_⟩
    have : pow2 (((1074 : ℕ) : ℤ) + -1074) = pow2 ((1074 : ℕ) : ℤ) * pow2 (-1074) := pow2_add _ _
    rw [pow2_natCast] at this
    rw [← this]
    rfl
  have h2 : s - 1 = ((k - (N : ℤ) : ℤ) : ℚ) * pow2 (-1074) := by
    push_cast
    rw [sub_mul, ← hk, ← h1]
  have h3 : 0 < ((k - (N : ℤ) : ℤ) : ℚ) := by
    by_contra hc
    have := mul_nonpos_of_nonpos_of_nonneg (not_lt.mp hc) (le_of_lt hη)
    linarith
  have h4 : 0 < (k - (N : ℤ) : ℤ) := by exact_mod_cast h3
  have h5 : (1 : ℚ) ≤ ((k - (N : ℤ) : ℤ) : ℚ) := by exact_mod_cast h4
  rw [abs_of_neg (by linarith), neg_sub, h2]
  nlinarith

theorem roundDouble_one_sub (s : ℚ) (k : ℤ) (hk : s = (k : ℚ) * pow2 (-1074)) :
    roundDouble (1 - s) < 0 ↔ 1 < s := by
  constructor
  · intro h
    by_contra hc
    have := roundDouble_nonneg (1 - s) (by linarith)
    linarith
  · intro h
    exact roundDouble_neg _ (by linarith) (grid_gap s k hk h)

theorem micro_near (v : su2double) : |(micro v : ℚ) - |v| * 1000000| ≤ 1 / 2 :=
  roundHalfEven_rat _ (by positivity)

theorem to_string_value_near (v : su2double) : |to_string_value v - v| ≤ 1 / 2000000 := by
  have key := micro_near v
  rw [abs_le] at key ⊢
  unfold to_string_value
  by_cases hv : v < 0
  · rw [if_pos hv]
    rw [abs_of_neg hv] at key
    constructor <;> linarith [key.1, key.2]
  · rw [if_neg hv]
    rw [abs_of_nonneg (not_lt.mp hv)] at key
    constructor <;> linarith [key.1, key.2]

theorem digitChar_toNat (k : ℕ) (hk : k < 10) : (Nat.digitChar k).toNat - 48 = k := by
  interval_cases k <;> rfl

theorem digitChar_ne (k : ℕ) (hk : k < 10) :
    Nat.digitChar k ≠ '.' ∧ Nat.digitChar k ≠ '-' := by
  interval_cases k <;> exact ⟨by decide, by decide⟩

theorem toDigitsCore_foldl (f : ℕ → Char → ℕ) (hf : ∀ acc c, f acc c = 10 * acc + (c.toNat - 48)) :
    ∀ (fuel n : ℕ) (ds : List Char), n < fuel →
      (Nat.toDigitsCore 10 fuel n ds).foldl f 0 = ds.foldl f n
  | 0, n, ds, h => by omega
  | fuel + 1, n, ds, h => by
    simp only [Nat.toDigitsCore]
    have hd := digitChar_toNat (n % 10) (Nat.mod_lt _ (by decide))
    by_cases h0 : n / 10 = 0
    · rw [if_pos h0]
      simp only [List.foldl_cons, hf, hd]
      congr 1
      omega
    · rw [if_neg h0, toDigitsCore_foldl f hf fuel (n / 10) _ (by omega)]
      simp only [List.foldl_cons, hf, hd]
      congr 1
      omega

theorem digitsValue_toDigits (n : ℕ) : digitsValue (Nat.toDigits 10 n) = n := by
  unfold digitsValue Nat.toDigits
  rw [toDigitsCore_foldl _ (fun _ _ => rfl) _ _ _ (Nat.lt_succ_self n)]
  rfl

theorem toDigitsCore_mem : ∀ (fuel n : ℕ) (ds : List Char) (c : Char),
    c ∈ Nat.toDigitsCore 10 fuel n ds → (c ≠ '.' ∧ c ≠ '-') ∨ c ∈ ds
  | 0, n, ds, c, h => Or.inr h
  | fuel + 1, n, ds, c, h => by
    simp only [Nat.toDigitsCore] at h
    have hd := digitChar_ne (n % 10) (Nat.mod_lt _ (by decide))
    by_cases h0 : n / 10 = 0
    · rw [if_pos h0] at h
      rcases List.mem_cons.mp h with h | h
      · left; rw [h]; exact hd
      · right; exact h
    · rw [if_neg h0] at h
      rcases toDigitsCore_mem fuel (n / 10) _ c h with h | h
      · left; exact h
      · rcases List.mem_cons.mp h with h | h
        · left; rw [h]; exact hd
        · right; exact h

theorem toDigits_mem (n : ℕ) (c : Char) (h : c ∈ Nat.toDigits 10 n) : c ≠ '.' ∧ c ≠ '-' := by
  rcases toDigitsCore_mem _ _ _ c h with h | h
  · exact h
  · exact absurd h (List.not_mem_nil c)

theorem toDigitsCore_ne_nil : ∀ (fuel n : ℕ) (ds : List Char),
    Nat.toDigitsCore 10 (fuel + 1) n ds ≠ []
  | 0, n, ds => by
    simp only [Nat.toDigitsCore]
    split_ifs <;> simp
  | fuel + 1, n, ds => by
    rw [Nat.toDigitsCore]
    split_ifs
    · simp
    · exact toDigitsCore_ne_nil fuel _ _

theorem digitsValue_zeros (k : ℕ) (cs : List Char) :
    digitsValue (List.replicate k '0' ++ cs) = digitsValue cs := by
  unfold digitsValue
  rw [List.foldl_append]
  congr 1
  induction k with
  | zero => rfl
  | succ j ih =>
    rw [List.replicate_succ, List.foldl_cons]
    exact ih

theorem takeWhile_dot (l r : List Char) (hl : ∀ c ∈ l, c ≠ '.') :
    (l ++ '.' :: r).takeWhile (fun c => c != '.') = l
      ∧ (l ++ '.' :: r).dropWhile (fun c => c != '.') = '.' :: r := by
  induction l with
  | nil => simp
  | cons a t ih =>
    have ha : a ≠ '.' := hl a (List.mem_cons_self _ _)
    have := ih (fun c hc => hl c (List.mem_cons_of_mem _ hc))
    have hb : (a != '.') = true := by simp [ha]
    rw [List.cons_append, List.takeWhile_cons, List.dropWhile_cons]
    simp only [hb, if_true]
    exact ⟨by rw [this.1], this.2⟩

theorem to_string_data (v : su2double) :
    (to_string v).data
      = (if v < 0 then ['-'] else [])
        ++ (Nat.toDigits 10 (micro v / 1000000)
          ++ '.' :: (List.replicate (6 - (Nat.toDigits 10 (micro v % 1000000)).length) '0'
            ++ Nat.toDigits 10 (micro v % 1000000))) := by
  unfold to_string pad6
  by_cases hv : v < 0
  · simp [hv, toString, Nat.repr, String.length, List.asString]
  · simp [hv, toString, Nat.repr, String.length, List.asString]

theorem fromFixed_to_string (v : su2double) : fromFixed (to_string v) = to_string_value v := by
  have hlen : (Nat.toDigits 10 (micro v % 1000000)).length ≤ 6 := by
    have := Nat.repr_length (micro v % 1000000) 6 (by decide)
      (Nat.mod_lt _ (by decide))
    simpa [Nat.repr, String.length, List.asString] using this
  have hwhole : ∀ c ∈ Nat.toDigits 10 (micro v / 1000000), c ≠ '.' :=
    fun c hc => (toDigits_mem _ c hc).1
  obtain ⟨a, t, hat⟩ : ∃ a t, Nat.toDigits 10 (micro v / 1000000) = a :: t := by
    have := toDigitsCore_ne_nil (micro v / 1000000) (micro v / 1000000) []
    cases h : Nat.toDigits 10 (micro v / 1000000) with
    | nil => exact absurd h this
    | cons a t => exact ⟨a, t, rfl⟩
  have ha : a ≠ '-' := (toDigits_mem (micro v / 1000000) a (by rw [hat]; simp)).2
  have hsplit := takeWhile_dot (Nat.toDigits 10 (micro v / 1000000))
    (List.replicate (6 - (Nat.toDigits 10 (micro v % 1000000)).length) '0'
            ++ Nat.toDigits 10 (micro v % 1000000)) hwhole
  have hfrac : ((List.replicate (6 - (Nat.toDigits 10 (micro v % 1000000)).length) '0'
            ++ Nat.toDigits 10 (micro v % 1000000))).length = 6 := by
    rw [List.length_append, List.length_replicate]
    omega
  have hm : ((micro v / 1000000 : ℕ) : ℚ) + ((micro v % 1000000 : ℕ) : ℚ) / 1000000
      = (micro v : ℚ) / 1000000 := by
    have := Nat.div_add_mod (micro v) 1000000
    have h2 : (micro v : ℚ) = 1000000 * ((micro v / 1000000 : ℕ) : ℚ)
        + ((micro v % 1000000 : ℕ) : ℚ) := by exact_mod_cast this.symm
    rw [h2]
    field_simp
    ring
  unfold fromFixed to_string_value
  simp only []
  rw [to_string_data]
  by_cases hv : v < 0
  · simp only [if_pos hv, List.singleton_append, List.head?_cons, if_true, List.tail_cons]
    rw [hsplit.1, hsplit.2, List.tail_cons, hfrac, digitsValue_toDigits, digitsValue_zeros,
      digitsValue_toDigits, ← hm]
    norm_num
  · simp only [if_neg hv, List.nil_append]
    have hhead : (Nat.toDigits 10 (micro v / 1000000) ++ '.' ::
        (List.replicate (6 - (Nat.toDigits 10 (micro v % 1000000)).length) '0'
            ++ Nat.toDigits 10 (micro v % 1000000))).head? ≠ some '-' := by
      rw [hat]
      simp [ha]
    rw [if_neg hhead, if_neg hhead]
    rw [hsplit.1, hsplit.2, List.tail_cons, hfrac, digitsValue_toDigits, digitsValue_zeros,
      digitsValue_toDigits, ← hm]
    norm_num

/-- The text `to_string v` starts with a minus sign exactly when `v` is negative. -/
theorem to_string_minus (v : su2double) : (to_string v).data.head? = some '-' ↔ v < 0 := by
  rw [to_string_data]
  obtain ⟨a, t, hat⟩ : ∃ a t, Nat.toDigits 10 (micro v / 1000000) = a :: t := by
    have := toDigitsCore_ne_nil (micro v / 1000000) (micro v / 1000000) []
    cases h : Nat.toDigits 10 (micro v / 1000000) with
    | nil => exact absurd h this
    | cons a t => exact ⟨a, t, rfl⟩
  have ha : a ≠ '-' := (toDigits_mem (micro v / 1000000) a (by rw [hat]; simp)).2
  by_cases hv : v < 0
  · simp [hv]
  · simp [hv, hat, ha]

/-! ## DictionaryChemicalComposition: the claim -/

theorem dict_foldl (st : CFluidCantera) (val_scalars : ℕ → su2double) (m : ℕ) :
    (List.range m).foldl (dictStep st val_scalars) ("", Double.finite 0)
      = (String.join ((List.range m).map fun i =>
            st.gasComposition i ++ ":" ++ to_string (val_scalars i) ++ ", "),
         doubleSum val_scalars m) := by
  induction m with
  | zero => simp [doubleSum, String.join]
  | succ k ih =>
    rw [List.range_succ, List.foldl_append, ih]
    simp [dictStep, doubleSum, String.join]

theorem ofExact_grid (x s : ℚ) (h : Double.ofExact x = Double.finite s) :
    ∃ k : ℤ, s = (k : ℚ) * pow2 (-1074) := by
  unfold Double.ofExact at h
  split_ifs at h
  injection h with h
  rw [← h]
  exact roundDouble_grid x

theorem doubleSum_grid (val_scalars : ℕ → su2double) (m : ℕ) (s : ℚ)
    (h : doubleSum val_scalars m = Double.finite s) :
    ∃ k : ℤ, s = (k : ℚ) * pow2 (-1074) := by
  cases m with
  | zero =>
    injection h with h
    exact ⟨0, by rw [← h]; simp⟩
  | succ j =>
    simp only [doubleSum] at h
    cases hj : doubleSum val_scalars j with
    | finite t =>
      rw [hj] at h
      exact ofExact_grid _ s h
    | infinite negative =>
      rw [hj] at h
      exact absurd h (by simp [Double.add])

/-- The rendering of `1.0 - a` starts with a minus sign exactly when `a` exceeds 1, for every
double `a` that is an infinity or a multiple of the least positive double. -/
theorem oneMinus_minus (a : Double)
    (hgrid : ∀ s, a = Double.finite s → ∃ k : ℤ, s = (k : ℚ) * pow2 (-1074)) :
    a.oneMinus.toText.data.head? = some '-' ↔ a.exceeds 1 := by
  cases a with
  | finite s =>
    obtain ⟨k, hk⟩ := hgrid s rfl
    simp only [Double.oneMinus, Double.ofExact, Double.exceeds]
    by_cases hfin : |roundDouble (1 - s)| < pow2 1024
    · rw [if_pos hfin]
      simp only [Double.toText]
      rw [to_string_minus]
      exact roundDouble_one_sub s k hk
    · rw [if_neg hfin]
      simp only [Double.toText]
      by_cases hs : 1 - s < 0
      · have : (1 : ℚ) < s := by linarith
        simp [hs, this]
      · have : ¬ (1 : ℚ) < s := by
          intro h
          exact hs (by linarith)
        simp [hs, this]
  | infinite negative =>
    cases negative <;> simp [Double.oneMinus, Double.toText, Double.exceeds]

theorem scalarSum_abs_le (val_scalars : ℕ → su2double) (m : ℕ)
    (hY : ∀ i, i < m → |val_scalars i| ≤ 1) : |scalarSum val_scalars m| ≤ (m : ℚ) := by
  unfold scalarSum
  calc |∑ i in Finset.range m, val_scalars i|
      ≤ ∑ i in Finset.range m, |val_scalars i| := Finset.abs_sum_le_sum_abs _ _
    _ ≤ ∑ _i in Finset.range m, (1 : ℚ) :=
        Finset.sum_le_sum fun i hi => hY i (Finset.mem_range.mp hi)
    _ = (m : ℚ) := by simp

theorem pow2_neg52 : pow2 (-52) = 1 / 4503599627370496 := by
  rw [pow2_eq]
  norm_num

/-- An operation whose exact result is at most `2^54` in absolute value does not overflow,
and its rounding error is at most `2^-53` of that absolute value plus `2^-1075`. -/
theorem ofExact_small (x : ℚ) (hx : |x| ≤ 18014398509481984) :
    Double.ofExact x = Double.finite (roundDouble x) := by
  have hnear := roundDouble_near x
  have h0 : pow2 0 = 1 := by simp [pow2]
  have h53 : pow2 (-53) ≤ 1 := by
    rw [← h0]
    exact pow2_mono (by norm_num)
  have h1075 : pow2 (-1075) ≤ 1 := by
    rw [← h0]
    exact pow2_mono (by norm_num)
  have hbig : (36028797018963969 : ℚ) < pow2 1024 := by
    have h1 := pow2_mono (show (56 : ℤ) ≤ 1024 by norm_num)
    have h2 : pow2 56 = 72057594037927936 := by
      rw [pow2_eq]
      norm_num
    rw [h2] at h1
    linarith
  have habs : |roundDouble x| ≤ |roundDouble x - x| + |x| := by
    have := abs_add (roundDouble x - x) x
    rwa [sub_add_cancel] at this
  have hx0 := abs_nonneg x
  have hmul : |x| * pow2 (-53) ≤ |x| := by nlinarith
  unfold Double.ofExact
  rw [if_pos (by linarith)]

/-- Rounding error of the running sum: for inputs of absolute value at most 1 the sum in
double arithmetic of `m` of them is finite and within `m^2 * 2^-52` of the exact sum. -/
theorem doubleSum_error (val_scalars : ℕ → su2double) :
    ∀ m : ℕ, (∀ i, i < m → |val_scalars i| ≤ 1) → (m : ℚ) * pow2 (-52) ≤ 1 →
      ∃ s, doubleSum val_scalars m = Double.finite s
        ∧ |s - scalarSum val_scalars m| ≤ (m : ℚ) ^ 2 * pow2 (-52)
  | 0, _, _ => ⟨0, rfl, by simp [scalarSum]⟩
  | k + 1, hY, hm => by
    have hp := pow2_pos (-52)
    have hk0 : (0 : ℚ) ≤ (k : ℚ) := Nat.cast_nonneg k
    have hkp : (k : ℚ) * pow2 (-52) ≤ 1 := by
      push_cast at hm
      nlinarith
    obtain ⟨s, hs, ih⟩ := doubleSum_error val_scalars k (fun i hi => hY i (by omega)) hkp
    have hS := scalarSum_abs_le val_scalars k (fun i hi => hY i (by omega))
    have hYk := hY k (by omega)
    have hE : |s - scalarSum val_scalars k| ≤ (k : ℚ) := by
      have : (k : ℚ) ^ 2 * pow2 (-52) ≤ (k : ℚ) := by nlinarith
      linarith
    have hz : |s + val_scalars k| ≤ 2 * (k : ℚ) + 1 := by
      have h1 : s + val_scalars k
          = (s - scalarSum val_scalars k) + scalarSum val_scalars k + val_scalars k := by ring
      rw [h1]
      have h2 := abs_add ((s - scalarSum val_scalars k) + scalarSum val_scalars k)
        (val_scalars k)
      have h3 := abs_add (s - scalarSum val_scalars k) (scalarSum val_scalars k)
      linarith
    have hkbig : (k : ℚ) ≤ 4503599627370496 := by
      rw [pow2_neg52] at hkp
      linarith
    have hfin := ofExact_small (s + val_scalars k) (by linarith)
    have hnear := roundDouble_near (s + val_scalars k)
    have h52 : pow2 (-52) = 2 * pow2 (-53) := by
      rw [show (-52 : ℤ) = 1 + -53 by norm_num, pow2_add]
      congr 1
    have hη : pow2 (-1075) ≤ pow2 (-53) := pow2_mono (by norm_num)
    have h53 := pow2_pos (-53)
    have hstep : |roundDouble (s + val_scalars k) - (s + val_scalars k)|
        ≤ ((k : ℚ) + 1) * pow2 (-52) := by
      have := mul_le_mul_of_nonneg_right hz (le_of_lt h53)
      rw [h52]
      linarith
    refine ⟨roundDouble (s + val_scalars k), ?_, ?_⟩
    · simp only [doubleSum, hs, Double.add]
      exact hfin
    · have hsplit : roundDouble (s + val_scalars k) - scalarSum val_scalars (k + 1)
          = (roundDouble (s + val_scalars k) - (s + val_scalars k))
            + (s - scalarSum val_scalars k) := by
        simp only [scalarSum, Finset.sum_range_succ]
        ring
      rw [hsplit]
      push_cast
      have h4 := abs_add (roundDouble (s + val_scalars k) - (s + val_scalars k))
        (s - scalarSum val_scalars k)
      nlinarith

/-- Rounding error of the balance: for inputs of absolute value at most 1 the double
`1.0 - val_scalars_sum` is finite, and together with the exact sum of the `m` inputs it is
within `(m+1)^2 * 2^-52` of 1. -/
theorem balance_error (val_scalars : ℕ → su2double) (m : ℕ)
    (hY : ∀ i, i < m → |val_scalars i| ≤ 1) (hm : ((m : ℚ) + 1) * pow2 (-52) ≤ 1) :
    ∃ b, (doubleSum val_scalars m).oneMinus = Double.finite b
      ∧ |scalarSum val_scalars m + b - 1| ≤ ((m : ℚ) + 1) ^ 2 * pow2 (-52) := by
  have hp := pow2_pos (-52)
  have hm0 : (0 : ℚ) ≤ (m : ℚ) := Nat.cast_nonneg m
  have hmp : (m : ℚ) * pow2 (-52) ≤ 1 := by nlinarith
  obtain ⟨s, hs, herr⟩ := doubleSum_error val_scalars m hY hmp
  have hS := scalarSum_abs_le val_scalars m hY
  have hE : |s - scalarSum val_scalars m| ≤ (m : ℚ) := by
    have : (m : ℚ) ^ 2 * pow2 (-52) ≤ (m : ℚ) := by nlinarith
    linarith
  have hz : |1 - s| ≤ 2 * (m : ℚ) + 1 := by
    have h1 : 1 - s = 1 + (-(s - scalarSum val_scalars m) + -scalarSum val_scalars m) := by
      ring
    rw [h1]
    have h2 := abs_add (1 : ℚ) (-(s - scalarSum val_scalars m) + -scalarSum val_scalars m)
    have h3 := abs_add (-(s - scalarSum val_scalars m)) (-scalarSum val_scalars m)
    rw [abs_neg, abs_neg] at h3
    rw [abs_one] at h2
    linarith
  have hmbig : (m : ℚ) ≤ 4503599627370496 := by
    rw [pow2_neg52] at hmp
    linarith
  have hfin := ofExact_small (1 - s) (by linarith)
  have hnear := roundDouble_near (1 - s)
  have h52 : pow2 (-52) = 2 * pow2 (-53) := by
    rw [show (-52 : ℤ) = 1 + -53 by norm_num, pow2_add]
    congr 1
  have hη : pow2 (-1075) ≤ pow2 (-53) := pow2_mono (by norm_num)
  have h53 := pow2_pos (-53)
  have hstep : |roundDouble (1 - s) - (1 - s)| ≤ ((m : ℚ) + 1) * pow2 (-52) := by
    have := mul_le_mul_of_nonneg_right hz (le_of_lt h53)
    rw [h52]
    linarith
  refine ⟨roundDouble (1 - s), ?_, ?_⟩
  · simp only [hs, Double.oneMinus]
    exact hfin
  · have hsplit : scalarSum val_scalars m + roundDouble (1 - s) - 1
        = (roundDouble (1 - s) - (1 - s)) + -(s - scalarSum val_scalars m) := by ring
    rw [hsplit]
    have h4 := abs_add (roundDouble (1 - s) - (1 - s)) (-(s - scalarSum val_scalars m))
    rw [abs_neg] at h4
    nlinarith

theorem entryValueText_last (st : CFluidCantera) (val_scalars : ℕ → su2double) :
    entryValueText st val_scalars (st.n_species_mixture - 1)
      = (doubleSum val_scalars (st.n_species_mixture - 1)).oneMinus.toText := by
  have : ¬ (st.n_species_mixture - 1 + 1 < st.n_species_mixture) := by omega
  simp [entryValueText, this]

theorem entryValue_near (st : CFluidCantera) (val_scalars : ℕ → su2double) (i : ℕ)
    (hi : i + 1 < st.n_species_mixture) :
    |entryValue st val_scalars i - val_scalars i| ≤ 1 / 2000000 := by
  unfold entryValue entryValueText
  rw [if_pos hi, fromFixed_to_string]
  exact to_string_value_near _

theorem entryValue_last_near (st : CFluidCantera) (val_scalars : ℕ → su2double) (b : ℚ)
    (hb : (doubleSum val_scalars (st.n_species_mixture - 1)).oneMinus = Double.finite b) :
    |entryValue st val_scalars (st.n_species_mixture - 1) - b| ≤ 1 / 2000000 := by
  unfold entryValue
  rw [entryValueText_last, hb]
  simp only [Double.toText]
  rw [fromFixed_to_string]
  exact to_string_value_near _

theorem entryValue_sum_near (st : CFluidCantera) (val_scalars : ℕ → su2double) (b : ℚ)
    (hn : 1 ≤ st.n_species_mixture)
    (hb : (doubleSum val_scalars (st.n_species_mixture - 1)).oneMinus = Double.finite b) :
    |∑ i in Finset.range st.n_species_mixture, entryValue st val_scalars i
        - (scalarSum val_scalars (st.n_species_mixture - 1) + b)|
      ≤ (st.n_species_mixture : ℚ) / 2000000 := by
  have hlast := entryValue_last_near st val_scalars b hb
  obtain ⟨m, hm⟩ : ∃ m, st.n_species_mixture = m + 1 := ⟨st.n_species_mixture - 1, by omega⟩
  rw [hm, Nat.add_sub_cancel] at hlast ⊢
  rw [Finset.sum_range_succ]
  have hfirst : |∑ i in Finset.range m, entryValue st val_scalars i - scalarSum val_scalars m|
      ≤ (m : ℚ) / 2000000 := by
    unfold scalarSum
    rw [← Finset.sum_sub_distrib]
    calc |∑ i in Finset.range m, (entryValue st val_scalars i - val_scalars i)|
        ≤ ∑ i in Finset.range m, |entryValue st val_scalars i - val_scalars i| :=
          Finset.abs_sum_le_sum_abs _ _
      _ ≤ ∑ _i in Finset.range m, (1 / 2000000 : ℚ) :=
          Finset.sum_le_sum fun i hi =>
            entryValue_near st val_scalars i (by
              have := Finset.mem_range.mp hi
              omega)
      _ = (m : ℚ) / 2000000 := by
          rw [Finset.sum_const, Finset.card_range]; simp; ring
  have hsplit : ∑ i in Finset.range m, entryValue st val_scalars i + entryValue st val_scalars m
        - (scalarSum val_scalars m + b)
      = (∑ i in Finset.range m, entryValue st val_scalars i - scalarSum val_scalars m)
        + (entryValue st val_scalars m - b) := by ring
  rw [hsplit]
  have h := abs_add (∑ i in Finset.range m, entryValue st val_scalars i
    - scalarSum val_scalars m) (entryValue st val_scalars m - b)
  push_cast
  linarith

/-- C1 (as amended).  For `n ≥ 1` species and any inputs the builder produces a text of
exactly `n` entries `name:value` (and stores it).  The value of entry `i < n-1` is input `i`
rendered by `to_string`; the value of the last entry is the rendering of the double
`1.0 - s`, where `s` is the sum of the inputs in double arithmetic, and it carries a minus
sign exactly when `s > 1`.  Every value is rendered with six decimals: the number an entry
denotes is within `0.5e-6` of the double rendered, so when `1.0 - s` is finite the `n`
denoted fractions sum to the exact sum of the inputs plus `1.0 - s` up to `n * 0.5e-6`; for
inputs of absolute value at most 1 (and `n` an `int`) they sum to 1 up to
`n * 0.5e-6 + n^2 * 2^-52`. -/
theorem DictionaryChemicalComposition_entries (st : CFluidCantera)
    (val_scalars : ℕ → su2double) (hn : 1 ≤ st.n_species_mixture) :
    (DictionaryChemicalComposition val_scalars st).2
        = String.join ((List.range (st.n_species_mixture - 1)).map fun i =>
            entryText st val_scalars i ++ ", ")
          ++ entryText st val_scalars (st.n_species_mixture - 1)
      ∧ (DictionaryChemicalComposition val_scalars st).1.chemical_composition
        = (DictionaryChemicalComposition val_scalars st).2
      ∧ (∀ i, i + 1 < st.n_species_mixture →
          entryValueText st val_scalars i = to_string (val_scalars i))
      ∧ entryValueText st val_scalars (st.n_species_mixture - 1)
        = (doubleSum val_scalars (st.n_species_mixture - 1)).oneMinus.toText
      ∧ ((entryValueText st val_scalars (st.n_species_mixture - 1)).data.head? = some '-'
          ↔ (doubleSum val_scalars (st.n_species_mixture - 1)).exceeds 1)
      ∧ (∀ i, i + 1 < st.n_species_mixture →
          |entryValue st val_scalars i - val_scalars i| ≤ 1 / 2000000)
      ∧ (∀ b, (doubleSum val_scalars (st.n_species_mixture - 1)).oneMinus = Double.finite b →
          |entryValue st val_scalars (st.n_species_mixture - 1) - b| ≤ 1 / 2000000
            ∧ |∑ i in Finset.range st.n_species_mixture, entryValue st val_scalars i
                - (scalarSum val_scalars (st.n_species_mixture - 1) + b)|
              ≤ (st.n_species_mixture : ℚ) / 2000000)
      ∧ ((∀ i, i + 1 < st.n_species_mixture → |val_scalars i| ≤ 1) →
          st.n_species_mixture ≤ 2147483647 →
          |∑ i in Finset.range st.n_species_mixture, entryValue st val_scalars i - 1|
            ≤ (st.n_species_mixture : ℚ) / 2000000
              + (st.n_species_mixture : ℚ) ^ 2 / 4503599627370496) := by
  have hlast := entryValueText_last st val_scalars
  have hmap : (List.range (st.n_species_mixture - 1)).map (fun i =>
        st.gasComposition i ++ ":" ++ to_string (val_scalars i) ++ ", ")
      = (List.range (st.n_species_mixture - 1)).map fun i =>
        entryText st val_scalars i ++ ", " := by
    apply List.map_congr_left
    intro i hi
    have : i + 1 < st.n_species_mixture := by
      have := List.mem_range.mp hi
      omega
    simp [entryText, entryValueText, this]
  refine ⟨?_, rfl, ?_, hlast, ?_, fun i hi => entryValue_near st val_scalars i hi,
    fun b hb => ⟨entryValue_last_near st val_scalars b hb,
      entryValue_sum_near st val_scalars b hn hb⟩, ?_⟩
  · simp only [DictionaryChemicalComposition, dict_foldl, hmap, entryText, hlast]
  · intro i hi
    simp [entryValueText, hi]
  · rw [hlast]
    exact oneMinus_minus _ (fun s hs => doubleSum_grid val_scalars _ s hs)
  · intro hY hint
    have hnq : (st.n_species_mixture : ℚ) ≤ 2147483647 := by exact_mod_cast hint
    have hcast : ((st.n_species_mixture - 1 : ℕ) : ℚ) + 1 = (st.n_species_mixture : ℚ) := by
      have : st.n_species_mixture - 1 + 1 = st.n_species_mixture := by omega
      exact_mod_cast this
    obtain ⟨b, hb, hbal⟩ := balance_error val_scalars (st.n_species_mixture - 1)
      (fun i hi => hY i (by omega))
      (by rw [hcast, pow2_neg52]; linarith)
    rw [hcast, pow2_neg52] at hbal
    have hsum := entryValue_sum_near st val_scalars b hn hb
    have htri : ∑ i in Finset.range st.n_species_mixture, entryValue st val_scalars i - 1
        = (∑ i in Finset.range st.n_species_mixture, entryValue st val_scalars i
            - (scalarSum val_scalars (st.n_species_mixture - 1) + b))
          + (scalarSum val_scalars (st.n_species_mixture - 1) + b - 1) := by ring
    rw [htri]
    have := abs_add (∑ i in Finset.range st.n_species_mixture, entryValue st val_scalars i
            - (scalarSum val_scalars (st.n_species_mixture - 1) + b))
          (scalarSum val_scalars (st.n_species_mixture - 1) + b - 1)
    linarith

/-- Instance of `DictionaryChemicalComposition_entries`: three species, inputs `3/4, 3/4`,
whose text is `H2:0.750000, O2:0.750000, N2:-0.500000`. -/
theorem DictionaryChemicalComposition_entries_witness :
    1 ≤ st3.n_species_mixture
      ∧ (DictionaryChemicalComposition (fun _ => 3 / 4) st3).2
        = "H2:0.750000, O2:0.750000, N2:-0.500000"
      ∧ doubleSum (fun _ => 3 / 4) (st3.n_species_mixture - 1) = Double.finite (3 / 2)
      ∧ ((entryValueText st3 (fun _ => 3 / 4) (st3.n_species_mixture - 1)).data.head?
            = some '-'
          ↔ (doubleSum (fun _ => 3 / 4) (st3.n_species_mixture - 1)).exceeds 1)
      ∧ |∑ i in Finset.range st3.n_species_mixture, entryValue st3 (fun _ => 3 / 4) i - 1|
          ≤ (st3.n_species_mixture : ℚ) / 2000000
            + (st3.n_species_mixture : ℚ) ^ 2 / 4503599627370496 :=
  have h := DictionaryChemicalComposition_entries st3 (fun _ => 3 / 4) (by decide)
  ⟨by decide, by decide!, by decide!, h.2.2.2.2.1,
   h.2.2.2.2.2.2.2 (fun _ _ => by norm_num [abs_le]) (by decide)⟩

/-- C1 (as stated) fails.  With three species and two inputs of `3/2^23` the text is
`H2:0.000000, O2:0.000000, N2:0.999999`: the last entry denotes `0.999999`, not one minus
the sum of the inputs, and the three entries do not sum to 1.  With the doubles `0.9` and
`0.1`, whose exact sum exceeds 1, the sum in double arithmetic is `1.0` and the balance entry
is `0.000000`, without a minus sign.  With two inputs `1e16` the balance is the double
`-2e16` and the three entries sum to 0. -/
theorem DictionaryChemicalComposition_not_exact :
    (DictionaryChemicalComposition tinyScalars st3).2 = "H2:0.000000, O2:0.000000, N2:0.999999"
      ∧ entryValue st3 tinyScalars 2 = 999999 / 1000000
      ∧ entryValue st3 tinyScalars 2 ≠ 1 - (tinyScalars 0 + tinyScalars 1)
      ∧ entryValue st3 tinyScalars 0 + entryValue st3 tinyScalars 1
          + entryValue st3 tinyScalars 2 ≠ 1
      ∧ (DictionaryChemicalComposition decimalScalars st3).2
        = "H2:0.900000, O2:0.100000, N2:0.000000"
      ∧ 1 < decimalScalars 0 + decimalScalars 1
      ∧ (DictionaryChemicalComposition hugeScalars st3).2
        = "H2:10000000000000000.000000, O2:10000000000000000.000000, "
          ++ "N2:-20000000000000000.000000"
      ∧ entryValue st3 hugeScalars 0 + entryValue st3 hugeScalars 1
          + entryValue st3 hugeScalars 2 = 0 := by
  refine ⟨by decide!, by decide!, by decide!, by decide!, by decide!, by decide!, by decide!,
    by decide!⟩

/-! ## ComputeTempFromEnthalpy: the loop -/

theorem searchFirst_spec (p : ℕ → Prop) [DecidablePred p] (fuel k : ℕ) (hp : p (k + fuel)) :
    k ≤ searchFirst p fuel k ∧ searchFirst p fuel k ≤ k + fuel ∧ p (searchFirst p fuel k)
      ∧ ∀ j, k ≤ j → j < searchFirst p fuel k → ¬ p j := by
  induction fuel generalizing k with
  | zero => exact ⟨le_refl _, le_refl _, hp, fun j h1 h2 => absurd h2 (by simp [searchFirst]; omega)⟩
  | succ f ih =>
    unfold searchFirst
    by_cases h : p k
    · rw [if_pos h]
      exact ⟨le_refl _, by omega, h, fun j h1 h2 => absurd h2 (by omega)⟩
    · rw [if_neg h]
      have hp' : p (k + 1 + f) := by
        have : k + 1 + f = k + (f + 1) := by omega
        rw [this]; exact hp
      obtain ⟨h1, h2, h3, h4⟩ := ih (k + 1) hp'
      refine ⟨by omega, by omega, h3, fun j hj1 hj2 => ?_⟩
      by_cases hjk : j = k
      · rw [hjk]; exact h
      · exact h4 j (by omega) hj2

theorem cutIndex_spec (sol : Solution) (st : CFluidCantera) (val_enthalpy : su2double)
    (val_scalars : ℕ → su2double) :
    1 ≤ cutIndex sol st val_enthalpy val_scalars
      ∧ cutIndex sol st val_enthalpy val_scalars ≤ counter_limit
      ∧ stopAt sol st val_enthalpy val_scalars (cutIndex sol st val_enthalpy val_scalars)
      ∧ ∀ j, 1 ≤ j → j < cutIndex sol st val_enthalpy val_scalars
          → ¬ stopAt sol st val_enthalpy val_scalars j := by
  have h := searchFirst_spec (stopAt sol st val_enthalpy val_scalars) (counter_limit - 1) 1
    (Or.inr (Or.inr (by decide)))
  exact ⟨h.1, by have := h.2.1; simpa [counter_limit] using this, h.2.2.1, h.2.2.2⟩

theorem newtonIter_vars (sol : Solution) (st : CFluidCantera) (val_enthalpy : su2double)
    (val_scalars : ℕ → su2double) (k : ℕ) :
    (newtonIter sol val_enthalpy (DictionaryChemicalComposition val_scalars st).1 k).2.counter = k
      ∧ (newtonIter sol val_enthalpy (DictionaryChemicalComposition val_scalars st).1 k).2.temp_iter
          = newtonSeq sol st val_enthalpy val_scalars k
      ∧ (newtonIter sol val_enthalpy (DictionaryChemicalComposition val_scalars st).1 k).1
          = { (DictionaryChemicalComposition val_scalars st).1 with
              sol_state := if k = 0 then st.sol_state else
                ⟨newtonSeq sol st val_enthalpy val_scalars (k - 1), st.Pressure_Thermodynamic,
                  (DictionaryChemicalComposition val_scalars st).2⟩
              sol_calls := st.sol_calls ++ newtonCalls sol st val_enthalpy val_scalars k } := by
  induction k with
  | zero =>
    refine ⟨rfl, rfl, ?_⟩
    simp [newtonIter, newtonCalls, DictionaryChemicalComposition]
  | succ k ih =>
    obtain ⟨h1, h2, h3⟩ := ih
    refine ⟨?_, ?_, ?_⟩
    · simp [newtonIter, newtonBody, h1]
    · simp only [newtonIter, newtonBody, newtonSeq, h2, h3, enthalpyAt, cpAt,
        CFluidCantera.setState_TPY, CFluidCantera.call]
      rfl
    · simp only [newtonIter, newtonBody, newtonSeq, h2, h3, newtonCalls,
        CFluidCantera.setState_TPY, CFluidCantera.call]
      simp [DictionaryChemicalComposition]

theorem newtonIter_delta (sol : Solution) (st : CFluidCantera) (val_enthalpy : su2double)
    (val_scalars : ℕ → su2double) (k : ℕ) :
    (newtonIter sol val_enthalpy (DictionaryChemicalComposition val_scalars st).1
        (k + 1)).2.delta_temp_iter
      = newtonSeq sol st val_enthalpy val_scalars (k + 1)
        - newtonSeq sol st val_enthalpy val_scalars k := by
  obtain ⟨_, h2, h3⟩ := newtonIter_vars sol st val_enthalpy val_scalars k
  simp only [newtonIter, newtonBody, newtonSeq, h2, h3, enthalpyAt, cpAt,
    CFluidCantera.setState_TPY, CFluidCantera.call]
  simp [DictionaryChemicalComposition]

theorem newtonIter_head (sol : Solution) (st : CFluidCantera) (val_enthalpy : su2double)
    (val_scalars : ℕ → su2double) (k : ℕ)
    (hns : 1 ≤ k → ¬ stopAt sol st val_enthalpy val_scalars k) :
    |(newtonIter sol val_enthalpy (DictionaryChemicalComposition val_scalars st).1
        k).2.delta_temp_iter| > toll := by
  cases k with
  | zero =>
    simp only [newtonIter, toll]
    rw [abs_of_pos (by norm_num)]
    norm_num
  | succ m =>
    rw [newtonIter_delta]
    have h := hns (by omega)
    unfold stopAt at h
    push_neg at h
    simpa using h.1

theorem newtonWhile_skip (sol : Solution) (st : CFluidCantera) (val_enthalpy : su2double)
    (val_scalars : ℕ → su2double) (k : ℕ) (hk : k ≤ counter_limit)
    (hns : ∀ j, 1 ≤ j → j ≤ k → ¬ stopAt sol st val_enthalpy val_scalars j) (fuel : ℕ) :
    newtonWhile sol val_enthalpy (fuel + k)
        (newtonIter sol val_enthalpy (DictionaryChemicalComposition val_scalars st).1 0).1
        (newtonIter sol val_enthalpy (DictionaryChemicalComposition val_scalars st).1 0).2
      = newtonWhile sol val_enthalpy fuel
        (newtonIter sol val_enthalpy (DictionaryChemicalComposition val_scalars st).1 k).1
        (newtonIter sol val_enthalpy (DictionaryChemicalComposition val_scalars st).1 k).2 := by
  induction k generalizing fuel with
  | zero => rfl
  | succ m ih =>
    have hm : m ≤ counter_limit := by omega
    have step := ih hm (fun j h1 h2 => hns j h1 (by omega)) (fuel + 1)
    have e : fuel + (m + 1) = fuel + 1 + m := by omega
    rw [e, step]
    have hhead := newtonIter_head sol st val_enthalpy val_scalars m
      (fun h1 => hns m h1 (by omega))
    have hcnt := (newtonIter_vars sol st val_enthalpy val_scalars m).1
    have hnext := hns (m + 1) (by omega) (le_refl _)
    unfold stopAt at hnext
    push_neg at hnext
    have htemp := (newtonIter_vars sol st val_enthalpy val_scalars (m + 1)).2.1
    have hnn : ¬ (newtonIter sol val_enthalpy (DictionaryChemicalComposition val_scalars st).1
        (m + 1)).2.temp_iter < 0 := by
      rw [htemp]; exact not_lt.mpr hnext.2.1
    rw [newtonWhile, if_pos hhead, if_pos (by rw [hcnt]; omega)]
    simp only []
    change (if (newtonIter sol val_enthalpy (DictionaryChemicalComposition val_scalars st).1
        (m + 1)).2.temp_iter < 0 then _ else _) = _
    rw [if_neg hnn]
    rfl

/-- The outcome of the loop, in terms of the Newton sequence and its cut index `K`: a
negative `T_K` ends the loop with the warning, a step within tolerance ends it silently, and
otherwise (`K = 20`) the loop condition fails on the counter, which it has incremented. -/
theorem newtonWhile_result (sol : Solution) (st : CFluidCantera) (val_enthalpy : su2double)
    (val_scalars : ℕ → su2double) :
    newtonWhile sol val_enthalpy (counter_limit + 1)
        (DictionaryChemicalComposition val_scalars st).1
        { temp_iter := 300, delta_temp_iter := 10000000000, counter := 0 }
      = some
        (if newtonSeq sol st val_enthalpy val_scalars
              (cutIndex sol st val_enthalpy val_scalars) < 0 then
          ((newtonIter sol val_enthalpy (DictionaryChemicalComposition val_scalars st).1
              (cutIndex sol st val_enthalpy val_scalars)).1.print negativeTemperatureWarning,
           (newtonIter sol val_enthalpy (DictionaryChemicalComposition val_scalars st).1
              (cutIndex sol st val_enthalpy val_scalars)).2)
        else if |newtonSeq sol st val_enthalpy val_scalars
              (cutIndex sol st val_enthalpy val_scalars)
            - newtonSeq sol st val_enthalpy val_scalars
              (cutIndex sol st val_enthalpy val_scalars - 1)| ≤ toll then
          newtonIter sol val_enthalpy (DictionaryChemicalComposition val_scalars st).1
              (cutIndex sol st val_enthalpy val_scalars)
        else
          ((newtonIter sol val_enthalpy (DictionaryChemicalComposition val_scalars st).1
              (cutIndex sol st val_enthalpy val_scalars)).1,
           { (newtonIter sol val_enthalpy (DictionaryChemicalComposition val_scalars st).1
              (cutIndex sol st val_enthalpy val_scalars)).2 with
             counter := counter_limit + 1 })) := by
  obtain ⟨hK1, hK2, hstop, hfirst⟩ := cutIndex_spec sol st val_enthalpy val_scalars
  generalize cutIndex sol st val_enthalpy val_scalars = K at hK1 hK2 hstop hfirst
  obtain ⟨m, rfl⟩ : ∃ m, K = m + 1 := ⟨K - 1, by omega⟩
  have hm : m + 1 ≤ 20 := hK2
  obtain ⟨f, hf⟩ : ∃ f, counter_limit + 1 = (f + 2) + m := ⟨19 - m, by simp [counter_limit]; omega⟩
  have skip := newtonWhile_skip sol st val_enthalpy val_scalars m (by simp [counter_limit]; omega)
    (fun j h1 h2 => hfirst j h1 (by omega)) (f + 2)
  have e0 : newtonWhile sol val_enthalpy (counter_limit + 1)
        (DictionaryChemicalComposition val_scalars st).1
        { temp_iter := 300, delta_temp_iter := 10000000000, counter := 0 }
      = newtonWhile sol val_enthalpy (f + 2 + m)
        (newtonIter sol val_enthalpy (DictionaryChemicalComposition val_scalars st).1 0).1
        (newtonIter sol val_enthalpy (DictionaryChemicalComposition val_scalars st).1 0).2 := by
    rw [hf]; rfl
  rw [e0, skip]
  have hhead := newtonIter_head sol st val_enthalpy val_scalars m
    (fun h1 => hfirst m h1 (by omega))
  have hcnt := (newtonIter_vars sol st val_enthalpy val_scalars m).1
  have htemp := (newtonIter_vars sol st val_enthalpy val_scalars (m + 1)).2.1
  have hcnt1 := (newtonIter_vars sol st val_enthalpy val_scalars (m + 1)).1
  have hdelta := newtonIter_delta sol st val_enthalpy val_scalars m
  rw [newtonWhile, if_pos hhead, if_pos (by rw [hcnt]; simp [counter_limit]; omega)]
  simp only []
  change (if (newtonIter sol val_enthalpy (DictionaryChemicalComposition val_scalars st).1
      (m + 1)).2.temp_iter < 0 then _ else _) = _
  rw [htemp]
  by_cases hneg : newtonSeq sol st val_enthalpy val_scalars (m + 1) < 0
  · rw [if_pos hneg, if_pos hneg]
    rfl
  · rw [if_neg hneg, if_neg hneg]
    change newtonWhile sol val_enthalpy (f + 1)
      (newtonIter sol val_enthalpy (DictionaryChemicalComposition val_scalars st).1 (m + 1)).1
      (newtonIter sol val_enthalpy (DictionaryChemicalComposition val_scalars st).1 (m + 1)).2 = _
    rw [newtonWhile, hdelta]
    simp only [Nat.add_sub_cancel]
    by_cases htol : |newtonSeq sol st val_enthalpy val_scalars (m + 1)
        - newtonSeq sol st val_enthalpy val_scalars m| ≤ toll
    · rw [if_neg (not_lt.mpr htol), if_pos htol]
    · rw [if_pos (not_le.mp htol), if_neg htol]
      have h20 : m + 1 = counter_limit := by
        rcases hstop with h | h | h
        · exact absurd h htol
        · exact absurd h hneg
        · exact h
      rw [if_neg (by rw [hcnt1, h20]; exact lt_irrefl _), hcnt1, htemp, h20]

/-- What a call of `ComputeTempFromEnthalpy` does, for every backend and input: it returns,
the value is the Newton iterate at the cut index `K`, the backend is left at `T_{K-1}`, the
calls made are those of `K` loop passes, and nothing but the composition text, the backend
and the console changes. -/
theorem ComputeTempFromEnthalpy_result (sol : Solution) (st : CFluidCantera)
    (val_enthalpy : su2double) (val_scalars : ℕ → su2double) :
    ComputeTempFromEnthalpy sol val_enthalpy val_scalars st
      = some
        ({ (DictionaryChemicalComposition val_scalars st).1 with
            sol_state :=
              ⟨newtonSeq sol st val_enthalpy val_scalars
                  (cutIndex sol st val_enthalpy val_scalars - 1),
                st.Pressure_Thermodynamic, (DictionaryChemicalComposition val_scalars st).2⟩
            sol_calls := st.sol_calls
              ++ newtonCalls sol st val_enthalpy val_scalars
                  (cutIndex sol st val_enthalpy val_scalars)
            cout := st.cout ++ newtonOutput sol st val_enthalpy val_scalars },
         newtonSeq sol st val_enthalpy val_scalars (cutIndex sol st val_enthalpy val_scalars)) := by
  obtain ⟨hK1, hK2, -, -⟩ := cutIndex_spec sol st val_enthalpy val_scalars
  obtain ⟨hc, ht, hs⟩ := newtonIter_vars sol st val_enthalpy val_scalars
    (cutIndex sol st val_enthalpy val_scalars)
  have hK0 : cutIndex sol st val_enthalpy val_scalars ≠ 0 := by omega
  rw [if_neg hK0] at hs
  unfold ComputeTempFromEnthalpy
  simp only []
  rw [newtonWhile_result, Option.map_some']
  unfold newtonOutput
  generalize cutIndex sol st val_enthalpy val_scalars = K at *
  have hcout : (DictionaryChemicalComposition val_scalars st).1.cout = st.cout := rfl
  by_cases hneg : newtonSeq sol st val_enthalpy val_scalars K < 0
  · by_cases h20 : K = counter_limit
    · subst h20
      simp [hneg, hc, ht, hs, CFluidCantera.print, hcout]
    · simp [hneg, h20, hc, ht, hs, CFluidCantera.print, hcout]
  · by_cases htol : |newtonSeq sol st val_enthalpy val_scalars K
        - newtonSeq sol st val_enthalpy val_scalars (K - 1)| ≤ toll
    · by_cases h20 : K = counter_limit
      · subst h20
        simp [hneg, htol, hc, ht, hs, CFluidCantera.print, hcout]
      · simp [hneg, htol, h20, hc, ht, hs, CFluidCantera.print, hcout]
    · simp [hneg, htol, hc, ht, hs, hcout]

theorem cutIndex_eq (sol : Solution) (st : CFluidCantera) (val_enthalpy : su2double)
    (val_scalars : ℕ → su2double) (k : ℕ) (hk1 : 1 ≤ k)
    (hstop : stopAt sol st val_enthalpy val_scalars k)
    (hreach : ∀ j, 1 ≤ j → j < k → ¬ stopAt sol st val_enthalpy val_scalars j) :
    cutIndex sol st val_enthalpy val_scalars = k := by
  obtain ⟨hK1, -, hKstop, hfirst⟩ := cutIndex_spec sol st val_enthalpy val_scalars
  rcases Nat.lt_trichotomy (cutIndex sol st val_enthalpy val_scalars) k with h | h | h
  · exact absurd hKstop (hreach _ hK1 h)
  · exact h
  · exact absurd hstop (hfirst k hk1 h)

theorem countSetState_append (xs ys : List Call) :
    countSetState (xs ++ ys) = countSetState xs + countSetState ys := by
  induction xs with
  | nil => simp [countSetState]
  | cons c cs ih =>
    cases c <;> simp [countSetState, ih]
    omega

theorem countSetState_newtonCalls (sol : Solution) (st : CFluidCantera)
    (val_enthalpy : su2double) (val_scalars : ℕ → su2double) (k : ℕ) :
    countSetState (newtonCalls sol st val_enthalpy val_scalars k) = k := by
  induction k with
  | zero => rfl
  | succ m ih => simp [newtonCalls, countSetState_append, ih, countSetState]

/-! ## ComputeTempFromEnthalpy: the claims -/

/-- C2.  For every backend whose heat capacity is nonzero on the iterates, every target
enthalpy and all mass fractions, `ComputeTempFromEnthalpy` returns the element of the Newton
sequence `T_0 = 300`, `T_{k+1} = T_k + (h_target - h(T_k)) / Cp(T_k)` at the first `k ≥ 1` with
`|T_k - T_{k-1}| ≤ 1e-5` or `T_k < 0` or `k = 20`; the backend calls it makes are, for each
iterate before that one, a set-state at (iterate, operating pressure, composition built from
the mass fractions) followed by the reads of enthalpy and heat capacity. -/
theorem ComputeTempFromEnthalpy_newton (sol : Solution) (st : CFluidCantera)
    (val_enthalpy : su2double) (val_scalars : ℕ → su2double)
    (_hcp : ∀ k, k < cutIndex sol st val_enthalpy val_scalars →
      cpAt sol st val_scalars (newtonSeq sol st val_enthalpy val_scalars k) ≠ 0) :
    (ComputeTempFromEnthalpy sol val_enthalpy val_scalars st).map Prod.snd
        = some (newtonSeq sol st val_enthalpy val_scalars
            (cutIndex sol st val_enthalpy val_scalars))
      ∧ 1 ≤ cutIndex sol st val_enthalpy val_scalars
      ∧ stopAt sol st val_enthalpy val_scalars (cutIndex sol st val_enthalpy val_scalars)
      ∧ (∀ j, 1 ≤ j → j < cutIndex sol st val_enthalpy val_scalars
          → ¬ stopAt sol st val_enthalpy val_scalars j)
      ∧ (ComputeTempFromEnthalpy sol val_enthalpy val_scalars st).map (fun r => r.1.sol_calls)
        = some (st.sol_calls ++ newtonCalls sol st val_enthalpy val_scalars
            (cutIndex sol st val_enthalpy val_scalars)) := by
  obtain ⟨h1, -, h3, h4⟩ := cutIndex_spec sol st val_enthalpy val_scalars
  rw [ComputeTempFromEnthalpy_result]
  exact ⟨rfl, h1, h3, h4, rfl⟩

/-- Instance of `ComputeTempFromEnthalpy_newton`: enthalpy `2 * T`, heat capacity 2, target
enthalpy 2000; the sequence is 300, 1000, 1000 and the value returned is 1000. -/
theorem ComputeTempFromEnthalpy_newton_witness :
    (∀ k, k < cutIndex (affineSol 0 2) st3 2000 tinyScalars →
        cpAt (affineSol 0 2) st3 tinyScalars (newtonSeq (affineSol 0 2) st3 2000 tinyScalars k) ≠ 0)
      ∧ (ComputeTempFromEnthalpy (affineSol 0 2) 2000 tinyScalars st3).map Prod.snd
        = some (newtonSeq (affineSol 0 2) st3 2000 tinyScalars
            (cutIndex (affineSol 0 2) st3 2000 tinyScalars))
      ∧ newtonSeq (affineSol 0 2) st3 2000 tinyScalars
          (cutIndex (affineSol 0 2) st3 2000 tinyScalars) = 1000 :=
  have hcp : ∀ k, k < cutIndex (affineSol 0 2) st3 2000 tinyScalars →
      cpAt (affineSol 0 2) st3 tinyScalars (newtonSeq (affineSol 0 2) st3 2000 tinyScalars k) ≠ 0 :=
    fun _ _ => by simp [cpAt, affineSol]
  ⟨hcp, (ComputeTempFromEnthalpy_newton (affineSol 0 2) st3 2000 tinyScalars hcp).1, by decide!⟩

/-- C3.  For every backend, target enthalpy and mass fractions a call of
`ComputeTempFromEnthalpy` returns, and the backend calls it adds contain at least one and at
most 20 `setState_TPY` calls. -/
theorem ComputeTempFromEnthalpy_setState_bound (sol : Solution) (st : CFluidCantera)
    (val_enthalpy : su2double) (val_scalars : ℕ → su2double) :
    (ComputeTempFromEnthalpy sol val_enthalpy val_scalars st).map (fun r => r.1.sol_calls)
        = some (st.sol_calls ++ newtonCalls sol st val_enthalpy val_scalars
            (cutIndex sol st val_enthalpy val_scalars))
      ∧ 1 ≤ countSetState (newtonCalls sol st val_enthalpy val_scalars
            (cutIndex sol st val_enthalpy val_scalars))
      ∧ countSetState (newtonCalls sol st val_enthalpy val_scalars
            (cutIndex sol st val_enthalpy val_scalars)) ≤ 20 := by
  obtain ⟨h1, h2, -, -⟩ := cutIndex_spec sol st val_enthalpy val_scalars
  rw [ComputeTempFromEnthalpy_result, countSetState_newtonCalls]
  exact ⟨rfl, h1, h2⟩

/-- C5.  If the loop reaches pass `k` (no cut before `k`, which makes `k ≤ 20`) and the
update of that pass gives `T_k < 0`, then the call returns exactly `T_k`, the backend calls it made are those of
`k` passes (`k` set-state calls, none after the negative iterate), and the
negative-temperature warning is written; for `k < 20` fewer than 20 set-state calls are
made. -/
theorem ComputeTempFromEnthalpy_negative (sol : Solution) (st : CFluidCantera)
    (val_enthalpy : su2double) (val_scalars : ℕ → su2double) (k : ℕ) (hk1 : 1 ≤ k)
    (hreach : ∀ j, 1 ≤ j → j < k → ¬ stopAt sol st val_enthalpy val_scalars j)
    (hneg : newtonSeq sol st val_enthalpy val_scalars k < 0) :
    (ComputeTempFromEnthalpy sol val_enthalpy val_scalars st).map Prod.snd
        = some (newtonSeq sol st val_enthalpy val_scalars k)
      ∧ (ComputeTempFromEnthalpy sol val_enthalpy val_scalars st).map (fun r => r.1.sol_calls)
        = some (st.sol_calls ++ newtonCalls sol st val_enthalpy val_scalars k)
      ∧ countSetState (newtonCalls sol st val_enthalpy val_scalars k) = k
      ∧ (k < 20 → countSetState (newtonCalls sol st val_enthalpy val_scalars k) < 20)
      ∧ (ComputeTempFromEnthalpy sol val_enthalpy val_scalars st).map (fun r => r.1.cout)
        = some (st.cout ++ negativeTemperatureWarning
            :: (if k = 20 then [maxIterationWarning] else [])) := by
  have hK := cutIndex_eq sol st val_enthalpy val_scalars k hk1 (Or.inr (Or.inl hneg)) hreach
  have hout : newtonOutput sol st val_enthalpy val_scalars
      = negativeTemperatureWarning :: (if k = 20 then [maxIterationWarning] else []) := by
    unfold newtonOutput
    rw [hK]
    simp [hneg, counter_limit]
  rw [ComputeTempFromEnthalpy_result, hK, countSetState_newtonCalls, hout]
  exact ⟨rfl, rfl, rfl, fun h => h, rfl⟩

/-- Instance of `ComputeTempFromEnthalpy_negative`: enthalpy `T`, heat capacity 1 and target
enthalpy `-1000` give `T_1 = -1000` in the first pass. -/
theorem ComputeTempFromEnthalpy_negative_witness :
    (1 ≤ 1 ∧ newtonSeq (affineSol 0 1) st3 (-1000) tinyScalars 1 < 0)
      ∧ (ComputeTempFromEnthalpy (affineSol 0 1) (-1000) tinyScalars st3).map Prod.snd
        = some (newtonSeq (affineSol 0 1) st3 (-1000) tinyScalars 1)
      ∧ (ComputeTempFromEnthalpy (affineSol 0 1) (-1000) tinyScalars st3).map
          (fun r => r.1.cout) = some [negativeTemperatureWarning] :=
  have hneg : newtonSeq (affineSol 0 1) st3 (-1000) tinyScalars 1 < 0 := by decide!
  have h := ComputeTempFromEnthalpy_negative (affineSol 0 1) st3 (-1000) tinyScalars 1
    (le_refl 1) (fun j h1 h2 => absurd h2 (by omega)) hneg
  ⟨⟨le_refl 1, hneg⟩, h.1, h.2.2.2.2⟩

/-- C4 at two concrete runs.  With the backend `kinkSol` and target enthalpy 0 the iterates
alternate between 1700 and 300: no step is within tolerance, no iterate is negative, the loop
makes its 20 passes and returns 300, and nothing is written (the counter is 21 after the
loop).  With the backend `parabolaSol` the step of the 20th pass, `8 / 2^20`, is the first one
within tolerance, and the max-iteration warning is written. -/
theorem ComputeTempFromEnthalpy_maxIteration_runs :
    (∀ k ∈ List.range 20,
        |newtonSeq kinkSol st3 0 tinyScalars (k + 1) - newtonSeq kinkSol st3 0 tinyScalars k| > toll
          ∧ 0 ≤ newtonSeq kinkSol st3 0 tinyScalars (k + 1))
      ∧ (ComputeTempFromEnthalpy kinkSol 0 tinyScalars st3).map
          (fun r => (r.2, countSetState r.1.sol_calls, r.1.cout)) = some (300, 20, [])
      ∧ (∀ k ∈ List.range 19,
        |newtonSeq parabolaSol st3 0 tinyScalars (k + 1)
          - newtonSeq parabolaSol st3 0 tinyScalars k| > toll)
      ∧ |newtonSeq parabolaSol st3 0 tinyScalars 20
          - newtonSeq parabolaSol st3 0 tinyScalars 19| ≤ toll
      ∧ (ComputeTempFromEnthalpy parabolaSol 0 tinyScalars st3).map
          (fun r => (r.2, countSetState r.1.sol_calls, r.1.cout))
        = some (308 - 8 / 1048576, 20, [maxIterationWarning]) := by
  refine ⟨by decide!, by decide!, by decide!, by decide!, by decide!⟩

/-- The defect behind C4, for every backend: when all 20 passes are made with no step within
tolerance and no negative iterate, the call returns `T_20` and writes nothing. -/
theorem ComputeTempFromEnthalpy_exhausted_silent (sol : Solution) (st : CFluidCantera)
    (val_enthalpy : su2double) (val_scalars : ℕ → su2double)
    (hrun : ∀ k, 1 ≤ k → k ≤ 20 →
      |newtonSeq sol st val_enthalpy val_scalars k
          - newtonSeq sol st val_enthalpy val_scalars (k - 1)| > toll
        ∧ 0 ≤ newtonSeq sol st val_enthalpy val_scalars k) :
    (ComputeTempFromEnthalpy sol val_enthalpy val_scalars st).map (fun r => (r.2, r.1.cout))
      = some (newtonSeq sol st val_enthalpy val_scalars 20, st.cout) := by
  have hK : cutIndex sol st val_enthalpy val_scalars = 20 := by
    apply cutIndex_eq _ _ _ _ 20 (by decide) (Or.inr (Or.inr rfl))
    intro j h1 h2 hstop
    obtain ⟨ha, hb⟩ := hrun j h1 (by omega)
    rcases hstop with h | h | h
    · exact absurd h (not_le.mpr ha)
    · exact absurd h (not_lt.mpr hb)
    · simp [counter_limit] at h; omega
  obtain ⟨ha, hb⟩ := hrun 20 (by decide) (le_refl _)
  have hout : newtonOutput sol st val_enthalpy val_scalars = [] := by
    unfold newtonOutput
    rw [hK]
    simp [not_lt.mpr hb, not_le.mpr ha]
  rw [ComputeTempFromEnthalpy_result, hK, hout]
  simp

/-- C6 (as stated) fails.  The backend `kinkSol` has a positive heat capacity everywhere, the
slope of its increasing enthalpy, which is steep towards `T* = 1000` (`h(1000) = 0`); asked
for the temperature of enthalpy `h(1000)`, `ComputeTempFromEnthalpy` makes its 20 passes
without meeting the tolerance and returns 300.  The backend `stiffSol` has a positive heat
capacity everywhere too; asked for the temperature of enthalpy `h(1000)`, the first step,
`7e-7`, is within tolerance and `300.0000007` is returned: at 300 the enthalpy is not steep
towards `T* = 1000`. -/
theorem ComputeTempFromEnthalpy_roundtrip_fails :
    (0 : ℚ) < 1000
      ∧ (∀ s, 0 < kinkSol.cp_mass s)
      ∧ (∀ T, |cpAt kinkSol st3 tinyScalars T| * |1000 - T|
          ≤ 99 * |enthalpyAt kinkSol st3 tinyScalars 1000 - enthalpyAt kinkSol st3 tinyScalars T|)
      ∧ cutIndex kinkSol st3 (enthalpyAt kinkSol st3 tinyScalars 1000) tinyScalars = 20
      ∧ ¬ |newtonSeq kinkSol st3 (enthalpyAt kinkSol st3 tinyScalars 1000) tinyScalars 20
            - newtonSeq kinkSol st3 (enthalpyAt kinkSol st3 tinyScalars 1000) tinyScalars 19|
          ≤ toll
      ∧ (ComputeTempFromEnthalpy kinkSol (enthalpyAt kinkSol st3 tinyScalars 1000)
          tinyScalars st3).map Prod.snd = some 300
      ∧ ¬ |(300 : ℚ) - 1000| ≤ 1 / 1000
      ∧ (∀ s, 0 < stiffSol.cp_mass s)
      ∧ cutIndex stiffSol st3 (enthalpyAt stiffSol st3 tinyScalars 1000) tinyScalars = 1
      ∧ |newtonSeq stiffSol st3 (enthalpyAt stiffSol st3 tinyScalars 1000) tinyScalars 1
          - newtonSeq stiffSol st3 (enthalpyAt stiffSol st3 tinyScalars 1000) tinyScalars 0|
        ≤ toll
      ∧ ¬ |cpAt stiffSol st3 tinyScalars 300| * |(1000 : ℚ) - 300|
          ≤ 99 * |enthalpyAt stiffSol st3 tinyScalars 1000
              - enthalpyAt stiffSol st3 tinyScalars 300|
      ∧ (ComputeTempFromEnthalpy stiffSol (enthalpyAt stiffSol st3 tinyScalars 1000)
          tinyScalars st3).map Prod.snd = some (300 + 7 / 10000000)
      ∧ ¬ |(300 + 7 / 10000000 : ℚ) - 1000| ≤ 1 / 1000 := by
  refine ⟨by norm_num, ?_, ?_, by decide!, by decide!, by decide!, by norm_num, ?_, by decide!,
    by decide!, by decide!, by decide!, by norm_num [abs_le]⟩
  · intro s
    simp only [kinkSol]
    split_ifs <;> norm_num
  · intro T
    have h1000 : enthalpyAt kinkSol st3 tinyScalars 1000 = 0 := by
      simp only [enthalpyAt, kinkSol]
      norm_num
    rw [h1000, zero_sub, abs_neg]
    simp only [enthalpyAt, cpAt, kinkSol]
    by_cases h1 : T ≤ 999
    · rw [if_pos h1, if_pos h1, abs_one,
        abs_of_nonneg (show (0 : ℚ) ≤ 1000 - T by linarith),
        abs_of_neg (show T - 1700 < 0 by linarith)]
      linarith
    · rw [if_neg h1, if_neg h1]
      by_cases h2 : T < 1001
      · rw [if_pos h2, if_pos h2, abs_mul, abs_sub_comm T 1000,
          abs_of_pos (show (0 : ℚ) < 701 by norm_num)]
        have := abs_nonneg (1000 - T)
        nlinarith
      · rw [if_neg h2, if_neg h2, abs_one,
          abs_of_nonpos (show (1000 : ℚ) - T ≤ 0 by linarith),
          abs_of_nonneg (show (0 : ℚ) ≤ T - 300 by linarith)]
        linarith
  · intro s
    simp only [stiffSol]
    split_ifs <;> norm_num

/-- C6 (as amended).  Let the Newton iteration for the target enthalpy `h(T*)` end by meeting
the tolerance: its last step `T_K - T_{K-1}` is at most `1e-5` in absolute value.  Let the
heat capacity at `T_{K-1}`, the last point at which the backend is evaluated, be nonzero, and
let the enthalpy be steep towards `T*` there:
`|Cp(T_{K-1})| * |T* - T_{K-1}| ≤ 99 * |h(T*) - h(T_{K-1})|` (at the operating pressure and
the composition built from the mass fractions).  Then the call returns `T_K` and
`|T_K - T*| ≤ 1e-3`. -/
theorem ComputeTempFromEnthalpy_roundtrip_converged (sol : Solution) (st : CFluidCantera)
    (val_scalars : ℕ → su2double) (Tstar : su2double)
    (hconv : |newtonSeq sol st (enthalpyAt sol st val_scalars Tstar) val_scalars
          (cutIndex sol st (enthalpyAt sol st val_scalars Tstar) val_scalars)
        - newtonSeq sol st (enthalpyAt sol st val_scalars Tstar) val_scalars
          (cutIndex sol st (enthalpyAt sol st val_scalars Tstar) val_scalars - 1)| ≤ toll)
    (hcp : cpAt sol st val_scalars
        (newtonSeq sol st (enthalpyAt sol st val_scalars Tstar) val_scalars
          (cutIndex sol st (enthalpyAt sol st val_scalars Tstar) val_scalars - 1)) ≠ 0)
    (hslope : |cpAt sol st val_scalars
          (newtonSeq sol st (enthalpyAt sol st val_scalars Tstar) val_scalars
            (cutIndex sol st (enthalpyAt sol st val_scalars Tstar) val_scalars - 1))|
        * |Tstar - newtonSeq sol st (enthalpyAt sol st val_scalars Tstar) val_scalars
            (cutIndex sol st (enthalpyAt sol st val_scalars Tstar) val_scalars - 1)|
      ≤ 99 * |enthalpyAt sol st val_scalars Tstar - enthalpyAt sol st val_scalars
          (newtonSeq sol st (enthalpyAt sol st val_scalars Tstar) val_scalars
            (cutIndex sol st (enthalpyAt sol st val_scalars Tstar) val_scalars - 1))|) :
    ∃ r, ComputeTempFromEnthalpy sol (enthalpyAt sol st val_scalars Tstar) val_scalars st
          = some r
      ∧ r.2 = newtonSeq sol st (enthalpyAt sol st val_scalars Tstar) val_scalars
          (cutIndex sol st (enthalpyAt sol st val_scalars Tstar) val_scalars)
      ∧ |r.2 - Tstar| ≤ 1 / 1000 := by
  obtain ⟨hK1, -, -, -⟩ :=
    cutIndex_spec sol st (enthalpyAt sol st val_scalars Tstar) val_scalars
  rw [ComputeTempFromEnthalpy_result]
  refine ⟨_, rfl, rfl, ?_⟩
  show |newtonSeq sol st (enthalpyAt sol st val_scalars Tstar) val_scalars
      (cutIndex sol st (enthalpyAt sol st val_scalars Tstar) val_scalars) - Tstar| ≤ 1 / 1000
  obtain ⟨j, hj⟩ : ∃ j, cutIndex sol st (enthalpyAt sol st val_scalars Tstar) val_scalars
      = j + 1 :=
    ⟨cutIndex sol st (enthalpyAt sol st val_scalars Tstar) val_scalars - 1, by omega⟩
  rw [hj] at hconv hcp hslope ⊢
  simp only [Nat.add_sub_cancel] at hconv hcp hslope
  have hstep : newtonSeq sol st (enthalpyAt sol st val_scalars Tstar) val_scalars (j + 1)
      = newtonSeq sol st (enthalpyAt sol st val_scalars Tstar) val_scalars j
        + (enthalpyAt sol st val_scalars Tstar - enthalpyAt sol st val_scalars
            (newtonSeq sol st (enthalpyAt sol st val_scalars Tstar) val_scalars j))
          / cpAt sol st val_scalars
            (newtonSeq sol st (enthalpyAt sol st val_scalars Tstar) val_scalars j) := rfl
  rw [hstep] at hconv ⊢
  generalize newtonSeq sol st (enthalpyAt sol st val_scalars Tstar) val_scalars j = T at *
  generalize cpAt sol st val_scalars T = c at *
  generalize enthalpyAt sol st val_scalars Tstar - enthalpyAt sol st val_scalars T = d at *
  have hc : 0 < |c| := abs_pos.mpr hcp
  have hq : |d / c| ≤ toll := by
    have h1 : T + d / c - T = d / c := by ring
    rw [h1] at hconv
    exact hconv
  have hd : |d| ≤ toll * |c| := by
    rw [abs_div, div_le_iff₀ hc] at hq
    exact hq
  have hfar : |Tstar - T| ≤ 99 * toll := by
    have h2 : |c| * |Tstar - T| ≤ |c| * (99 * toll) := by nlinarith
    exact le_of_mul_le_mul_left h2 hc
  have h3 : T + d / c - Tstar = d / c + -(Tstar - T) := by ring
  rw [h3]
  have h4 := abs_add (d / c) (-(Tstar - T))
  rw [abs_neg] at h4
  have htoll : toll = 1 / 100000 := rfl
  rw [htoll] at hq hfar
  linarith

/-- Instance of `ComputeTempFromEnthalpy_roundtrip_converged`: enthalpy `T + T^2 / 1000` with
heat capacity `1 + T / 500`, and `T* = 1500`; the tolerance is met in the sixth pass. -/
theorem ComputeTempFromEnthalpy_roundtrip_converged_witness :
    (cutIndex quadSol st3 (enthalpyAt quadSol st3 tinyScalars 1500) tinyScalars = 6
        ∧ |newtonSeq quadSol st3 (enthalpyAt quadSol st3 tinyScalars 1500) tinyScalars
              (cutIndex quadSol st3 (enthalpyAt quadSol st3 tinyScalars 1500) tinyScalars)
            - newtonSeq quadSol st3 (enthalpyAt quadSol st3 tinyScalars 1500) tinyScalars
              (cutIndex quadSol st3 (enthalpyAt quadSol st3 tinyScalars 1500) tinyScalars - 1)|
          ≤ toll
        ∧ cpAt quadSol st3 tinyScalars
            (newtonSeq quadSol st3 (enthalpyAt quadSol st3 tinyScalars 1500) tinyScalars
              (cutIndex quadSol st3 (enthalpyAt quadSol st3 tinyScalars 1500) tinyScalars - 1))
          ≠ 0
        ∧ |cpAt quadSol st3 tinyScalars
              (newtonSeq quadSol st3 (enthalpyAt quadSol st3 tinyScalars 1500) tinyScalars
                (cutIndex quadSol st3 (enthalpyAt quadSol st3 tinyScalars 1500) tinyScalars - 1))|
            * |1500 - newtonSeq quadSol st3 (enthalpyAt quadSol st3 tinyScalars 1500) tinyScalars
                (cutIndex quadSol st3 (enthalpyAt quadSol st3 tinyScalars 1500) tinyScalars - 1)|
          ≤ 99 * |enthalpyAt quadSol st3 tinyScalars 1500 - enthalpyAt quadSol st3 tinyScalars
              (newtonSeq quadSol st3 (enthalpyAt quadSol st3 tinyScalars 1500) tinyScalars
                (cutIndex quadSol st3 (enthalpyAt quadSol st3 tinyScalars 1500) tinyScalars
                  - 1))|)
      ∧ ∃ r, ComputeTempFromEnthalpy quadSol (enthalpyAt quadSol st3 tinyScalars 1500)
            tinyScalars st3 = some r
          ∧ r.2 = newtonSeq quadSol st3 (enthalpyAt quadSol st3 tinyScalars 1500) tinyScalars
              (cutIndex quadSol st3 (enthalpyAt quadSol st3 tinyScalars 1500) tinyScalars)
          ∧ |r.2 - 1500| ≤ 1 / 1000 :=
  have hconv : |newtonSeq quadSol st3 (enthalpyAt quadSol st3 tinyScalars 1500) tinyScalars
        (cutIndex quadSol st3 (enthalpyAt quadSol st3 tinyScalars 1500) tinyScalars)
      - newtonSeq quadSol st3 (enthalpyAt quadSol st3 tinyScalars 1500) tinyScalars
        (cutIndex quadSol st3 (enthalpyAt quadSol st3 tinyScalars 1500) tinyScalars - 1)|
      ≤ toll := by decide!
  have hcp : cpAt quadSol st3 tinyScalars
      (newtonSeq quadSol st3 (enthalpyAt quadSol st3 tinyScalars 1500) tinyScalars
        (cutIndex quadSol st3 (enthalpyAt quadSol st3 tinyScalars 1500) tinyScalars - 1))
      ≠ 0 := by decide!
  have hslope : |cpAt quadSol st3 tinyScalars
        (newtonSeq quadSol st3 (enthalpyAt quadSol st3 tinyScalars 1500) tinyScalars
          (cutIndex quadSol st3 (enthalpyAt quadSol st3 tinyScalars 1500) tinyScalars - 1))|
      * |1500 - newtonSeq quadSol st3 (enthalpyAt quadSol st3 tinyScalars 1500) tinyScalars
          (cutIndex quadSol st3 (enthalpyAt quadSol st3 tinyScalars 1500) tinyScalars - 1)|
      ≤ 99 * |enthalpyAt quadSol st3 tinyScalars 1500 - enthalpyAt quadSol st3 tinyScalars
          (newtonSeq quadSol st3 (enthalpyAt quadSol st3 tinyScalars 1500) tinyScalars
            (cutIndex quadSol st3 (enthalpyAt quadSol st3 tinyScalars 1500) tinyScalars
              - 1))| := by decide!
  ⟨⟨by decide!, hconv, hcp, hslope⟩,
   ComputeTempFromEnthalpy_roundtrip_converged quadSol st3 tinyScalars 1500 hconv hcp hslope⟩

/-- The affine case of the round trip.  When, at the operating pressure and the composition
built from the mass fractions, the backend enthalpy is `a + c * T` with a constant heat
capacity `c > 0`, the Newton iteration meets the tolerance at the latest in its second pass:
for every `T* > 0` the call with target enthalpy `h(T*)` returns exactly `T*` and writes no
warning. -/
theorem ComputeTempFromEnthalpy_roundtrip_affine (sol : Solution) (st : CFluidCantera)
    (val_scalars : ℕ → su2double) (a c Tstar : su2double) (hc : 0 < c) (hT : 0 < Tstar)
    (hh : ∀ T, enthalpyAt sol st val_scalars T = a + c * T)
    (hcp : ∀ T, cpAt sol st val_scalars T = c) :
    ∃ r, ComputeTempFromEnthalpy sol (enthalpyAt sol st val_scalars Tstar) val_scalars st
          = some r
      ∧ r.2 = Tstar ∧ |r.2 - Tstar| ≤ 1 / 1000 ∧ r.1.cout = st.cout := by
  have hc0 : c ≠ 0 := ne_of_gt hc
  have h1 : newtonSeq sol st (enthalpyAt sol st val_scalars Tstar) val_scalars 1 = Tstar := by
    simp only [newtonSeq, hh, hcp]
    field_simp
    ring
  have h2 : newtonSeq sol st (enthalpyAt sol st val_scalars Tstar) val_scalars 2 = Tstar := by
    have : newtonSeq sol st (enthalpyAt sol st val_scalars Tstar) val_scalars 2
        = newtonSeq sol st (enthalpyAt sol st val_scalars Tstar) val_scalars 1
          + (enthalpyAt sol st val_scalars Tstar - enthalpyAt sol st val_scalars
              (newtonSeq sol st (enthalpyAt sol st val_scalars Tstar) val_scalars 1))
            / cpAt sol st val_scalars
              (newtonSeq sol st (enthalpyAt sol st val_scalars Tstar) val_scalars 1) := rfl
    rw [this, h1]
    simp
  have hK : (cutIndex sol st (enthalpyAt sol st val_scalars Tstar) val_scalars = 1
        ∨ cutIndex sol st (enthalpyAt sol st val_scalars Tstar) val_scalars = 2)
      ∧ newtonSeq sol st (enthalpyAt sol st val_scalars Tstar) val_scalars
          (cutIndex sol st (enthalpyAt sol st val_scalars Tstar) val_scalars) = Tstar := by
    by_cases hs : stopAt sol st (enthalpyAt sol st val_scalars Tstar) val_scalars 1
    · have := cutIndex_eq sol st _ val_scalars 1 (le_refl 1) hs
        (fun j h1 h2 => absurd h2 (by omega))
      rw [this]
      exact ⟨Or.inl rfl, h1⟩
    · have := cutIndex_eq sol st (enthalpyAt sol st val_scalars Tstar) val_scalars 2
        (by decide) (Or.inl (by rw [h2]; simp [h1, toll]))
        (fun j hj1 hj2 => by
          have : j = 1 := by omega
          rw [this]; exact hs)
      rw [this]
      exact ⟨Or.inr rfl, h2⟩
  have hout : newtonOutput sol st (enthalpyAt sol st val_scalars Tstar) val_scalars = [] := by
    unfold newtonOutput
    rw [hK.2]
    have h20 : cutIndex sol st (enthalpyAt sol st val_scalars Tstar) val_scalars
        ≠ counter_limit := by
      rcases hK.1 with h | h <;> rw [h] <;> decide
    simp [not_lt.mpr (le_of_lt hT), h20]
  rw [ComputeTempFromEnthalpy_result, hK.2, hout]
  exact ⟨_, rfl, rfl, by simp, by simp⟩

/-- Instance of `ComputeTempFromEnthalpy_roundtrip_affine`: enthalpy `5 + 2 * T`, `T* = 1500`. -/
theorem ComputeTempFromEnthalpy_roundtrip_affine_witness :
    ((0 : ℚ) < 2 ∧ (0 : ℚ) < 1500
        ∧ (∀ T, enthalpyAt (affineSol 5 2) st3 tinyScalars T = 5 + 2 * T)
        ∧ (∀ T, cpAt (affineSol 5 2) st3 tinyScalars T = 2))
      ∧ ∃ r, ComputeTempFromEnthalpy (affineSol 5 2)
            (enthalpyAt (affineSol 5 2) st3 tinyScalars 1500) tinyScalars st3 = some r
          ∧ r.2 = 1500 ∧ |r.2 - 1500| ≤ 1 / 1000 ∧ r.1.cout = st3.cout :=
  ⟨⟨by norm_num, by norm_num, fun _ => rfl, fun _ => rfl⟩,
   ComputeTempFromEnthalpy_roundtrip_affine (affineSol 5 2) st3 tinyScalars 5 2 1500
      (by norm_num) (by norm_num) (fun _ => rfl) (fun _ => rfl)⟩

/-! ## The loops over the tracked species -/

theorem forLoop_succ (n : ℕ) (body : ℕ → CFluidCantera → Option CFluidCantera)
    (st : CFluidCantera) :
    forLoop (n + 1) body st = (forLoop n body st).bind (body n) := by
  simp [forLoop, List.range_succ, List.foldlM_append]

theorem allReadable_succ (sol : Solution) (st : CFluidCantera) (size m : ℕ) :
    allReadable sol st.gasComposition size (m + 1) ↔ allReadable sol st.gasComposition size m ∧ readable sol st.gasComposition size m := by
  constructor
  · intro h
    exact ⟨fun i hi => h i (by omega), h m (by omega)⟩
  · rintro ⟨h1, h2⟩ i hi
    by_cases him : i = m
    · rw [him]; exact h2
    · exact h1 i (by omega)

theorem update_initial (f g : ℕ → su2double) (m : ℕ) (v : su2double) (hv : v = f m) :
    Function.update (fun i => if i < m then f i else g i) m v
      = fun i => if i < m + 1 then f i else g i := by
  funext i
  by_cases him : i = m
  · subst him
    simp [hv]
  · rw [Function.update_noteq him]
    by_cases hlt : i < m
    · simp [hlt, Nat.lt_succ_of_lt hlt]
    · have : ¬ i < m + 1 := by omega
      simp [hlt, this]

theorem speciesIndexCalls_succ (st : CFluidCantera) (m : ℕ) :
    speciesIndexCalls st.gasComposition (m + 1)
      = speciesIndexCalls st.gasComposition m ++ [Call.speciesIndex (st.gasComposition m)] := by
  simp [speciesIndexCalls, List.range_succ]

theorem readable_iff (sol : Solution) (st : CFluidCantera) (size i : ℕ) :
    readable sol st.gasComposition size i
      ↔ sol.speciesIndex (st.gasComposition i) = some (speciesIdx sol st.gasComposition i)
        ∧ speciesIdx sol st.gasComposition i < size := by
  unfold readable speciesIdx
  cases sol.speciesIndex (st.gasComposition i) <;> simp

theorem read_of_readable (sol : Solution) (st : CFluidCantera) (v : Vec) (i : ℕ)
    (h : readable sol st.gasComposition v.size i) :
    v.read (sol.speciesIndex (st.gasComposition i)) = some (v.data (speciesIdx sol st.gasComposition i)) := by
  obtain ⟨h1, h2⟩ := (readable_iff sol st v.size i).mp h
  rw [h1]
  simp [Vec.read, h2]

theorem read_of_not_readable (sol : Solution) (st : CFluidCantera) (v : Vec) (i : ℕ)
    (h : ¬ readable sol st.gasComposition v.size i) :
    v.read (sol.speciesIndex (st.gasComposition i)) = none := by
  unfold readable speciesIdx at h
  cases hk : sol.speciesIndex (st.gasComposition i) with
  | none => rfl
  | some k =>
    rw [hk] at h
    have h2 : ¬ k < v.size := fun hlt => h ⟨rfl, hlt⟩
    simp [Vec.read, h2]

theorem forLoop_massDiffusivityBody (sol : Solution) (diff : Vec) (st : CFluidCantera) (m : ℕ) :
    forLoop m (massDiffusivityBody sol diff) st
      = if allReadable sol st.gasComposition diff.size m then
          some { st with
            massDiffusivity := fun i =>
              if i < m then diff.data (speciesIdx sol st.gasComposition i) else st.massDiffusivity i
            sol_calls := st.sol_calls ++ speciesIndexCalls st.gasComposition m }
        else none := by
  induction m with
  | zero =>
    have h0 : allReadable sol st.gasComposition diff.size 0 := fun i hi => absurd hi (by omega)
    rw [if_pos h0]
    simp [forLoop, speciesIndexCalls]
  | succ m ih =>
    rw [forLoop_succ, ih]
    by_cases hall : allReadable sol st.gasComposition diff.size m
    · rw [if_pos hall, Option.some_bind]
      unfold massDiffusivityBody
      simp only []
      by_cases hm : readable sol st.gasComposition diff.size m
      · rw [if_pos ((allReadable_succ sol st diff.size m).mpr ⟨hall, hm⟩),
          read_of_readable sol st diff m hm]
        simp only [Option.map_some', CFluidCantera.call, speciesIndexCalls_succ,
          List.append_assoc]
        rw [update_initial (fun i => diff.data (speciesIdx sol st.gasComposition i)) st.massDiffusivity m _ rfl]
      · rw [if_neg (fun h => hm ((allReadable_succ sol st diff.size m).mp h).2),
          read_of_not_readable sol st diff m hm]
        rfl
    · rw [if_neg hall, if_neg (fun h => hall ((allReadable_succ sol st diff.size m).mp h).1)]
      rfl

theorem forLoop_chemicalSourceTermBody (sol : Solution) (net : Vec) (st : CFluidCantera)
    (m : ℕ) :
    forLoop m (chemicalSourceTermBody sol net) st
      = if allReadable sol st.gasComposition net.size m then
          some { st with
            chemicalSourceTerm := fun i =>
              if i < m then st.molarMasses (speciesIdx sol st.gasComposition i) * net.data (speciesIdx sol st.gasComposition i)
              else st.chemicalSourceTerm i
            sol_calls := st.sol_calls ++ speciesIndexCalls st.gasComposition m }
        else none := by
  induction m with
  | zero =>
    have h0 : allReadable sol st.gasComposition net.size 0 := fun i hi => absurd hi (by omega)
    rw [if_pos h0]
    simp [forLoop, speciesIndexCalls]
  | succ m ih =>
    rw [forLoop_succ, ih]
    by_cases hall : allReadable sol st.gasComposition net.size m
    · rw [if_pos hall, Option.some_bind]
      unfold chemicalSourceTermBody
      simp only []
      by_cases hm : readable sol st.gasComposition net.size m
      · rw [if_pos ((allReadable_succ sol st net.size m).mpr ⟨hall, hm⟩)]
        obtain ⟨h1, h2⟩ := (readable_iff sol st net.size m).mp hm
        rw [h1]
        simp only [Vec.read, if_pos h2, Option.map_some', CFluidCantera.call,
          speciesIndexCalls_succ, List.append_assoc]
        rw [update_initial
          (fun i => st.molarMasses (speciesIdx sol st.gasComposition i) * net.data (speciesIdx sol st.gasComposition i))
          st.chemicalSourceTerm m _ rfl]
      · rw [if_neg (fun h => hm ((allReadable_succ sol st net.size m).mp h).2)]
        unfold readable speciesIdx at hm
        cases hk : sol.speciesIndex (st.gasComposition m) with
        | none => rfl
        | some k =>
          rw [hk] at hm
          have h2 : ¬ k < net.size := fun hlt => hm ⟨rfl, hlt⟩
          simp [Vec.read, h2]
    · rw [if_neg hall, if_neg (fun h => hall ((allReadable_succ sol st net.size m).mp h).1)]
      rfl

theorem forLoop_heatReleaseBody (sol : Solution) (net pme : Vec) (st : CFluidCantera) (m : ℕ) :
    forLoop m (heatReleaseBody sol net pme) st
      = if allReadable sol st.gasComposition pme.size m ∧ allReadable sol st.gasComposition net.size m then
          some { st with
            Heat_Release := st.Heat_Release
              + ∑ i in Finset.range m,
                  pme.data (speciesIdx sol st.gasComposition i) * net.data (speciesIdx sol st.gasComposition i)
            sol_calls := st.sol_calls ++ speciesIndexCalls st.gasComposition m }
        else none := by
  induction m with
  | zero =>
    have h0 : ∀ size, allReadable sol st.gasComposition size 0 := fun _ i hi => absurd hi (by omega)
    rw [if_pos ⟨h0 _, h0 _⟩]
    simp [forLoop, speciesIndexCalls]
  | succ m ih =>
    rw [forLoop_succ, ih]
    by_cases hall : allReadable sol st.gasComposition pme.size m ∧ allReadable sol st.gasComposition net.size m
    · rw [if_pos hall, Option.some_bind]
      unfold heatReleaseBody
      simp only []
      by_cases hp : readable sol st.gasComposition pme.size m
      · rw [read_of_readable sol st pme m hp, Option.some_bind]
        by_cases hn : readable sol st.gasComposition net.size m
        · rw [if_pos ⟨(allReadable_succ sol st pme.size m).mpr ⟨hall.1, hp⟩,
            (allReadable_succ sol st net.size m).mpr ⟨hall.2, hn⟩⟩,
            read_of_readable sol st net m hn]
          simp only [Option.map_some', CFluidCantera.call, speciesIndexCalls_succ,
            List.append_assoc, Finset.sum_range_succ, add_assoc]
        · rw [if_neg (fun h => hn ((allReadable_succ sol st net.size m).mp h.2).2),
            read_of_not_readable sol st net m hn]
          rfl
      · rw [if_neg (fun h => hp ((allReadable_succ sol st pme.size m).mp h.1).2),
          read_of_not_readable sol st pme m hp]
        rfl
    · rw [if_neg hall]
      rw [if_neg (fun h => hall ⟨((allReadable_succ sol st pme.size m).mp h.1).1,
        ((allReadable_succ sol st net.size m).mp h.2).1⟩)]
      rfl

/-! ## The property computations -/

theorem speciesIdx_lt (sol : Solution) (st : CFluidCantera) (size m : ℕ)
    (h : allReadable sol st.gasComposition size m) (i : ℕ) (hi : i < m) : speciesIdx sol st.gasComposition i < size :=
  ((readable_iff sol st size i).mp (h i hi)).2

theorem allReadable_mono (sol : Solution) (st : CFluidCantera) (a b m : ℕ) (hab : a ≤ b)
    (h : allReadable sol st.gasComposition a m) : allReadable sol st.gasComposition b m := by
  intro i hi
  obtain ⟨h1, h2⟩ := (readable_iff sol st a i).mp (h i hi)
  exact (readable_iff sol st b i).mpr ⟨h1, lt_of_lt_of_le h2 hab⟩

theorem fill_zeros (len count : ℕ) (w : ℕ → su2double) (h : count ≤ len) :
    (Vec.zeros len).fill count w = some ⟨len, fun i => if i < count then w i else 0⟩ := by
  unfold Vec.fill Vec.zeros
  exact if_pos h

theorem fill_zeros_none (len count : ℕ) (w : ℕ → su2double) (h : ¬ count ≤ len) :
    (Vec.zeros len).fill count w = none := by
  unfold Vec.fill Vec.zeros
  exact if_neg h

theorem ComputeMassDiffusivity_eq (sol : Solution) (st : CFluidCantera) :
    ComputeMassDiffusivity sol st
      = if allReadable sol st.gasComposition sol.nSpecies st.n_species_mixture then
          some { st with
            massDiffusivity := fun i =>
              if i < st.n_species_mixture then
                sol.getMixDiffCoeffsMass st.sol_state (speciesIdx sol st.gasComposition i)
              else st.massDiffusivity i
            sol_calls := st.sol_calls ++ massDiffusivityCalls st }
        else none := by
  unfold ComputeMassDiffusivity
  simp only []
  rw [fill_zeros _ _ _ (le_refl _), Option.some_bind, forLoop_massDiffusivityBody]
  simp only [CFluidCantera.call]
  by_cases h : allReadable sol st.gasComposition sol.nSpecies st.n_species_mixture
  · rw [if_pos h, if_pos h]
    congr 1
    simp only [massDiffusivityCalls, List.append_assoc]
    congr 1
    funext i
    by_cases hi : i < st.n_species_mixture
    · have hlt := speciesIdx_lt sol st _ _ h i hi
      simp [hi, hlt]
    · simp [hi]
  · rw [if_neg h, if_neg h]

theorem ComputeChemicalSourceTerm_of_safe (sol : Solution) (st : CFluidCantera)
    (h : indexSafe sol st) :
    ComputeChemicalSourceTerm sol st
      = some { st with
          chemicalSourceTerm := fun i =>
            if i < st.n_species_mixture then
              st.molarMasses (speciesIdx sol st.gasComposition i)
                * sol.getNetProductionRates st.sol_state (speciesIdx sol st.gasComposition i)
            else st.chemicalSourceTerm i
          sol_calls := st.sol_calls ++ chemicalSourceTermCalls st } := by
  obtain ⟨hfit, hall⟩ := h
  have hall' := allReadable_mono sol st _ _ _ hfit hall
  unfold ComputeChemicalSourceTerm
  simp only []
  rw [fill_zeros _ _ _ hfit, Option.some_bind, forLoop_chemicalSourceTermBody]
  simp only [CFluidCantera.call]
  rw [if_pos hall']
  congr 1
  simp only [chemicalSourceTermCalls, List.append_assoc]
  congr 1
  funext i
  by_cases hi : i < st.n_species_mixture
  · have hlt := speciesIdx_lt sol st _ _ hall i hi
    simp [hi, hlt]
  · simp [hi]

theorem ComputeChemicalSourceTerm_overflow (sol : Solution) (st : CFluidCantera)
    (h : ¬ sol.nSpecies ≤ sol.nReactions) : ComputeChemicalSourceTerm sol st = none := by
  unfold ComputeChemicalSourceTerm
  simp only []
  rw [fill_zeros_none _ _ _ h]
  rfl

theorem call_four (st : CFluidCantera) (a b c d : Call) :
    (((st.call a).call b).call c).call d = { st with sol_calls := st.sol_calls ++ [a, b, c, d] } := by
  simp [CFluidCantera.call]

theorem ComputeHeatRelease_eq (sol : Solution) (st : CFluidCantera) :
    ComputeHeatRelease sol st
      = if indexSafe sol st then
          some { st with
            Heat_Release := heatReleaseSum sol st st.sol_state
            sol_calls := st.sol_calls ++ heatReleaseCalls st }
        else none := by
  unfold ComputeHeatRelease
  simp only []
  by_cases hfit : sol.nSpecies ≤ sol.nReactions
  · rw [fill_zeros _ _ _ hfit, Option.some_bind, fill_zeros _ _ _ (le_refl _), Option.some_bind,
      forLoop_heatReleaseBody, call_four]
    have e3 : ((st.call Call.nReactions).call Call.nSpecies).call Call.getNetProductionRates
        = { st with sol_calls := st.sol_calls
              ++ [Call.nReactions, Call.nSpecies, Call.getNetProductionRates] } := by
      simp [CFluidCantera.call]
    rw [e3]
    simp only []
    by_cases hall : allReadable sol st.gasComposition sol.nSpecies st.n_species_mixture
    · have hall' := allReadable_mono sol st _ _ _ hfit hall
      rw [if_pos ⟨hall, hall'⟩, if_pos (show indexSafe sol st from ⟨hfit, hall⟩)]
      congr 1
      simp only [heatReleaseCalls, List.append_assoc, heatReleaseSum, zero_add]
      congr 1
      apply Finset.sum_congr rfl
      intro i hi
      have hlt := speciesIdx_lt sol st _ _ hall i (Finset.mem_range.mp hi)
      simp [hlt]
    · rw [if_neg (fun h => hall h.1), if_neg (fun h : indexSafe sol st => hall h.2)]
  · rw [fill_zeros_none _ _ _ hfit, if_neg (fun h : indexSafe sol st => hfit h.1)]
    rfl

theorem setThermo_eq (sol : Solution) (val_temperature : su2double)
    (val_scalars : ℕ → su2double) (st : CFluidCantera) :
    setThermo sol val_temperature val_scalars st
      = { st with
          chemical_composition := (DictionaryChemicalComposition val_scalars st).2
          Temperature := val_temperature
          Density := sol.density ⟨val_temperature, st.Pressure_Thermodynamic,
            (DictionaryChemicalComposition val_scalars st).2⟩
          Enthalpy := sol.enthalpy_mass ⟨val_temperature, st.Pressure_Thermodynamic,
            (DictionaryChemicalComposition val_scalars st).2⟩
          Cp := sol.cp_mass ⟨val_temperature, st.Pressure_Thermodynamic,
            (DictionaryChemicalComposition val_scalars st).2⟩
          Cv := sol.cv_mass ⟨val_temperature, st.Pressure_Thermodynamic,
            (DictionaryChemicalComposition val_scalars st).2⟩
          Mu := sol.viscosity ⟨val_temperature, st.Pressure_Thermodynamic,
            (DictionaryChemicalComposition val_scalars st).2⟩
          Kt := sol.thermalConductivity ⟨val_temperature, st.Pressure_Thermodynamic,
            (DictionaryChemicalComposition val_scalars st).2⟩
          sol_state := ⟨val_temperature, st.Pressure_Thermodynamic,
            (DictionaryChemicalComposition val_scalars st).2⟩
          sol_calls := st.sol_calls
            ++ [Call.setState_TPY val_temperature st.Pressure_Thermodynamic
                  (DictionaryChemicalComposition val_scalars st).2, Call.density,
                Call.enthalpy_mass, Call.cp_mass, Call.cv_mass, Call.viscosity,
                Call.thermalConductivity] } := by
  simp [setThermo, CFluidCantera.setState_TPY, CFluidCantera.call,
    DictionaryChemicalComposition]

theorem computeAll_eq (sol : Solution) (s0 : CFluidCantera) :
    ((ComputeMassDiffusivity sol s0).bind fun st =>
        (ComputeChemicalSourceTerm sol st).bind fun st => ComputeHeatRelease sol st)
      = if indexSafe sol s0 then
          some { s0 with
            massDiffusivity := fun i =>
              if i < s0.n_species_mixture then
                sol.getMixDiffCoeffsMass s0.sol_state (speciesIdx sol s0.gasComposition i)
              else s0.massDiffusivity i
            chemicalSourceTerm := fun i =>
              if i < s0.n_species_mixture then
                s0.molarMasses (speciesIdx sol s0.gasComposition i)
                  * sol.getNetProductionRates s0.sol_state (speciesIdx sol s0.gasComposition i)
              else s0.chemicalSourceTerm i
            Heat_Release := heatReleaseSum sol s0 s0.sol_state
            sol_calls := s0.sol_calls ++ massDiffusivityCalls s0 ++ chemicalSourceTermCalls s0
              ++ heatReleaseCalls s0 }
        else none := by
  rw [ComputeMassDiffusivity_eq]
  by_cases hall : allReadable sol s0.gasComposition sol.nSpecies s0.n_species_mixture
  · rw [if_pos hall, Option.some_bind]
    by_cases hfit : sol.nSpecies ≤ sol.nReactions
    · have k1 := ComputeChemicalSourceTerm_of_safe sol
        { s0 with
          massDiffusivity := fun i =>
            if i < s0.n_species_mixture then
              sol.getMixDiffCoeffsMass s0.sol_state (speciesIdx sol s0.gasComposition i)
            else s0.massDiffusivity i
          sol_calls := s0.sol_calls ++ massDiffusivityCalls s0 } ⟨hfit, hall⟩
      rw [k1, Option.some_bind, ComputeHeatRelease_eq]
      rw [if_pos (show indexSafe sol s0 from ⟨hfit, hall⟩), if_pos ⟨hfit, hall⟩]
      rfl
    · rw [if_neg (fun h : indexSafe sol s0 => hfit h.1),
        ComputeChemicalSourceTerm_overflow _ _ hfit]
      rfl
  · rw [if_neg hall, if_neg (fun h : indexSafe sol s0 => hall h.2)]
    rfl

/-- What `SetTDState_T` does, for every backend, engine state and input: when the index
accesses of its loops are defined the result is `stateAfterSetTDState`, otherwise the call has
undefined behaviour. -/
theorem SetTDState_T_eq (sol : Solution) (val_temperature : su2double)
    (val_scalars : ℕ → su2double) (st : CFluidCantera) :
    SetTDState_T sol val_temperature val_scalars st
      = if indexSafe sol st then some (stateAfterSetTDState sol val_temperature val_scalars st)
        else none := by
  unfold SetTDState_T
  rw [computeAll_eq, setThermo_eq]
  split_ifs with h1 h2 h2
  · congr 1
  · exact absurd (show indexSafe sol st from h1) h2
  · exact absurd (show indexSafe sol _ from h2) h1
  · rfl

/-! ## SetTDState_T and ComputeHeatRelease: the claims -/

theorem countSetState_speciesIndexCalls (names : ℕ → String) (m : ℕ) :
    countSetState (speciesIndexCalls names m) = 0 := by
  induction m with
  | zero => rfl
  | succ k ih =>
    have e : speciesIndexCalls names (k + 1)
        = speciesIndexCalls names k ++ [Call.speciesIndex (names k)] := by
      simp [speciesIndexCalls, List.range_succ]
    rw [e, countSetState_append, ih]
    rfl

/-- C7.  For every temperature and mass fractions, whenever the index accesses of the loops
are defined (`indexSafe`), `SetTDState_T` returns the state `stateAfterSetTDState`: the
temperature is stored, the backend is set once, at (temperature, operating pressure,
composition text built from the mass fractions), its density, enthalpy, heat capacities,
viscosity and conductivity for that state are stored, and the mass diffusivities, the source
terms and the heat release are then computed, in this order, for that same backend state.
Otherwise the call is undefined. -/
theorem SetTDState_T_state (sol : Solution) (val_temperature : su2double)
    (val_scalars : ℕ → su2double) (st : CFluidCantera) :
    SetTDState_T sol val_temperature val_scalars st
        = (if indexSafe sol st then
            some (stateAfterSetTDState sol val_temperature val_scalars st) else none)
      ∧ SetTDState_T sol val_temperature val_scalars st
        = (((ComputeMassDiffusivity sol (setThermo sol val_temperature val_scalars st)).bind
            (ComputeChemicalSourceTerm sol)).bind (ComputeHeatRelease sol))
      ∧ (setThermo sol val_temperature val_scalars st).sol_state
        = ⟨val_temperature, st.Pressure_Thermodynamic,
            (DictionaryChemicalComposition val_scalars st).2⟩
      ∧ (stateAfterSetTDState sol val_temperature val_scalars st).sol_state
        = ⟨val_temperature, st.Pressure_Thermodynamic,
            (DictionaryChemicalComposition val_scalars st).2⟩
      ∧ countSetState (stateAfterSetTDState sol val_temperature val_scalars st).sol_calls
        = countSetState st.sol_calls + 1 := by
  refine ⟨SetTDState_T_eq sol val_temperature val_scalars st, ?_, ?_, rfl, ?_⟩
  · unfold SetTDState_T
    cases ComputeMassDiffusivity sol (setThermo sol val_temperature val_scalars st) with
    | none => rfl
    | some s1 =>
      simp only [Option.some_bind]
  · rw [setThermo_eq]
  · simp [stateAfterSetTDState, massDiffusivityCalls, chemicalSourceTermCalls,
      heatReleaseCalls, countSetState_append, countSetState_speciesIndexCalls, countSetState]

theorem dictionary_congr (val_scalars : ℕ → su2double) (st1 st2 : CFluidCantera)
    (hn : st1.n_species_mixture = st2.n_species_mixture)
    (hg : st1.gasComposition = st2.gasComposition) :
    (DictionaryChemicalComposition val_scalars st1).2
      = (DictionaryChemicalComposition val_scalars st2).2 := by
  have hstep : dictStep st1 val_scalars = dictStep st2 val_scalars := by
    funext acc i
    simp [dictStep, hg]
  simp only [DictionaryChemicalComposition, hstep, hn, hg]

/-- C8.  Two calls of `SetTDState_T` with the same temperature and mass fractions, on
engines with the same configuration (species count, operating pressure, species names, molar
masses) and the same backend but arbitrary previous values of every computed field, are both
defined or both undefined, and when defined they leave the same temperature, density,
enthalpy, heat capacities, viscosity, conductivity, heat release, composition text and
backend state, and the same diffusivities and source terms in the slots of the `n` species. -/
theorem SetTDState_T_history_free (sol : Solution) (val_temperature : su2double)
    (val_scalars : ℕ → su2double) (st1 st2 : CFluidCantera)
    (hn : st1.n_species_mixture = st2.n_species_mixture)
    (hP : st1.Pressure_Thermodynamic = st2.Pressure_Thermodynamic)
    (hg : st1.gasComposition = st2.gasComposition)
    (hM : st1.molarMasses = st2.molarMasses) :
    (SetTDState_T sol val_temperature val_scalars st1).isSome
        = (SetTDState_T sol val_temperature val_scalars st2).isSome
      ∧ ∀ r1 r2, SetTDState_T sol val_temperature val_scalars st1 = some r1 →
          SetTDState_T sol val_temperature val_scalars st2 = some r2 →
          r1.Temperature = r2.Temperature ∧ r1.Density = r2.Density
            ∧ r1.Enthalpy = r2.Enthalpy ∧ r1.Cp = r2.Cp ∧ r1.Cv = r2.Cv ∧ r1.Mu = r2.Mu
            ∧ r1.Kt = r2.Kt ∧ r1.Heat_Release = r2.Heat_Release
            ∧ r1.chemical_composition = r2.chemical_composition
            ∧ r1.sol_state = r2.sol_state
            ∧ (∀ i, i < st1.n_species_mixture → r1.massDiffusivity i = r2.massDiffusivity i)
            ∧ (∀ i, i < st1.n_species_mixture →
                r1.chemicalSourceTerm i = r2.chemicalSourceTerm i) := by
  have htext := dictionary_congr val_scalars st1 st2 hn hg
  have hsafe : indexSafe sol st1 ↔ indexSafe sol st2 := by
    unfold indexSafe
    rw [hn, hg]
  rw [SetTDState_T_eq, SetTDState_T_eq]
  by_cases h1 : indexSafe sol st1
  · have h2 := hsafe.mp h1
    rw [if_pos h1, if_pos h2]
    refine ⟨rfl, ?_⟩
    intro r1 r2 e1 e2
    rw [← Option.some.inj e1, ← Option.some.inj e2]
    simp only [stateAfterSetTDState, heatReleaseSum, htext, hn, hP, hg, hM, true_and]
    constructor
    · intro i hi
      simp [hi]
    · intro i hi
      simp [hi]
  · have h2 : ¬ indexSafe sol st2 := fun h => h1 (hsafe.mpr h)
    rw [if_neg h1, if_neg h2]
    refine ⟨rfl, ?_⟩
    intro r1 r2 e1
    exact absurd e1 (by simp)

/-- Instance of `SetTDState_T_history_free`: a fresh engine and a used one, both tracking
`FUEL` and `PROD`, evaluated at 1500 K with a fuel fraction of 1/20. -/
theorem SetTDState_T_history_free_witness :
    (st2.n_species_mixture = st2used.n_species_mixture
        ∧ st2.Pressure_Thermodynamic = st2used.Pressure_Thermodynamic
        ∧ st2.gasComposition = st2used.gasComposition
        ∧ st2.molarMasses = st2used.molarMasses)
      ∧ (SetTDState_T (stepSol 2) 1500 (fun _ => 1 / 20) st2).isSome = true
      ∧ (SetTDState_T (stepSol 2) 1500 (fun _ => 1 / 20) st2).isSome
        = (SetTDState_T (stepSol 2) 1500 (fun _ => 1 / 20) st2used).isSome
      ∧ (SetTDState_T (stepSol 2) 1500 (fun _ => 1 / 20) st2).map
            (fun r => (r.Heat_Release, r.chemical_composition))
        = some (-300, "FUEL:0.050000, PROD:0.950000")
      ∧ (SetTDState_T (stepSol 2) 1500 (fun _ => 1 / 20) st2used).map
            (fun r => (r.Heat_Release, r.chemical_composition))
        = some (-300, "FUEL:0.050000, PROD:0.950000") :=
  ⟨⟨rfl, rfl, rfl, rfl⟩, by decide!,
   (SetTDState_T_history_free (stepSol 2) 1500 (fun _ => 1 / 20) st2 st2used rfl rfl rfl rfl).1,
   by decide!, by decide!⟩

/-- C9.  Whenever the index accesses of `ComputeHeatRelease` are defined, it returns with
`Heat_Release` equal to the sum over the `n` tracked species `i` of the backend partial molar
enthalpy times the backend net molar production rate, both at the backend index resolved from
the `i`-th species name; the only other change is the record of backend calls, and the value
`Heat_Release` had before has no influence.  Otherwise the call is undefined. -/
theorem ComputeHeatRelease_sum (sol : Solution) (st : CFluidCantera) :
    ComputeHeatRelease sol st
        = (if indexSafe sol st then
            some { st with
              Heat_Release := ∑ i in Finset.range st.n_species_mixture,
                sol.getPartialMolarEnthalpies st.sol_state (speciesIdx sol st.gasComposition i)
                  * sol.getNetProductionRates st.sol_state (speciesIdx sol st.gasComposition i)
              sol_calls := st.sol_calls ++ heatReleaseCalls st }
          else none)
      ∧ ∀ previous : su2double,
          (ComputeHeatRelease sol { st with Heat_Release := previous }).map
              (fun r => r.Heat_Release)
            = (ComputeHeatRelease sol st).map (fun r => r.Heat_Release) := by
  refine ⟨ComputeHeatRelease_eq sol st, ?_⟩
  intro previous
  rw [ComputeHeatRelease_eq, ComputeHeatRelease_eq]
  by_cases h : indexSafe sol st
  · rw [if_pos h, if_pos (show indexSafe sol { st with Heat_Release := previous } from h)]
    rfl
  · rw [if_neg h, if_neg (show ¬ indexSafe sol { st with Heat_Release := previous } from h)]

theorem tracked_sum (sol : Solution) (st : CFluidCantera) (f : ℕ → su2double)
    (hall : allReadable sol st.gasComposition sol.nSpecies st.n_species_mixture)
    (hinj : ∀ i j, i < st.n_species_mixture → j < st.n_species_mixture →
      speciesIdx sol st.gasComposition i = speciesIdx sol st.gasComposition j → i = j)
    (hcover : ∀ k, k < sol.nSpecies → f k ≠ 0 →
      ∃ i, i < st.n_species_mixture ∧ speciesIdx sol st.gasComposition i = k) :
    ∑ i in Finset.range st.n_species_mixture, f (speciesIdx sol st.gasComposition i)
      = ∑ k in Finset.range sol.nSpecies, f k := by
  have himg : ∑ k in (Finset.range st.n_species_mixture).image (speciesIdx sol st.gasComposition),
        f k
      = ∑ i in Finset.range st.n_species_mixture, f (speciesIdx sol st.gasComposition i) := by
    apply Finset.sum_image
    intro i hi j hj hij
    exact hinj i j (Finset.mem_range.mp hi) (Finset.mem_range.mp hj) hij
  rw [← himg]
  apply Finset.sum_subset
  · intro k hk
    obtain ⟨i, hi, rfl⟩ := Finset.mem_image.mp hk
    exact Finset.mem_range.mpr (speciesIdx_lt sol st _ _ hall i (Finset.mem_range.mp hi))
  · intro k hk hnot
    by_contra hne
    obtain ⟨i, hi, hik⟩ := hcover k (Finset.mem_range.mp hk) hne
    exact hnot (Finset.mem_image.mpr ⟨i, Finset.mem_range.mpr hi, hik⟩)

/-- What `ComputeHeatRelease` accumulates for a one-step mechanism.  Let the call be defined
(`indexSafe`), let the net molar production rate of every backend species `k` be `ν k * q`,
and let the tracked species be distinct and include every species with `ν k ≠ 0`.  Then the
call leaves `Heat_Release = q * Σ_k ν k * h_k`, the rate of progress times the reaction
enthalpy, with no change of sign: the value is the negative of the heat released, strictly
negative when the step is net-exothermic (`q > 0`, reaction enthalpy negative) and strictly
positive when it is net-endothermic. -/
theorem ComputeHeatRelease_sign (sol : Solution) (st : CFluidCantera) (ν : ℕ → su2double)
    (q : su2double) (hsafe : indexSafe sol st)
    (hrate : ∀ k, k < sol.nSpecies → sol.getNetProductionRates st.sol_state k = ν k * q)
    (hinj : ∀ i j, i < st.n_species_mixture → j < st.n_species_mixture →
      speciesIdx sol st.gasComposition i = speciesIdx sol st.gasComposition j → i = j)
    (hcover : ∀ k, k < sol.nSpecies → ν k ≠ 0 →
      ∃ i, i < st.n_species_mixture ∧ speciesIdx sol st.gasComposition i = k)
    (hq : 0 < q) :
    ∃ r, ComputeHeatRelease sol st = some r
      ∧ r.Heat_Release
        = q * ∑ k in Finset.range sol.nSpecies,
            ν k * sol.getPartialMolarEnthalpies st.sol_state k
      ∧ (∑ k in Finset.range sol.nSpecies,
            ν k * sol.getPartialMolarEnthalpies st.sol_state k < 0 → r.Heat_Release < 0)
      ∧ (0 < ∑ k in Finset.range sol.nSpecies,
            ν k * sol.getPartialMolarEnthalpies st.sol_state k → 0 < r.Heat_Release) := by
  have hval : heatReleaseSum sol st st.sol_state
      = q * ∑ k in Finset.range sol.nSpecies,
          ν k * sol.getPartialMolarEnthalpies st.sol_state k := by
    unfold heatReleaseSum
    have h1 : ∀ i ∈ Finset.range st.n_species_mixture,
        sol.getPartialMolarEnthalpies st.sol_state (speciesIdx sol st.gasComposition i)
          * sol.getNetProductionRates st.sol_state (speciesIdx sol st.gasComposition i)
        = (fun k => q * (ν k * sol.getPartialMolarEnthalpies st.sol_state k))
            (speciesIdx sol st.gasComposition i) := by
      intro i hi
      have hlt := speciesIdx_lt sol st _ _ hsafe.2 i (Finset.mem_range.mp hi)
      simp only [hrate _ hlt]
      ring
    rw [Finset.sum_congr rfl h1,
      tracked_sum sol st (fun k => q * (ν k * sol.getPartialMolarEnthalpies st.sol_state k))
        hsafe.2 hinj (fun k hk hne => hcover k hk (fun h0 => hne (by simp [h0]))),
      Finset.mul_sum]
  rw [ComputeHeatRelease_eq, if_pos hsafe]
  refine ⟨_, rfl, hval, ?_, ?_⟩
  · intro hneg
    show heatReleaseSum sol st st.sol_state < 0
    rw [hval]
    exact mul_neg_of_pos_of_neg hq hneg
  · intro hpos
    show 0 < heatReleaseSum sol st st.sol_state
    rw [hval]
    exact mul_pos hq hpos

/-- Instance of `ComputeHeatRelease_sign`: the step `FUEL -> PROD` at rate of progress 3 with
reaction enthalpy `-100`, in a backend that lists two reactions: `Heat_Release = -300`. -/
theorem ComputeHeatRelease_sign_witness :
    (indexSafe (stepSol 2) st2
        ∧ (∀ k, k < (stepSol 2).nSpecies → (stepSol 2).getNetProductionRates st2.sol_state k
            = (fun k => if k = 0 then -1 else if k = 1 then 1 else 0) k * 3)
        ∧ (0 : ℚ) < 3)
      ∧ ∃ r, ComputeHeatRelease (stepSol 2) st2 = some r
          ∧ r.Heat_Release
            = 3 * ∑ k in Finset.range (stepSol 2).nSpecies,
                (fun k => if k = 0 then -1 else if k = 1 then 1 else 0) k
                  * (stepSol 2).getPartialMolarEnthalpies st2.sol_state k
          ∧ (∑ k in Finset.range (stepSol 2).nSpecies,
                (fun k => if k = 0 then (-1 : ℚ) else if k = 1 then 1 else 0) k
                  * (stepSol 2).getPartialMolarEnthalpies st2.sol_state k < 0
              → r.Heat_Release < 0)
          ∧ (0 < ∑ k in Finset.range (stepSol 2).nSpecies,
                (fun k => if k = 0 then (-1 : ℚ) else if k = 1 then 1 else 0) k
                  * (stepSol 2).getPartialMolarEnthalpies st2.sol_state k
              → 0 < r.Heat_Release) :=
  have hsafe : indexSafe (stepSol 2) st2 := by decide
  have hrate : ∀ k, k < (stepSol 2).nSpecies → (stepSol 2).getNetProductionRates st2.sol_state k
      = (fun k => if k = 0 then -1 else if k = 1 then 1 else 0) k * 3 := by
    intro k hk
    have hk2 : k < 2 := hk
    interval_cases k <;> simp [stepSol]
  ⟨⟨hsafe, hrate, by norm_num⟩,
   ComputeHeatRelease_sign (stepSol 2) st2 (fun k => if k = 0 then -1 else if k = 1 then 1 else 0)
     3 hsafe hrate
     (by
      intro i j hi hj hij
      have hi2 : i < 2 := hi
      have hj2 : j < 2 := hj
      interval_cases i <;> interval_cases j <;> first | rfl | exact absurd hij (by decide))
     (by
      intro k hk _
      have hk2 : k < 2 := hk
      interval_cases k
      · exact ⟨0, by decide, by decide⟩
      · exact ⟨1, by decide, by decide⟩)
     (by norm_num)⟩

/-- C10: the code at a net-exothermic single step.  For the step `FUEL -> PROD` at rate of
progress 3 and with reaction enthalpy `-100`, the sum of partial molar enthalpy times net
production rate over the two tracked species, which the loop of `ComputeHeatRelease`
accumulates with no change of sign, is `-300`, the negative of the heat released.  With the
one reaction the mechanism has (`stepSol 1`), the buffer of net production rates has length 1
and the call is undefined; in a backend that lists a second reaction (`stepSol 2`) the call
is defined and leaves `Heat_Release = -300`, which is not positive. -/
theorem ComputeHeatRelease_exothermic_not_positive :
    (0 : ℚ) < 3
      ∧ (∀ k, (stepSol 1).getNetProductionRates st2.sol_state k
          = (if k = 0 then -1 else if k = 1 then 1 else 0) * 3)
      ∧ ((-1 : ℚ) * (stepSol 1).getPartialMolarEnthalpies st2.sol_state 0
          + 1 * (stepSol 1).getPartialMolarEnthalpies st2.sol_state 1 = -100)
      ∧ (stepSol 1).nReactions = 1
      ∧ heatReleaseSum (stepSol 1) st2 st2.sol_state = -300
      ∧ (ComputeHeatRelease (stepSol 1) st2).map (fun r => r.Heat_Release) = none
      ∧ (ComputeHeatRelease (stepSol 2) st2).map (fun r => r.Heat_Release) = some (-300)
      ∧ ¬ (0 : ℚ) < -300 := by
  refine ⟨by norm_num, ?_, by decide!, rfl, by decide!, by decide!, by decide!, by norm_num⟩
  intro k
  simp only [stepSol]
  split_ifs <;> norm_num

/-! ## Source terms, diffusivities and their slots: the claims -/

/-- C11.  If the backend reports a zero net production rate for every species at the state
that `SetTDState_T` sets, then, whatever the molar masses, the partial molar enthalpies and the
previous engine state are, a defined call leaves `Heat_Release = 0` and each of the `n`
chemical source terms equal to 0 (the call is defined exactly when `indexSafe` holds). -/
theorem SetTDState_T_inert (sol : Solution) (val_temperature : su2double)
    (val_scalars : ℕ → su2double) (st : CFluidCantera)
    (hzero : ∀ k, sol.getNetProductionRates
      ⟨val_temperature, st.Pressure_Thermodynamic,
        (DictionaryChemicalComposition val_scalars st).2⟩ k = 0) :
    SetTDState_T sol val_temperature val_scalars st
        = (if indexSafe sol st then
            some (stateAfterSetTDState sol val_temperature val_scalars st) else none)
      ∧ (stateAfterSetTDState sol val_temperature val_scalars st).Heat_Release = 0
      ∧ ∀ i, i < st.n_species_mixture →
          (stateAfterSetTDState sol val_temperature val_scalars st).chemicalSourceTerm i = 0 := by
  refine ⟨SetTDState_T_eq sol val_temperature val_scalars st, ?_, ?_⟩
  · simp only [stateAfterSetTDState, heatReleaseSum, hzero, mul_zero, Finset.sum_const_zero]
  · intro i hi
    simp only [stateAfterSetTDState, hzero, mul_zero, if_pos hi]

/-- Instance of `SetTDState_T_inert`: the inert backend `inertSol` and an engine that holds
values from an earlier evaluation; heat release and both source terms become 0. -/
theorem SetTDState_T_inert_witness :
    (∀ k, inertSol.getNetProductionRates
        ⟨1500, st2used.Pressure_Thermodynamic,
          (DictionaryChemicalComposition (fun _ => 1 / 20) st2used).2⟩ k = 0)
      ∧ indexSafe inertSol st2used
      ∧ (SetTDState_T inertSol 1500 (fun _ => 1 / 20) st2used).map
          (fun r => (r.Heat_Release, r.chemicalSourceTerm 0, r.chemicalSourceTerm 1))
        = some (0, 0, 0)
      ∧ (stateAfterSetTDState inertSol 1500 (fun _ => 1 / 20) st2used).Heat_Release = 0 :=
  ⟨fun _ => rfl, by decide, by decide!,
   (SetTDState_T_inert inertSol 1500 (fun _ => 1 / 20) st2used (fun _ => rfl)).2.1⟩

/-- C12.  When the index accesses are defined (`indexSafe`) and `molarMasses` holds the
backend's molecular weights, as the constructor leaves it, `ComputeChemicalSourceTerm`
returns, and for every tracked species `i < n` the name of species `i` resolves to the backend
index `idx i` and `chemicalSourceTerm[i]` is the molecular weight of backend species `idx i`
times its net molar production rate. -/
theorem ComputeChemicalSourceTerm_slots (sol : Solution) (st : CFluidCantera)
    (hsafe : indexSafe sol st)
    (hM : ∀ k, k < sol.nSpecies → st.molarMasses k = sol.getMolecularWeights k) :
    ∃ r, ComputeChemicalSourceTerm sol st = some r
      ∧ ∀ i, i < st.n_species_mixture →
          sol.speciesIndex (st.gasComposition i) = some (speciesIdx sol st.gasComposition i)
          ∧ r.chemicalSourceTerm i
            = sol.getMolecularWeights (speciesIdx sol st.gasComposition i)
              * sol.getNetProductionRates st.sol_state (speciesIdx sol st.gasComposition i) := by
  rw [ComputeChemicalSourceTerm_of_safe sol st hsafe]
  refine ⟨_, rfl, ?_⟩
  intro i hi
  obtain ⟨h1, h2⟩ := (readable_iff sol st sol.nSpecies i).mp (hsafe.2 i hi)
  refine ⟨h1, ?_⟩
  simp only [if_pos hi, hM _ h2]

/-- Instance of `ComputeChemicalSourceTerm_slots`: the step `FUEL -> PROD` with molar masses
16 and 44 and net rates -3 and 3 gives the source terms -48 and 132. -/
theorem ComputeChemicalSourceTerm_slots_witness :
    (indexSafe (stepSol 2) st2
        ∧ ∀ k, k < (stepSol 2).nSpecies → st2.molarMasses k = (stepSol 2).getMolecularWeights k)
      ∧ (∃ r, ComputeChemicalSourceTerm (stepSol 2) st2 = some r
          ∧ ∀ i, i < st2.n_species_mixture →
            (stepSol 2).speciesIndex (st2.gasComposition i)
              = some (speciesIdx (stepSol 2) st2.gasComposition i)
            ∧ r.chemicalSourceTerm i
              = (stepSol 2).getMolecularWeights (speciesIdx (stepSol 2) st2.gasComposition i)
                * (stepSol 2).getNetProductionRates st2.sol_state
                    (speciesIdx (stepSol 2) st2.gasComposition i))
      ∧ (ComputeChemicalSourceTerm (stepSol 2) st2).map
          (fun r => (r.chemicalSourceTerm 0, r.chemicalSourceTerm 1)) = some (-48, 132) :=
  have hsafe : indexSafe (stepSol 2) st2 := by decide
  have hM : ∀ k, k < (stepSol 2).nSpecies →
      st2.molarMasses k = (stepSol 2).getMolecularWeights k := fun _ _ => rfl
  ⟨⟨hsafe, hM⟩, ComputeChemicalSourceTerm_slots (stepSol 2) st2 hsafe hM, by decide!⟩

/-- C14.  `ComputeMassDiffusivity` is defined exactly when every tracked name resolves to a
backend species; it then stores, for every tracked species `i < n`, in slot `i` (the engine's
order) the backend's mixture-averaged coefficient at the backend index `idx i` resolved from
the `i`-th species name, and leaves every other member but the record of calls as it was. -/
theorem ComputeMassDiffusivity_slots (sol : Solution) (st : CFluidCantera) :
    ComputeMassDiffusivity sol st
        = (if allReadable sol st.gasComposition sol.nSpecies st.n_species_mixture then
            some { st with
              massDiffusivity := fun i =>
                if i < st.n_species_mixture then
                  sol.getMixDiffCoeffsMass st.sol_state (speciesIdx sol st.gasComposition i)
                else st.massDiffusivity i
              sol_calls := st.sol_calls ++ massDiffusivityCalls st }
          else none)
      ∧ ∀ r, ComputeMassDiffusivity sol st = some r → ∀ i, i < st.n_species_mixture →
          sol.speciesIndex (st.gasComposition i) = some (speciesIdx sol st.gasComposition i)
          ∧ r.massDiffusivity i
            = sol.getMixDiffCoeffsMass st.sol_state (speciesIdx sol st.gasComposition i) := by
  refine ⟨ComputeMassDiffusivity_eq sol st, ?_⟩
  intro r hr i hi
  rw [ComputeMassDiffusivity_eq] at hr
  by_cases hall : allReadable sol st.gasComposition sol.nSpecies st.n_species_mixture
  · rw [if_pos hall] at hr
    rw [← Option.some.inj hr]
    exact ⟨((readable_iff sol st sol.nSpecies i).mp (hall i hi)).1, by simp only [if_pos hi]⟩
  · rw [if_neg hall] at hr
    exact absurd hr (by simp)

/-- C15.  A defined call of `SetTDState_T` writes exactly the slots `0 .. n-1` of the
mass-diffusivity and source-term arrays: slot `i < n` receives the value of tracked species
`i`, every slot `i ≥ n` keeps its value, and the species count is unchanged. -/
theorem SetTDState_T_slots (sol : Solution) (val_temperature : su2double)
    (val_scalars : ℕ → su2double) (st : CFluidCantera) :
    SetTDState_T sol val_temperature val_scalars st
        = (if indexSafe sol st then
            some (stateAfterSetTDState sol val_temperature val_scalars st) else none)
      ∧ (stateAfterSetTDState sol val_temperature val_scalars st).n_species_mixture
        = st.n_species_mixture
      ∧ (∀ i, st.n_species_mixture ≤ i →
          (stateAfterSetTDState sol val_temperature val_scalars st).massDiffusivity i
              = st.massDiffusivity i
            ∧ (stateAfterSetTDState sol val_temperature val_scalars st).chemicalSourceTerm i
              = st.chemicalSourceTerm i)
      ∧ ∀ i, i < st.n_species_mixture →
          (stateAfterSetTDState sol val_temperature val_scalars st).massDiffusivity i
              = sol.getMixDiffCoeffsMass
                  ⟨val_temperature, st.Pressure_Thermodynamic,
                    (DictionaryChemicalComposition val_scalars st).2⟩
                  (speciesIdx sol st.gasComposition i)
            ∧ (stateAfterSetTDState sol val_temperature val_scalars st).chemicalSourceTerm i
              = st.molarMasses (speciesIdx sol st.gasComposition i)
                * sol.getNetProductionRates
                    ⟨val_temperature, st.Pressure_Thermodynamic,
                      (DictionaryChemicalComposition val_scalars st).2⟩
                    (speciesIdx sol st.gasComposition i) := by
  refine ⟨SetTDState_T_eq sol val_temperature val_scalars st, rfl, ?_, ?_⟩
  · intro i hi
    have hlt : ¬ i < st.n_species_mixture := by omega
    simp only [stateAfterSetTDState, if_neg hlt, and_self]
  · intro i hi
    simp only [stateAfterSetTDState, if_pos hi, and_self]

/-- C13 (as stated) fails.  The engine `st2const` has a constant-value law, `1/1000`, for
every species, yet after `SetTDState_T` slot 0 of the mass-diffusivity array holds `1/10000`,
the backend's mixture-averaged coefficient of `FUEL`, and the backend diffusivity query is among
the calls made. -/
theorem SetTDState_T_constant_law_ignored :
    st2const.MassDiffusivityPointers 0 = some (DiffusivityModel.constantDiffusivity (1 / 1000))
      ∧ (SetTDState_T (stepSol 2) 1500 (fun _ => 1 / 20) st2const).map
          (fun r => (r.massDiffusivity 0, decide (Call.getMixDiffCoeffsMass ∈ r.sol_calls)))
        = some (1 / 10000, true)
      ∧ (1 / 10000 : ℚ) ≠ 1 / 1000 := by
  refine ⟨rfl, by decide!, by norm_num⟩

/-- C13 (as amended).  Whatever mass-diffusivity laws are configured, a defined call of
`SetTDState_T` stores in slot `i < n` of the mass-diffusivity array the backend's
mixture-averaged coefficient at the backend index of tracked species `i`; the backend
diffusivity query is made, the configured laws are neither consulted nor changed, and the
result is the same for any other choice of laws. -/
theorem SetTDState_T_diffusivity_backend (sol : Solution) (val_temperature : su2double)
    (val_scalars : ℕ → su2double) (st : CFluidCantera) :
    SetTDState_T sol val_temperature val_scalars st
        = (if indexSafe sol st then
            some (stateAfterSetTDState sol val_temperature val_scalars st) else none)
      ∧ (∀ i, i < st.n_species_mixture →
          (stateAfterSetTDState sol val_temperature val_scalars st).massDiffusivity i
            = sol.getMixDiffCoeffsMass
                ⟨val_temperature, st.Pressure_Thermodynamic,
                  (DictionaryChemicalComposition val_scalars st).2⟩
                (speciesIdx sol st.gasComposition i))
      ∧ Call.getMixDiffCoeffsMass
          ∈ (stateAfterSetTDState sol val_temperature val_scalars st).sol_calls
      ∧ (stateAfterSetTDState sol val_temperature val_scalars st).MassDiffusivityPointers
        = st.MassDiffusivityPointers
      ∧ ∀ laws : ℕ → Option DiffusivityModel,
          (SetTDState_T sol val_temperature val_scalars
              { st with MassDiffusivityPointers := laws }).map (fun r => r.massDiffusivity)
            = (SetTDState_T sol val_temperature val_scalars st).map
                (fun r => r.massDiffusivity) := by
  refine ⟨SetTDState_T_eq sol val_temperature val_scalars st, ?_, ?_, rfl, ?_⟩
  · intro i hi
    simp only [stateAfterSetTDState, if_pos hi]
  · simp [stateAfterSetTDState, massDiffusivityCalls]
  · intro laws
    rw [SetTDState_T_eq, SetTDState_T_eq]
    by_cases h : indexSafe sol st
    · rw [if_pos h, if_pos (show indexSafe sol { st with MassDiffusivityPointers := laws } from h)]
      rfl
    · rw [if_neg h,
        if_neg (show ¬ indexSafe sol { st with MassDiffusivityPointers := laws } from h)]

/-! ## Index safety of the kinetics buffers -/

/-- When a tracked species resolves to a backend index that is not below the number of
reactions, both kinetics computations access the net-production-rate buffer out of bounds. -/
theorem kinetics_read_out_of_bounds (sol : Solution) (st : CFluidCantera) (i k : ℕ)
    (hi : i < st.n_species_mixture) (hk : sol.speciesIndex (st.gasComposition i) = some k)
    (hout : sol.nReactions ≤ k) :
    ComputeChemicalSourceTerm sol st = none ∧ ComputeHeatRelease sol st = none := by
  have hnr : ¬ allReadable sol st.gasComposition sol.nReactions st.n_species_mixture := by
    intro hall
    obtain ⟨h1, h2⟩ := (readable_iff sol st sol.nReactions i).mp (hall i hi)
    rw [hk] at h1
    have : k = speciesIdx sol st.gasComposition i := Option.some.inj h1
    omega
  constructor
  · unfold ComputeChemicalSourceTerm
    simp only []
    by_cases hfit : sol.nSpecies ≤ sol.nReactions
    · rw [fill_zeros _ _ _ hfit, Option.some_bind, forLoop_chemicalSourceTermBody]
      exact if_neg hnr
    · rw [fill_zeros_none _ _ _ hfit]
      rfl
  · rw [ComputeHeatRelease_eq]
    apply if_neg
    intro hsafe
    exact hnr (allReadable_mono sol st _ _ _ hsafe.1 hsafe.2)

/-- C19 at a concrete mechanism.  The backend `stepSol 1` has one reaction and two species,
and the engine `st2` tracks both.  `PROD` resolves to backend index 1, the buffer of net
production rates has length 1, the read at index 1 is out of bounds, and both
`ComputeChemicalSourceTerm` and `ComputeHeatRelease` are undefined, whereas the buffer of
partial molar enthalpies, of length `nSpecies`, can be read at that index. -/
theorem kinetics_buffer_overrun :
    (stepSol 1).nReactions = 1 ∧ (stepSol 1).nSpecies = 2
      ∧ (stepSol 1).speciesIndex (st2.gasComposition 1) = some 1
      ∧ (Vec.zeros (stepSol 1).nReactions).read
          ((stepSol 1).speciesIndex (st2.gasComposition 1)) = none
      ∧ ((Vec.zeros (stepSol 1).nSpecies).read
          ((stepSol 1).speciesIndex (st2.gasComposition 1))).isSome = true
      ∧ (ComputeChemicalSourceTerm (stepSol 1) st2).isSome = false
      ∧ (ComputeHeatRelease (stepSol 1) st2).isSome = false := by
  refine ⟨rfl, rfl, by decide, by decide, by decide, by decide!, by decide!⟩

/-! ## ComputeTempFromEnthalpy: frame and exit state -/

/-- C20.  A call of `ComputeTempFromEnthalpy` returns and leaves the stored temperature,
density, enthalpy, heat capacities, viscosity, conductivity, mass diffusivities, chemical source
terms and heat release, as well as the configuration, as they were; it stores the composition
text and leaves the backend at the last evaluated iterate `T_{K-1}`, the one before the final
update.  When the final step is within tolerance the value returned is within `1e-5` of that
iterate and, the heat capacity there being nonzero, `|h_target - h(T_{K-1})|` is at most
`1e-5 * |Cp(T_{K-1})|`. -/
theorem ComputeTempFromEnthalpy_frame (sol : Solution) (st : CFluidCantera)
    (val_enthalpy : su2double) (val_scalars : ℕ → su2double) :
    ∃ r, ComputeTempFromEnthalpy sol val_enthalpy val_scalars st = some r
      ∧ (r.1.Temperature = st.Temperature ∧ r.1.Density = st.Density
          ∧ r.1.Enthalpy = st.Enthalpy ∧ r.1.Cp = st.Cp ∧ r.1.Cv = st.Cv ∧ r.1.Mu = st.Mu
          ∧ r.1.Kt = st.Kt ∧ r.1.massDiffusivity = st.massDiffusivity
          ∧ r.1.chemicalSourceTerm = st.chemicalSourceTerm
          ∧ r.1.Heat_Release = st.Heat_Release)
      ∧ (r.1.n_species_mixture = st.n_species_mixture
          ∧ r.1.Pressure_Thermodynamic = st.Pressure_Thermodynamic
          ∧ r.1.gasComposition = st.gasComposition ∧ r.1.molarMasses = st.molarMasses
          ∧ r.1.MassDiffusivityPointers = st.MassDiffusivityPointers)
      ∧ r.1.chemical_composition = (DictionaryChemicalComposition val_scalars st).2
      ∧ r.1.sol_state
        = ⟨newtonSeq sol st val_enthalpy val_scalars
              (cutIndex sol st val_enthalpy val_scalars - 1),
            st.Pressure_Thermodynamic, (DictionaryChemicalComposition val_scalars st).2⟩
      ∧ r.2 = newtonSeq sol st val_enthalpy val_scalars
          (cutIndex sol st val_enthalpy val_scalars)
      ∧ (|newtonSeq sol st val_enthalpy val_scalars (cutIndex sol st val_enthalpy val_scalars)
            - newtonSeq sol st val_enthalpy val_scalars
                (cutIndex sol st val_enthalpy val_scalars - 1)| ≤ toll →
          |r.2 - r.1.sol_state.T| ≤ toll
            ∧ (cpAt sol st val_scalars r.1.sol_state.T ≠ 0 →
                |val_enthalpy - enthalpyAt sol st val_scalars r.1.sol_state.T|
                  ≤ toll * |cpAt sol st val_scalars r.1.sol_state.T|)) := by
  obtain ⟨hK1, -, -, -⟩ := cutIndex_spec sol st val_enthalpy val_scalars
  rw [ComputeTempFromEnthalpy_result]
  refine ⟨_, rfl, ⟨rfl, rfl, rfl, rfl, rfl, rfl, rfl, rfl, rfl, rfl⟩, ⟨rfl, rfl, rfl, rfl, rfl⟩,
    rfl, rfl, rfl, ?_⟩
  intro htol
  refine ⟨htol, ?_⟩
  intro hcp
  simp only [] at hcp ⊢
  generalize cutIndex sol st val_enthalpy val_scalars = K at hK1 htol hcp ⊢
  obtain ⟨m, rfl⟩ : ∃ m, K = m + 1 := ⟨K - 1, by omega⟩
  simp only [Nat.add_sub_cancel] at htol hcp ⊢
  have hstep : newtonSeq sol st val_enthalpy val_scalars (m + 1)
      - newtonSeq sol st val_enthalpy val_scalars m
      = (val_enthalpy - enthalpyAt sol st val_scalars (newtonSeq sol st val_enthalpy val_scalars m))
        / cpAt sol st val_scalars (newtonSeq sol st val_enthalpy val_scalars m) := by
    simp only [newtonSeq]
    ring
  rw [hstep, abs_div, div_le_iff₀ (abs_pos.mpr hcp)] at htol
  exact htol

/-- Instance of `ComputeTempFromEnthalpy_frame`: enthalpy `2 * T`, heat capacity 2, target
enthalpy 2000, on an engine holding earlier values: the value returned is 1000, the backend is
left at 1000 K and the stored temperature is still 2000. -/
theorem ComputeTempFromEnthalpy_frame_witness :
    (∃ r, ComputeTempFromEnthalpy (affineSol 0 2) 2000 tinyScalars st2used = some r
        ∧ r.1.Temperature = st2used.Temperature ∧ r.1.Heat_Release = st2used.Heat_Release
        ∧ r.2 = newtonSeq (affineSol 0 2) st2used 2000 tinyScalars
            (cutIndex (affineSol 0 2) st2used 2000 tinyScalars))
      ∧ (ComputeTempFromEnthalpy (affineSol 0 2) 2000 tinyScalars st2used).map
          (fun r => (r.2, r.1.sol_state.T, r.1.Temperature)) = some (1000, 1000, 2000) :=
  ⟨(ComputeTempFromEnthalpy_frame (affineSol 0 2) st2used 2000 tinyScalars).imp
      (fun _ h => ⟨h.1, h.2.1.1, h.2.1.2.2.2.2.2.2.2.2.2, h.2.2.2.2.2.1⟩),
   by decide!⟩

/-! ## The differential-diffusion helper -/

theorem update_below {α : Type} (f g : ℕ → α) (m : ℕ) (v : α) (hv : v = f m) :
    Function.update (fun i => if i < m then f i else g i) m v
      = fun i => if i < m + 1 then f i else g i := by
  funext i
  by_cases him : i = m
  · subst him
    simp [hv]
  · rw [Function.update_noteq him]
    by_cases hlt : i < m
    · simp [hlt, Nat.lt_succ_of_lt hlt]
    · have : ¬ i < m + 1 := by omega
      simp [hlt, this]

theorem forRange_succ {σ : Type} (n : ℕ) (body : ℕ → σ → Option σ) (s : σ) :
    forRange (n + 1) body s = (forRange n body s).bind (body n) := by
  simp [forRange, List.range_succ, List.foldlM_append]

theorem forRange_guarded (st0 : CFluidCantera) (ok : ℕ → Prop) [DecidablePred ok]
    (c : ℕ → Call) (val : ℕ → su2double)
    (body : ℕ → CFluidCantera × (ℕ → su2double) → Option (CFluidCantera × (ℕ → su2double)))
    (hbody : ∀ i l out, body i ({ st0 with sol_calls := l }, out)
      = if ok i then
          some ({ st0 with sol_calls := l ++ [c i] }, Function.update out i (val i))
        else none)
    (m : ℕ) (l : List Call) (out : ℕ → su2double) :
    forRange m body ({ st0 with sol_calls := l }, out)
      = if ∀ i, i < m → ok i then
          some ({ st0 with sol_calls := l ++ (List.range m).map c },
            fun i => if i < m then val i else out i)
        else none := by
  induction m with
  | zero =>
    rw [if_pos (fun i hi => absurd hi (by omega))]
    simp [forRange]
  | succ m ih =>
    rw [forRange_succ, ih]
    by_cases hall : ∀ i, i < m → ok i
    · rw [if_pos hall, Option.some_bind, hbody]
      by_cases hm : ok m
      · have hall' : ∀ i, i < m + 1 → ok i := by
          intro i hi
          by_cases him : i = m
          · rw [him]; exact hm
          · exact hall i (by omega)
        rw [if_pos hm, if_pos hall', update_below val out m _ rfl]
        simp [List.range_succ]
      · rw [if_neg hm, if_neg (fun h => hm (h m (by omega)))]
    · rw [if_neg hall, if_neg (fun h => hall (fun i hi => h i (by omega)))]
      rfl

theorem enthalpyDiffusivityBody_eq (sol : Solution) (prefactor : su2double)
    (wdata ddata : ℕ → su2double) (st0 : CFluidCantera) (iN i : ℕ) (l : List Call)
    (out : ℕ → su2double) :
    enthalpyDiffusivityBody sol prefactor ⟨sol.nSpecies, wdata⟩ ⟨sol.nSpecies, ddata⟩
        (sol.speciesIndex (st0.gasComposition iN)) i ({ st0 with sol_calls := l }, out)
      = if readable sol st0.gasComposition sol.nSpecies i
            ∧ readable sol st0.gasComposition sol.nSpecies iN then
          some ({ st0 with sol_calls := l ++ [Call.speciesIndex (st0.gasComposition i)] },
            Function.update out i
              (diffusionCoefficient st0.Density prefactor wdata ddata st0.molarMasses
                (speciesIdx sol st0.gasComposition i) (speciesIdx sol st0.gasComposition iN)))
        else none := by
  by_cases hok : readable sol st0.gasComposition sol.nSpecies i
      ∧ readable sol st0.gasComposition sol.nSpecies iN
  · rw [if_pos hok]
    obtain ⟨h1, hk⟩ := (readable_iff sol st0 sol.nSpecies i).mp hok.1
    obtain ⟨h2, hkN⟩ := (readable_iff sol st0 sol.nSpecies iN).mp hok.2
    unfold enthalpyDiffusivityBody diffusionCoefficient
    simp only []
    rw [h1, h2]
    simp [Vec.read, hk, hkN, CFluidCantera.call]
  · rw [if_neg hok]
    unfold enthalpyDiffusivityBody
    simp only []
    cases h1 : sol.speciesIndex (st0.gasComposition i) with
    | none => rfl
    | some k =>
      cases h2 : sol.speciesIndex (st0.gasComposition iN) with
      | none => rfl
      | some kN =>
        have hnot : ¬ (k < sol.nSpecies ∧ kN < sol.nSpecies) := by
          intro h
          apply hok
          constructor
          · unfold readable speciesIdx
            rw [h1]
            exact ⟨rfl, h.1⟩
          · unfold readable speciesIdx
            rw [h2]
            exact ⟨rfl, h.2⟩
        by_cases hk : k < sol.nSpecies
        · have hkN : ¬ kN < sol.nSpecies := fun h => hnot ⟨hk, h⟩
          simp [Vec.read, hk, hkN]
        · simp [Vec.read, hk]

theorem diffusionLoop_eq (sol : Solution) (st : CFluidCantera) (prefactor : su2double)
    (w : ℕ → su2double) (cs : List Call) (out : ℕ → su2double)
    (hn : 1 ≤ st.n_species_mixture)
    (hall : allReadable sol st.gasComposition sol.nSpecies st.n_species_mixture) :
    forRange (st.n_species_mixture - 1)
        (enthalpyDiffusivityBody sol prefactor
          ⟨sol.nSpecies, fun i => if i < sol.nSpecies then w i else 0⟩
          ⟨sol.nSpecies, fun i =>
            if i < sol.nSpecies then sol.getMixDiffCoeffsMass st.sol_state i else 0⟩
          (sol.speciesIndex (st.gasComposition (st.n_species_mixture - 1))))
        (st.calls cs, out)
      = some ({ st with
            sol_calls := st.sol_calls ++ cs
              ++ speciesIndexCalls st.gasComposition (st.n_species_mixture - 1) },
          differentialDiffusion sol st prefactor w out) := by
  have hlast : readable sol st.gasComposition sol.nSpecies (st.n_species_mixture - 1) :=
    hall _ (by omega)
  have hok : ∀ i, i < st.n_species_mixture - 1 →
      readable sol st.gasComposition sol.nSpecies i
        ∧ readable sol st.gasComposition sol.nSpecies (st.n_species_mixture - 1) :=
    fun i hi => ⟨hall i (by omega), hlast⟩
  have key := forRange_guarded st
    (fun i => readable sol st.gasComposition sol.nSpecies i
      ∧ readable sol st.gasComposition sol.nSpecies (st.n_species_mixture - 1))
    (fun i => Call.speciesIndex (st.gasComposition i))
    (fun i => diffusionCoefficient st.Density prefactor
      (fun i => if i < sol.nSpecies then w i else 0)
      (fun i => if i < sol.nSpecies then sol.getMixDiffCoeffsMass st.sol_state i else 0)
      st.molarMasses (speciesIdx sol st.gasComposition i)
      (speciesIdx sol st.gasComposition (st.n_species_mixture - 1)))
    _ (fun i l out => enthalpyDiffusivityBody_eq sol prefactor _ _ st
        (st.n_species_mixture - 1) i l out)
    (st.n_species_mixture - 1) (st.sol_calls ++ cs) out
  rw [if_pos hok] at key
  have hcalls : st.calls cs = { st with sol_calls := st.sol_calls ++ cs } := rfl
  rw [hcalls, key]
  congr 2
  funext i
  unfold differentialDiffusion diffusionCoefficient
  by_cases hi : i < st.n_species_mixture - 1
  · have h1 := speciesIdx_lt sol st _ _ hall i (by omega)
    have h2 := speciesIdx_lt sol st _ _ hall (st.n_species_mixture - 1) (by omega)
    simp only [if_pos hi, if_pos h1, if_pos h2]
  · simp only [if_neg hi]

theorem GetEnthalpyDiffusivity_eq (sol : Solution) (st : CFluidCantera)
    (out : ℕ → su2double) (hn : 1 ≤ st.n_species_mixture)
    (hall : allReadable sol st.gasComposition sol.nSpecies st.n_species_mixture) :
    GetEnthalpyDiffusivity sol out st
      = some ({ st with sol_calls := st.sol_calls ++ diffusionCalls st Call.getEnthalpy_RT_ref },
          differentialDiffusion sol st (sol.RT st.sol_state)
            (sol.getEnthalpy_RT_ref st.sol_state) out) := by
  unfold GetEnthalpyDiffusivity
  simp only []
  rw [fill_zeros _ _ _ (le_refl _), Option.some_bind, fill_zeros _ _ _ (le_refl _),
    Option.some_bind]
  have key := diffusionLoop_eq sol st (sol.RT st.sol_state)
    (sol.getEnthalpy_RT_ref st.sol_state)
    [Call.nSpecies, Call.RT, Call.getEnthalpy_RT_ref, Call.getMixDiffCoeffsMass,
      Call.speciesIndex (st.gasComposition (st.n_species_mixture - 1))] out hn hall
  simp only [diffusionCalls, ← List.append_assoc]
  exact key

theorem GetGradEnthalpyDiffusivity_eq (sol : Solution) (st : CFluidCantera)
    (out : ℕ → su2double) (hn : 1 ≤ st.n_species_mixture)
    (hall : allReadable sol st.gasComposition sol.nSpecies st.n_species_mixture) :
    GetGradEnthalpyDiffusivity sol out st
      = some ({ st with sol_calls := st.sol_calls ++ diffusionCalls st Call.getCp_R_ref },
          differentialDiffusion sol st (sol.RT st.sol_state / st.Temperature)
            (sol.getCp_R_ref st.sol_state) out) := by
  unfold GetGradEnthalpyDiffusivity
  simp only []
  rw [fill_zeros _ _ _ (le_refl _), Option.some_bind, fill_zeros _ _ _ (le_refl _),
    Option.some_bind]
  have key := diffusionLoop_eq sol st (sol.RT st.sol_state / st.Temperature)
    (sol.getCp_R_ref st.sol_state)
    [Call.nSpecies, Call.RT, Call.getCp_R_ref, Call.getMixDiffCoeffsMass,
      Call.speciesIndex (st.gasComposition (st.n_species_mixture - 1))] out hn hall
  simp only [diffusionCalls, ← List.append_assoc]
  exact key

/-- C16.  For `n ≥ 1` tracked species that all resolve in the backend, and with `molarMasses`
holding the backend's molecular weights, `GetEnthalpyDiffusivity` returns and writes, for each
`i < n - 1` and only for those, `coeff[i] = ρ * RT * (h_ref[idx i] * D[idx i] / M[idx i]
- h_ref[idx n] * D[idx n] / M[idx n])` with the stored density, the backend's `RT`, reference
enthalpies, mixture-averaged diffusivities and molecular weights, `idx n` being the backend
index of the last tracked species; `coeff[i]` is 0 when species `i` has the same
`h_ref * D / M` as that species.  The engine changes only in its record of backend calls. -/
theorem GetEnthalpyDiffusivity_coefficients (sol : Solution) (st : CFluidCantera)
    (out : ℕ → su2double) (hn : 1 ≤ st.n_species_mixture)
    (hall : allReadable sol st.gasComposition sol.nSpecies st.n_species_mixture)
    (hM : ∀ k, k < sol.nSpecies → st.molarMasses k = sol.getMolecularWeights k) :
    ∃ r, GetEnthalpyDiffusivity sol out st = some r
      ∧ r.1 = { st with sol_calls := st.sol_calls ++ diffusionCalls st Call.getEnthalpy_RT_ref }
      ∧ (∀ i, i < st.n_species_mixture - 1 →
          r.2 i = st.Density * sol.RT st.sol_state
            * (sol.getEnthalpy_RT_ref st.sol_state (speciesIdx sol st.gasComposition i)
                  * sol.getMixDiffCoeffsMass st.sol_state (speciesIdx sol st.gasComposition i)
                  / sol.getMolecularWeights (speciesIdx sol st.gasComposition i)
                - sol.getEnthalpy_RT_ref st.sol_state
                      (speciesIdx sol st.gasComposition (st.n_species_mixture - 1))
                    * sol.getMixDiffCoeffsMass st.sol_state
                      (speciesIdx sol st.gasComposition (st.n_species_mixture - 1))
                    / sol.getMolecularWeights
                      (speciesIdx sol st.gasComposition (st.n_species_mixture - 1))))
      ∧ (∀ i, st.n_species_mixture - 1 ≤ i → r.2 i = out i)
      ∧ (∀ i, i < st.n_species_mixture - 1 →
          sol.getEnthalpy_RT_ref st.sol_state (speciesIdx sol st.gasComposition i)
              * sol.getMixDiffCoeffsMass st.sol_state (speciesIdx sol st.gasComposition i)
              / sol.getMolecularWeights (speciesIdx sol st.gasComposition i)
            = sol.getEnthalpy_RT_ref st.sol_state
                  (speciesIdx sol st.gasComposition (st.n_species_mixture - 1))
                * sol.getMixDiffCoeffsMass st.sol_state
                  (speciesIdx sol st.gasComposition (st.n_species_mixture - 1))
                / sol.getMolecularWeights
                  (speciesIdx sol st.gasComposition (st.n_species_mixture - 1)) →
          r.2 i = 0) := by
  rw [GetEnthalpyDiffusivity_eq sol st out hn hall]
  have hval : ∀ i, i < st.n_species_mixture - 1 →
      differentialDiffusion sol st (sol.RT st.sol_state)
          (sol.getEnthalpy_RT_ref st.sol_state) out i
        = st.Density * sol.RT st.sol_state
          * (sol.getEnthalpy_RT_ref st.sol_state (speciesIdx sol st.gasComposition i)
                * sol.getMixDiffCoeffsMass st.sol_state (speciesIdx sol st.gasComposition i)
                / sol.getMolecularWeights (speciesIdx sol st.gasComposition i)
              - sol.getEnthalpy_RT_ref st.sol_state
                    (speciesIdx sol st.gasComposition (st.n_species_mixture - 1))
                  * sol.getMixDiffCoeffsMass st.sol_state
                    (speciesIdx sol st.gasComposition (st.n_species_mixture - 1))
                  / sol.getMolecularWeights
                    (speciesIdx sol st.gasComposition (st.n_species_mixture - 1))) := by
    intro i hi
    have h1 := speciesIdx_lt sol st _ _ hall i (by omega)
    have h2 := speciesIdx_lt sol st _ _ hall (st.n_species_mixture - 1) (by omega)
    simp only [differentialDiffusion, diffusionCoefficient, if_pos hi, hM _ h1, hM _ h2]
  refine ⟨_, rfl, rfl, hval, ?_, ?_⟩
  · intro i hi
    have hlt : ¬ i < st.n_species_mixture - 1 := by omega
    simp only [differentialDiffusion, if_neg hlt]
  · intro i hi heq
    show differentialDiffusion sol st (sol.RT st.sol_state)
      (sol.getEnthalpy_RT_ref st.sol_state) out i = 0
    rw [hval i hi, heq, sub_self, mul_zero]

/-- Instance of `GetEnthalpyDiffusivity_coefficients`: the engine `st2used` (density 7, backend
at 2000 K) with the backend `stepSol 2`; slot 0 is written and slot 1 keeps its value. -/
theorem GetEnthalpyDiffusivity_coefficients_witness :
    (1 ≤ st2used.n_species_mixture
        ∧ allReadable (stepSol 2) st2used.gasComposition (stepSol 2).nSpecies
            st2used.n_species_mixture
        ∧ ∀ k, k < (stepSol 2).nSpecies →
            st2used.molarMasses k = (stepSol 2).getMolecularWeights k)
      ∧ (∃ r, GetEnthalpyDiffusivity (stepSol 2) (fun _ => 99) st2used = some r
          ∧ ∀ i, st2used.n_species_mixture - 1 ≤ i → r.2 i = (fun _ => 99) i)
      ∧ (GetEnthalpyDiffusivity (stepSol 2) (fun _ => 99) st2used).map
          (fun r => (r.2 0, r.2 1))
        = some (7 * (8314 * 2000)
            * (-4 * (1 / 10000) / 16 - -30 * (1 / 20000) / 44), 99) :=
  have hall : allReadable (stepSol 2) st2used.gasComposition (stepSol 2).nSpecies
      st2used.n_species_mixture := by decide
  have hM : ∀ k, k < (stepSol 2).nSpecies →
      st2used.molarMasses k = (stepSol 2).getMolecularWeights k := fun _ _ => rfl
  ⟨⟨by decide, hall, hM⟩,
   (GetEnthalpyDiffusivity_coefficients (stepSol 2) st2used (fun _ => 99) (by decide) hall
      hM).imp (fun _ h => ⟨h.1, h.2.2.2.1⟩),
   by decide!⟩

/-- C17.  For `n ≥ 1` tracked species that all resolve in the backend,
`GetGradEnthalpyDiffusivity` and `GetEnthalpyDiffusivity` are the generic function
`differentialDiffusion` at (prefactor `RT / Temperature`, weights the reference heat capacities)
and at (prefactor `RT`, weights the reference enthalpies): for `i < n - 1`,
`grad_coeff[i] = ρ * R * (cp_ref[idx i] * D[idx i] / M[idx i]
- cp_ref[idx n] * D[idx n] / M[idx n])` with `R` the backend's `RT` divided by the stored
temperature.  `R` is the gas constant `Ru` of a backend with `RT = Ru * T` whenever the stored
temperature is the backend's current temperature and is not zero. -/
theorem GetGradEnthalpyDiffusivity_generic (sol : Solution) (st : CFluidCantera)
    (out : ℕ → su2double) (hn : 1 ≤ st.n_species_mixture)
    (hall : allReadable sol st.gasComposition sol.nSpecies st.n_species_mixture) :
    GetGradEnthalpyDiffusivity sol out st
        = some ({ st with sol_calls := st.sol_calls ++ diffusionCalls st Call.getCp_R_ref },
            differentialDiffusion sol st (sol.RT st.sol_state / st.Temperature)
              (sol.getCp_R_ref st.sol_state) out)
      ∧ GetEnthalpyDiffusivity sol out st
        = some ({ st with
              sol_calls := st.sol_calls ++ diffusionCalls st Call.getEnthalpy_RT_ref },
            differentialDiffusion sol st (sol.RT st.sol_state)
              (sol.getEnthalpy_RT_ref st.sol_state) out)
      ∧ (∀ i, i < st.n_species_mixture - 1 →
          differentialDiffusion sol st (sol.RT st.sol_state / st.Temperature)
              (sol.getCp_R_ref st.sol_state) out i
            = st.Density * (sol.RT st.sol_state / st.Temperature)
              * (sol.getCp_R_ref st.sol_state (speciesIdx sol st.gasComposition i)
                    * sol.getMixDiffCoeffsMass st.sol_state (speciesIdx sol st.gasComposition i)
                    / st.molarMasses (speciesIdx sol st.gasComposition i)
                  - sol.getCp_R_ref st.sol_state
                        (speciesIdx sol st.gasComposition (st.n_species_mixture - 1))
                      * sol.getMixDiffCoeffsMass st.sol_state
                        (speciesIdx sol st.gasComposition (st.n_species_mixture - 1))
                      / st.molarMasses
                        (speciesIdx sol st.gasComposition (st.n_species_mixture - 1))))
      ∧ ∀ Ru : su2double, sol.RT st.sol_state = Ru * st.sol_state.T →
          st.Temperature = st.sol_state.T → st.Temperature ≠ 0 →
          sol.RT st.sol_state / st.Temperature = Ru := by
  refine ⟨GetGradEnthalpyDiffusivity_eq sol st out hn hall,
    GetEnthalpyDiffusivity_eq sol st out hn hall, ?_, ?_⟩
  · intro i hi
    simp only [differentialDiffusion, diffusionCoefficient, if_pos hi]
  · intro Ru hRT hT h0
    rw [hRT, ← hT]
    field_simp

/-- Instance of `GetGradEnthalpyDiffusivity_generic`: the engine `st2used` (density 7, stored
temperature 2000, backend at 2000 K) with the backend `stepSol 2`, whose `RT` is `8314 * T`. -/
theorem GetGradEnthalpyDiffusivity_generic_witness :
    (1 ≤ st2used.n_species_mixture
        ∧ allReadable (stepSol 2) st2used.gasComposition (stepSol 2).nSpecies
            st2used.n_species_mixture)
      ∧ GetGradEnthalpyDiffusivity (stepSol 2) (fun _ => 99) st2used
        = some ({ st2used with
              sol_calls := st2used.sol_calls ++ diffusionCalls st2used Call.getCp_R_ref },
            differentialDiffusion (stepSol 2) st2used
              ((stepSol 2).RT st2used.sol_state / st2used.Temperature)
              ((stepSol 2).getCp_R_ref st2used.sol_state) (fun _ => 99))
      ∧ (GetGradEnthalpyDiffusivity (stepSol 2) (fun _ => 99) st2used).map
          (fun r => (r.2 0, r.2 1))
        = some (7 * 8314 * (5 * (1 / 10000) / 16 - 4 * (1 / 20000) / 44), 99) :=
  have hall : allReadable (stepSol 2) st2used.gasComposition (stepSol 2).nSpecies
      st2used.n_species_mixture := by decide
  ⟨⟨by decide, hall⟩,
   (GetGradEnthalpyDiffusivity_generic (stepSol 2) st2used (fun _ => 99) (by decide) hall).1,
   by decide!⟩

/-! ## Construction: proofs -/

theorem foldl_gasComposition (f : ℕ → String) (st : CFluidCantera) (m : ℕ) :
    (List.range m).foldl
        (fun s iVar => { s with gasComposition := Function.update s.gasComposition iVar (f iVar) })
        st
      = { st with gasComposition := fun i => if i < m then f i else st.gasComposition i } := by
  induction m with
  | zero => simp
  | succ m ih =>
    rw [List.range_succ, List.foldl_append, ih]
    simp only [List.foldl_cons, List.foldl_nil]
    rw [update_below f st.gasComposition m _ rfl]

theorem foldl_MassDiffusivityPointers (f : ℕ → Option DiffusivityModel) (st : CFluidCantera)
    (m : ℕ) :
    (List.range m).foldl
        (fun s iVar => { s with
          MassDiffusivityPointers := Function.update s.MassDiffusivityPointers iVar (f iVar) })
        st
      = { st with
          MassDiffusivityPointers := fun i =>
            if i < m then f i else st.MassDiffusivityPointers i } := by
  induction m with
  | zero => simp
  | succ m ih =>
    rw [List.range_succ, List.foldl_append, ih]
    simp only [List.foldl_cons, List.foldl_nil]
    rw [update_below f st.MassDiffusivityPointers m _ rfl]

theorem SetMassDiffusivityModel_eq (config : CConfig) (st : CFluidCantera) :
    SetMassDiffusivityModel config st
      = { st with
          MassDiffusivityPointers := fun i =>
            if i < st.n_species_mixture then some (config.MakeMassDiffusivityModel i)
            else st.MassDiffusivityPointers i } := by
  unfold SetMassDiffusivityModel
  exact foldl_MassDiffusivityPointers (fun i => some (config.MakeMassDiffusivityModel i)) st _

/-- C18.  The constructor ends with the fatal error `Too many species, increase ARRAYSIZE`
if and only if the species count `n = GetnSpecies() + 1` exceeds `ARRAYSIZE`.  For
`n ≤ ARRAYSIZE` it returns an engine with species count `n` and the given operating pressure,
in which `molarMasses` holds the backend's molecular weights, slot `i < n` of `gasComposition`
holds the `i`-th configured species name and slot `i < n` of `MassDiffusivityPointers` holds
the model made for species index `i`; the slots from `n` on and all other members are as they
were. -/
theorem constructor_species_count (ARRAYSIZE : ℕ) (sol : Solution)
    (value_pressure_operating : su2double) (config : CConfig) (object : CFluidCantera) :
    (CFluidCantera.CFluidCantera ARRAYSIZE sol value_pressure_operating config object
          = Except.error tooManySpecies
        ↔ ARRAYSIZE < config.nSpecies + 1)
      ∧ (config.nSpecies + 1 ≤ ARRAYSIZE →
          CFluidCantera.CFluidCantera ARRAYSIZE sol value_pressure_operating config object
            = Except.ok { object with
                n_species_mixture := config.nSpecies + 1
                Pressure_Thermodynamic := value_pressure_operating
                molarMasses := fun k =>
                  if k < sol.nSpecies then sol.getMolecularWeights k else object.molarMasses k
                gasComposition := fun i =>
                  if i < config.nSpecies + 1 then config.Chemical_GasComposition i
                  else object.gasComposition i
                MassDiffusivityPointers := fun i =>
                  if i < config.nSpecies + 1 then some (config.MakeMassDiffusivityModel i)
                  else object.MassDiffusivityPointers i
                sol_calls := object.sol_calls ++ [Call.getMolecularWeights] }) := by
  have hok : config.nSpecies + 1 ≤ ARRAYSIZE →
      CFluidCantera.CFluidCantera ARRAYSIZE sol value_pressure_operating config object
        = Except.ok { object with
            n_species_mixture := config.nSpecies + 1
            Pressure_Thermodynamic := value_pressure_operating
            molarMasses := fun k =>
              if k < sol.nSpecies then sol.getMolecularWeights k else object.molarMasses k
            gasComposition := fun i =>
              if i < config.nSpecies + 1 then config.Chemical_GasComposition i
              else object.gasComposition i
            MassDiffusivityPointers := fun i =>
              if i < config.nSpecies + 1 then some (config.MakeMassDiffusivityModel i)
              else object.MassDiffusivityPointers i
            sol_calls := object.sol_calls ++ [Call.getMolecularWeights] } := by
    intro hle
    unfold CFluidCantera.CFluidCantera
    simp only []
    rw [if_neg (by omega), foldl_gasComposition, SetMassDiffusivityModel_eq]
    rfl
  refine ⟨⟨?_, ?_⟩, hok⟩
  · intro herr
    by_contra hnot
    rw [hok (by omega)] at herr
    exact absurd herr (by simp)
  · intro hgt
    unfold CFluidCantera.CFluidCantera
    simp only []
    rw [if_pos (by omega)]

/-- Instance of `constructor_species_count`: one transported species, `FUEL` with a
constant-value law, and the balance species `PROD`.  With `ARRAYSIZE = 16` the engine is built
and holds one model per species index; with `ARRAYSIZE = 1` the fatal error is raised. -/
theorem constructor_species_count_witness :
    config2.nSpecies + 1 ≤ 16
      ∧ (CFluidCantera.CFluidCantera 16 (stepSol 2) 101325 config2 st3).toOption.map
          (fun r => (r.n_species_mixture, r.gasComposition 0, r.gasComposition 1))
        = some (2, "FUEL", "PROD")
      ∧ (CFluidCantera.CFluidCantera 16 (stepSol 2) 101325 config2 st3).toOption.map
          (fun r => (r.MassDiffusivityPointers 0, r.MassDiffusivityPointers 1))
        = some (some (DiffusivityModel.constantDiffusivity (1 / 1000)),
            some DiffusivityModel.backend)
      ∧ (CFluidCantera.CFluidCantera 16 (stepSol 2) 101325 config2 st3).toOption.map
          (fun r => (r.molarMasses 0, r.molarMasses 1)) = some (16, 44)
      ∧ CFluidCantera.CFluidCantera 1 (stepSol 2) 101325 config2 st3
        = Except.error tooManySpecies := by
  have h := (constructor_species_count 16 (stepSol 2) 101325 config2 st3).2 (by decide)
  refine ⟨by decide, ?_, ?_, ?_, ?_⟩
  · rw [h]; decide
  · rw [h]; decide!
  · rw [h]; decide!
  · exact (constructor_species_count 1 (stepSol 2) 101325 config2 st3).1.mpr (by decide)

end SU2
